import Mathlib

/-!
# explorer: a verification development

A shallow embedding of `src/explorer.c` (catalog, filter engine, navigation
state) together with theorems about it.

Conventions of the embedding.

* A byte is a `Nat`; a C string is the list of its bytes, read up to the first
  NUL byte or the end of the list (`cstr`).
* `size_t` values are `Nat`s.  `uint32_t` stores are written `% 2 ^ 32`.
* Global variables of the program are the fields of `State`; every function of
  the program that changes globals is a function `State → State` (with the
  answers of the operating system passed as extra arguments).
* Terminal output (`print_view`, `update_selection`) does not change any global
  that the functions below read, and is left out.
-/

namespace Explorer

/-! ## C library -/

/-- The function `isupper` of `<ctype.h>` in the "C" locale (the program never
calls `setlocale`). -/
def isupper (c : Nat) : Bool := decide (65 ≤ c) && decide (c ≤ 90)

/-- The function `tolower` of `<ctype.h>` in the "C" locale. -/
def tolower (c : Nat) : Nat := if isupper c then c + 32 else c

/-- The function `isalnum` of `<ctype.h>` in the "C" locale. -/
def isalnum (c : Nat) : Bool :=
  (decide (48 ≤ c) && decide (c ≤ 57)) || (decide (65 ≤ c) && decide (c ≤ 90))
    || (decide (97 ≤ c) && decide (c ≤ 122))

/-- The bytes of the C string that starts at the head of a buffer: everything
before the first NUL byte. -/
def cstr (buf : List Nat) : List Nat := buf.takeWhile (fun b => b != 0)

/-- The function `strlen`. -/
def strlen (buf : List Nat) : Nat := (cstr buf).length

/-- Byte-wise comparison of two NUL-free byte lists, the end of a list reading
as the terminating NUL: the loop of `strcmp`. -/
def cmp_bytes : List Nat → List Nat → Int
  | [], [] => 0
  | [], b :: _ => 0 - (b : Int)
  | a :: _, [] => (a : Int)
  | a :: as, b :: bs => if a = b then cmp_bytes as bs else (a : Int) - (b : Int)

/-- The function `strcmp`: negative, zero or positive. -/
def strcmp (a b : List Nat) : Int := cmp_bytes (cstr a) (cstr b)

/-- First offset at which `needle` is a prefix of the rest of `hay`. -/
def first_occ (needle : List Nat) : List Nat → Option Nat
  | [] => if needle.isPrefixOf [] then some 0 else none
  | h :: t => if needle.isPrefixOf (h :: t) then some 0 else (first_occ needle t).map (· + 1)

/-- The function `strstr`, returning the offset `match - hay` of the first
occurrence, or `none` for `NULL`. -/
def strstr (hay needle : List Nat) : Option Nat := first_occ (cstr needle) (cstr hay)

/-- The function `memmove(buf + dst, buf + src, n)` inside one buffer. -/
def memmove (buf : List Nat) (dst src n : Nat) : List Nat :=
  buf.take dst ++ ((buf.drop src).take n ++ buf.drop (dst + n))

/-! ## Data model -/

/-- The constant `UINT32_MAX`. -/
def UINT32_MAX : Nat := 4294967295

/-- The values of `d_type` in `<dirent.h>`. -/
def DT_UNKNOWN : Nat := 0
/-- Named pipe. -/
def DT_FIFO : Nat := 1
/-- Character device. -/
def DT_CHR : Nat := 2
/-- Directory. -/
def DT_DIR : Nat := 4
/-- Block device. -/
def DT_BLK : Nat := 6
/-- Regular file. -/
def DT_REG : Nat := 8
/-- Symbolic link. -/
def DT_LNK : Nat := 10
/-- Socket. -/
def DT_SOCK : Nat := 12

/-- The record `struct file`. -/
structure file where
  name : List Nat
  name_lower : List Nat
  length : Nat
  type : Nat
  exec : Bool
  deriving DecidableEq, Repr, Inhabited

/-- The record `struct filtered_file`. -/
structure filtered_file where
  idx : Nat
  match_start : Nat
  deriving DecidableEq, Repr, Inhabited

/-- The accessor `file_name` (every slot below `files_size` has a name). -/
def file_name (f : file) : List Nat := f.name

/-- The accessor `file_name_lower`. -/
def file_name_lower (f : file) : List Nat := f.name_lower

/-- The comparator `compare_files` handed to `qsort`. -/
def compare_files (a b : file) : Int := strcmp (file_name a) (file_name b)

/-- The global variables of the program.  `files` holds the `files_size` live
slots of the array `files`, `filtered` the `filtered_size` live slots of
`filtered`, `cursor_stack` the `cursor_stack_size` live slots of
`cursor_stack`; `search_query` is the whole 256-byte buffer. -/
structure State where
  files : List file
  filtered : List filtered_file
  search_query : List Nat
  search_len : Nat
  search_cursor : Nat
  search_open : Bool
  filter_case_sensitive : Bool
  prev_search_len : Nat
  page : Nat
  page_size : Nat
  win_cols : Nat
  idx : Nat
  cursor : Nat
  cursor_stack : List Nat
  deriving DecidableEq, Repr

/-! ## Filter engine -/

/-- The haystack chosen inside the loops of `apply_filter`. -/
def filter_hay (case_sensitive : Bool) (f : file) : List Nat :=
  if case_sensitive then file_name f else file_name_lower f

/-- The view `get_files` and `apply_filter` write for an empty query. -/
def identity_view (files_size : Nat) : List filtered_file :=
  (List.range files_size).map (fun i => ⟨i % 2 ^ 32, 0⟩)

/-- The function `apply_filter`. -/
def apply_filter (s : State) : State :=
  let typed := s.search_query.take s.search_len
  let case_sensitive := typed.any isupper
  let search_query_lower := typed.map tolower ++ [0]
  let incremental := decide (s.search_len > s.prev_search_len) && decide (s.prev_search_len > 0)
  let needle := if case_sensitive then s.search_query else search_query_lower
  let view : List filtered_file :=
    if s.search_len = 0 then identity_view s.files.length
    else if incremental then
      s.filtered.filterMap (fun e =>
        (strstr (filter_hay case_sensitive (s.files.getD e.idx default)) needle).map
          (fun m => ⟨e.idx, m⟩))
    else
      (List.range s.files.length).filterMap (fun i =>
        (strstr (filter_hay case_sensitive (s.files.getD i default)) needle).map
          (fun m => ⟨i % 2 ^ 32, m⟩))
  { s with
    filter_case_sensitive := case_sensitive
    prev_search_len := s.search_len
    filtered := view
    idx := 0
    cursor := 0
    page := 0 }

/-! ## Query editing -/

/-- The function `search_delete_char_back`. -/
def search_delete_char_back (s : State) : State :=
  if s.search_cursor > 0 then
    { s with
      search_query := memmove s.search_query (s.search_cursor - 1) s.search_cursor
        (s.search_len - s.search_cursor + 1)
      search_cursor := s.search_cursor - 1
      search_len := s.search_len - 1 }
  else s

/-- The function `search_delete_char_forward`. -/
def search_delete_char_forward (s : State) : State :=
  if s.search_cursor < s.search_len then
    { s with
      search_query := memmove s.search_query s.search_cursor (s.search_cursor + 1)
        (s.search_len - s.search_cursor)
      search_len := s.search_len - 1 }
  else s

/-- The function `is_word_char`. -/
def is_word_char (c : Nat) : Bool := isalnum c || c == 95

/-- The loop `while (search_cursor > 0 && is_word_char(search_query[search_cursor - 1]) == word)
search_cursor--;`, by recursion on `search_cursor`. -/
def word_back (buf : List Nat) (word : Bool) : Nat → Nat
  | 0 => 0
  | c + 1 => if is_word_char (buf.getD c 0) == word then word_back buf word c else c + 1

/-- The loop `while (search_cursor < search_len && is_word_char(search_query[search_cursor]) == word)
search_cursor++;`, by recursion on the distance `search_len - search_cursor`. -/
def word_forward (buf : List Nat) (word : Bool) (search_len : Nat) : Nat → Nat → Nat
  | 0, c => c
  | fuel + 1, c =>
    if c < search_len ∧ (is_word_char (buf.getD c 0) == word) = true then
      word_forward buf word search_len fuel (c + 1)
    else c

/-- The function `search_delete_word_back`. -/
def search_delete_word_back (s : State) : State :=
  if s.search_cursor > 0 then
    let end_ := s.search_cursor
    let word := is_word_char (s.search_query.getD (s.search_cursor - 1) 0)
    let c := word_back s.search_query word s.search_cursor
    { s with
      search_query := memmove s.search_query c end_ (s.search_len - end_ + 1)
      search_len := s.search_len - (end_ - c)
      search_cursor := c }
  else s

/-- The function `search_delete_word_forward`. -/
def search_delete_word_forward (s : State) : State :=
  if s.search_cursor < s.search_len then
    let start := s.search_cursor
    let word := is_word_char (s.search_query.getD s.search_cursor 0)
    let c := word_forward s.search_query word s.search_len (s.search_len - s.search_cursor)
      s.search_cursor
    { s with
      search_query := memmove s.search_query start c (s.search_len - c + 1)
      search_len := s.search_len - (c - start)
      search_cursor := start }
  else s

/-- The function `search_delete_to_start`. -/
def search_delete_to_start (s : State) : State :=
  if s.search_cursor > 0 then
    { s with
      search_query := memmove s.search_query 0 s.search_cursor (s.search_len - s.search_cursor + 1)
      search_len := s.search_len - s.search_cursor
      search_cursor := 0 }
  else s

/-- The function `search_insert_char`; `sizeof(search_query) - 1` is 255. -/
def search_insert_char (ch : Nat) (s : State) : State :=
  if 32 ≤ ch ∧ ch < 127 ∧ s.search_len < 255 then
    { s with
      search_query := (memmove s.search_query (s.search_cursor + 1) s.search_cursor
        (s.search_len - s.search_cursor + 1)).set s.search_cursor ch
      search_cursor := s.search_cursor + 1
      search_len := s.search_len + 1 }
  else s

/-- The function `search_move_word_back`. -/
def search_move_word_back (s : State) : State :=
  if s.search_cursor > 0 then
    let word := is_word_char (s.search_query.getD (s.search_cursor - 1) 0)
    { s with search_cursor := word_back s.search_query word s.search_cursor }
  else s

/-- The function `search_move_word_forward`. -/
def search_move_word_forward (s : State) : State :=
  if s.search_cursor < s.search_len then
    let word := is_word_char (s.search_query.getD s.search_cursor 0)
    { s with
      search_cursor := word_forward s.search_query word s.search_len
        (s.search_len - s.search_cursor) s.search_cursor }
  else s

/-! ## Navigation

Each move returns the flag the C function returns (`true`: `print_view` was
called) and the new globals.  In a state satisfying the navigation invariant
(`nav_inv` below) with `page_size >= 1`, no subtraction in these functions goes
below zero and every value stays below `filtered_size`, itself at most
`UINT32_MAX`: arithmetic in `Nat` is then the arithmetic of `size_t`. -/

/-- The function `move_to_previous`. -/
def move_to_previous (s : State) : Bool × State :=
  if s.filtered.length = 0 then (false, s)
  else if s.idx = 0 then
    let idx := s.filtered.length - 1
    let new_page := idx / s.page_size
    let s1 := { s with idx := idx, cursor := idx % s.page_size }
    if new_page ≠ s.page then (true, { s1 with page := new_page })
    else (false, s1)
  else
    let s1 := { s with idx := s.idx - 1 }
    if s.cursor = 0 then
      (true, { s1 with cursor := s.page_size - 1, page := s.page - 1 })
    else
      (false, { s1 with cursor := s.cursor - 1 })

/-- The function `move_to_next`. -/
def move_to_next (s : State) : Bool × State :=
  if s.filtered.length = 0 then (false, s)
  else if s.idx = s.filtered.length - 1 then
    let s1 := { s with idx := 0, cursor := 0 }
    if s.page > 0 then (true, { s1 with page := 0 })
    else (false, s1)
  else
    let s1 := { s with idx := s.idx + 1, cursor := s.cursor + 1 }
    if s1.cursor = s.page_size then
      (true, { s1 with cursor := 0, page := s.page + 1 })
    else (false, s1)

/-- The function `move_to_first`. -/
def move_to_first (s : State) : Bool × State :=
  if s.filtered.length = 0 then (false, s)
  else
    let s1 := { s with idx := 0, cursor := 0 }
    if s.page > 0 then (true, { s1 with page := 0 })
    else (false, s1)

/-- The function `move_to_last`. -/
def move_to_last (s : State) : Bool × State :=
  if s.filtered.length = 0 then (false, s)
  else
    let idx := s.filtered.length - 1
    let new_page := idx / s.page_size
    let s1 := { s with idx := idx, cursor := idx % s.page_size }
    if new_page ≠ s.page then (true, { s1 with page := new_page })
    else (false, s1)

/-- The function `move_page_up`. -/
def move_page_up (s : State) : Bool × State :=
  if s.filtered.length = 0 then (false, s)
  else if s.cursor = 0 then
    if s.page = 0 then (false, s)
    else
      let page := s.page - 1
      (true, { s with page := page, idx := page * s.page_size, cursor := 0 })
  else
    (false, { s with idx := s.page * s.page_size, cursor := 0 })

/-- The function `move_page_down`. -/
def move_page_down (s : State) : Bool × State :=
  if s.filtered.length = 0 then (false, s)
  else
    let last_page := (s.filtered.length - 1) / s.page_size
    let page_end :=
      if s.page < last_page then s.page_size - 1 else (s.filtered.length - 1) % s.page_size
    if s.cursor = page_end then
      if s.page ≥ last_page then (false, s)
      else
        let page := s.page + 1
        let page_end :=
          if page < last_page then s.page_size - 1 else (s.filtered.length - 1) % s.page_size
        (true, { s with page := page, idx := page * s.page_size + page_end, cursor := page_end })
    else
      (false, { s with idx := s.page * s.page_size + page_end, cursor := page_end })

/-! ## File catalog

The directory stream, `lstat`, `stat`, `chdir` and the system calls inside
`remove_recursive_at` are the operating system's: their answers are arguments.
Allocation is taken to
succeed (a failed `malloc`/`realloc` ends the process), and `size_t` is taken
to be 64 bits wide, so that the two `SIZE_MAX` guards of `get_files` never
fire below `UINT32_MAX` entries. -/

/-- The fields of `struct dirent` that `get_files` reads; `d_name` is the name
buffer, read as a C string. -/
structure dirent where
  d_name : List Nat
  d_type : Nat
  deriving DecidableEq, Repr, Inhabited

/-- The ways `get_files` ends the process (`exit(EXIT_FAILURE)`). -/
inductive Fatal where
  | too_many_files
  deriving DecidableEq, Repr

/-- The macro `S_ISDIR` on `st_mode`. -/
def S_ISDIR (mode : Nat) : Bool := mode &&& 61440 == 16384
/-- The macro `S_ISREG` on `st_mode`. -/
def S_ISREG (mode : Nat) : Bool := mode &&& 61440 == 32768
/-- The macro `S_ISLNK` on `st_mode`. -/
def S_ISLNK (mode : Nat) : Bool := mode &&& 61440 == 40960

/-- The block of `get_files` that resolves `DT_UNKNOWN`/`DT_REG` through
`lstat`; `lstat name` is `some st_mode` when the call returns 0. -/
def resolve_type (lstat : List Nat → Option Nat) (f : file) : file :=
  if f.type = DT_UNKNOWN ∨ f.type = DT_REG then
    match lstat (file_name f) with
    | some mode =>
      let type :=
        if S_ISDIR mode then DT_DIR
        else if S_ISREG mode then DT_REG
        else if S_ISLNK mode then DT_LNK
        else f.type
      { f with type := type, exec := if S_ISREG mode then mode &&& 73 != 0 else f.exec }
    | none => f
  else f

/-- The `readdir` loop of `get_files`: `acc` is the array `files` so far. -/
def read_entries (lstat : List Nat → Option Nat) : List dirent → List file → Except Fatal (List file)
  | [], acc => .ok acc
  | entry :: rest, acc =>
    if entry.d_name.getD 0 0 = 46 then read_entries lstat rest acc
    else if acc.length = UINT32_MAX then .error .too_many_files
    else
      let name_len := strlen entry.d_name
      if name_len = 0 then read_entries lstat rest acc
      else
        let name := cstr entry.d_name
        if name.getD 0 0 = 0 then read_entries lstat rest acc
        else
          let name_lower := (List.range name_len).map (fun i => tolower (entry.d_name.getD i 0))
          read_entries lstat rest (acc ++ [resolve_type lstat
            { name := name, name_lower := name_lower, length := name_len,
              type := entry.d_type, exec := false }])

/-- The library function `qsort` with the comparator `compare_files`: an
insertion sort stands for the unspecified sorting algorithm. -/
def qsort (fs : List file) : List file :=
  fs.insertionSort (fun a b => compare_files a b ≤ 0)

/-- The function `get_files`; `dir` is `none` when `opendir` fails, else the
entries `readdir` returns. -/
def get_files (dir : Option (List dirent)) (lstat : List Nat → Option Nat) (s : State) :
    Except Fatal State :=
  match dir with
  | none => .ok { s with files := [], filtered := [], prev_search_len := 0 }
  | some entries =>
    match read_entries lstat entries [] with
    | .error e => .error e
    | .ok fs =>
      let files := qsort fs
      .ok { s with files := files, filtered := identity_view files.length, prev_search_len := 0 }

/-- The loop of the library function `bsearch` over `n` elements, `cmp i`
being the comparator applied to the key and element `i`; `fuel` bounds the
iterations (`n` is enough, the interval shrinks each time). -/
def bsearch_loop (cmp : Nat → Int) : Nat → Nat → Nat → Option Nat
  | 0, _, _ => none
  | fuel + 1, l, u =>
    if l < u then
      let i := (l + u) / 2
      if cmp i < 0 then bsearch_loop cmp fuel l i
      else if cmp i > 0 then bsearch_loop cmp fuel (i + 1) u
      else some i
    else none

/-- The library function `bsearch`, returning the position of the element
found. -/
def bsearch (cmp : Nat → Int) (n : Nat) : Option Nat := bsearch_loop cmp (n + 1) 0 n

/-- The constant `PATH_MAX`. -/
def PATH_MAX : Nat := 4096

/-- The file a filtered entry points to: `files + filtered[i].idx`. -/
def file_at (s : State) (i : Nat) : file := s.files.getD (s.filtered.getD i default).idx default

/-- The comparator `compare_name_to_filtered` at element `i` of `filtered`. -/
def compare_name_to_filtered (s : State) (name : List Nat) (i : Nat) : Int :=
  strcmp name (file_name (file_at s i))

/-- The comparator `compare_name_to_file` at element `i` of `files`. -/
def compare_name_to_file (s : State) (name : List Nat) (i : Nat) : Int :=
  strcmp name (file_name (s.files.getD i default))

/-- The function `clear_search`. -/
def clear_search (s : State) : State :=
  let selection :=
    if s.filtered.length > 0 then (cstr (file_name (file_at s s.idx))).take (PATH_MAX - 1) else []
  let s1 := apply_filter
    { s with
      search_query := s.search_query.set 0 0
      search_len := 0
      search_cursor := 0
      search_open := false
      prev_search_len := 0 }
  if selection.getD 0 0 ≠ 0 then
    match bsearch (compare_name_to_filtered s1 selection) s1.filtered.length with
    | some found =>
      { s1 with idx := found, page := found / s1.page_size, cursor := found % s1.page_size }
    | none => s1
  else s1

/-! ## Session controller -/

/-- The answers of the operating system during one pass of the event loop. -/
structure Env where
  /-- The value of `terminate_signal` at the top of the loop. -/
  terminate_signal : Nat
  /-- Whether a `getchar` that returns `EOF` left `errno == EINTR`. -/
  interrupted : Bool
  /-- The value of `terminate_signal` after a `getchar` that returned `EOF`. -/
  signal_at_eof : Nat
  /-- The flag `term_resized`. -/
  term_resized : Bool
  /-- What `ioctl(TIOCGWINSZ)` gives as `(ws_row, ws_col)`, `none` on failure. -/
  winsize : Option (Nat × Nat)
  /-- The directory stream `get_files` reads. -/
  dir : Option (List dirent)
  /-- The `st_mode` that `lstat` gives for a name. -/
  lstat : List Nat → Option Nat
  /-- Whether `stat` succeeds on the selection and says it is a directory. -/
  stat_is_dir : Bool
  /-- Whether `chdir` returns 0. -/
  chdir_ok : Bool
  /-- Whether the system calls of `remove_recursive_at` (`fstatat`, `openat`,
  `readdir`, `unlinkat`) all succeed on the selection, so that a call with a valid
  `parent_fd` returns 0. -/
  remove_ok : Bool

/-- The function `get_win_size` of `lib/tty.h`, as `(ws_row, ws_col)`. -/
def get_win_size (ioctl : Option (Nat × Nat)) : Nat × Nat :=
  match ioctl with
  | some (row, col) => if col = 0 then (24, 80) else (row, col)
  | none => (24, 80)

/-- The block `if (term_resized) { ... }` of `main`. -/
def handle_resize (ioctl : Option (Nat × Nat)) (s : State) : State :=
  let ws := get_win_size ioctl
  let s1 := { s with page_size := if ws.1 > 3 then ws.1 - 3 else 1, win_cols := ws.2 }
  if s1.filtered.length > 0 then
    let idx := if s1.idx ≥ s1.filtered.length then s1.filtered.length - 1 else s1.idx
    { s1 with idx := idx, page := idx / s1.page_size, cursor := idx % s1.page_size }
  else s1

/-- The prompt loop of `delete_selected`: reads keys until `y`/`Y` (`true`) or
`n`/`N`/ESC (`false`); `none` when the input ends first (`getchar` then returns
`EOF` for ever and the loop never leaves). -/
def read_confirm : List Nat → Option (Bool × List Nat)
  | [] => none
  | ch :: rest =>
    if ch = 121 ∨ ch = 89 then some (true, rest)
    else if ch = 110 ∨ ch = 78 ∨ ch = 27 then some (false, rest)
    else read_confirm rest

/-- The statement `if (idx > 0) { page = idx / page_size; cursor = idx % page_size; }
else { page = cursor = 0; }` that ends `delete_selected` and `go_to_parent`. -/
def set_page_cursor (s : State) : State :=
  if s.idx > 0 then { s with page := s.idx / s.page_size, cursor := s.idx % s.page_size }
  else { s with page := 0, cursor := 0 }

/-- The constant `AT_FDCWD` of `<fcntl.h>`. -/
def AT_FDCWD : Int := -100

/-- The function `remove_recursive_at`: it returns `-1` at once when `parent_fd`
is negative, before any system call; otherwise its result is that of the system
calls, 0 when they all succeed (`env.remove_ok`) and `-1` when one fails. -/
def remove_recursive_at (env : Env) (parent_fd : Int) (_name : List Nat) : Int :=
  if parent_fd < 0 then -1
  else if env.remove_ok then 0 else -1

/-- The block of `delete_selected` under `if (remove_recursive_at(...) == 0)`:
`get_files(); apply_filter();`, the clamp of `idx`, and `page`, `cursor`. -/
def delete_refresh (env : Env) (s : State) : Except Fatal State :=
  match get_files env.dir env.lstat s with
  | .error e => .error e
  | .ok s1 =>
    let s2 := apply_filter s1
    let idx :=
      if s2.idx ≥ s2.filtered.length ∧ s2.filtered.length > 0 then s2.filtered.length - 1
      else s2.idx
    .ok (set_page_cursor { s2 with idx := idx })

/-- The body of `delete_selected` once the prompt is answered: `yes` says the
answer was `y`/`Y`. -/
def delete_answered (env : Env) (yes : Bool) (s : State) : Except Fatal State :=
  if yes ∧ remove_recursive_at env AT_FDCWD (file_name (file_at s s.idx)) = 0 then
    delete_refresh env s
  else .ok s

/-- The function `delete_selected`, reading its answer from the input. -/
def delete_selected (env : Env) (s : State) (input : List Nat) :
    Option (Except Fatal State × List Nat) :=
  if s.filtered.length = 0 then some (.ok s, input)
  else
    match read_confirm input with
    | none => none
    | some (yes, rest) => some (delete_answered env yes s, rest)

/-- The function `enter_directory`. -/
def enter_directory (env : Env) (s : State) : Except Fatal State :=
  if s.filtered.length = 0 then .ok s
  else if (file_at s s.idx).type ≠ DT_DIR ∧ env.stat_is_dir = false then .ok s
  else if env.chdir_ok = false then .ok s
  else
    let stack := if s.cursor_stack.length < 64 then s.cursor_stack ++ [s.idx] else s.cursor_stack
    match get_files env.dir env.lstat
      { s with
        cursor_stack := stack
        search_query := s.search_query.set 0 0
        search_len := 0
        search_cursor := 0
        search_open := false
        prev_search_len := 0 } with
    | .error e => .error e
    | .ok s1 => .ok { s1 with idx := 0, cursor := 0, page := 0 }

/-- The block of `go_to_parent` that pops the saved index and clamps it to the
new view. -/
def pop_cursor (s : State) : State :=
  if s.cursor_stack.length > 0 then
    let idx := s.cursor_stack.getD (s.cursor_stack.length - 1) 0
    { s with
      cursor_stack := s.cursor_stack.take (s.cursor_stack.length - 1)
      idx :=
        if idx ≥ s.filtered.length then
          (if s.filtered.length > 0 then s.filtered.length - 1 else 0)
        else idx }
  else { s with idx := 0 }

/-- The function `go_to_parent`. -/
def go_to_parent (env : Env) (s : State) : Except Fatal State :=
  if env.chdir_ok = false then .ok s
  else
    match get_files env.dir env.lstat (clear_search s) with
    | .error e => .error e
    | .ok s1 => .ok (set_page_cursor (pop_cursor s1))

/-! ## Input decoder -/

/-- The values of `enum esc_key`. -/
inductive esc_key where
  | ESC_NONE | ESC_UP | ESC_DOWN | ESC_LEFT | ESC_RIGHT
  | ESC_HOME | ESC_END | ESC_DELETE
  | ESC_PAGE_UP | ESC_PAGE_DOWN
  | ESC_CTRL_LEFT | ESC_CTRL_RIGHT | ESC_CTRL_DELETE
  | ESC_DOUBLE
  deriving DecidableEq, Repr

/-- The function `getchar` on the bytes still to be read: `none` is `EOF`. -/
def getchar : List Nat → Option Nat × List Nat
  | [] => (none, [])
  | c :: rest => (some c, rest)

/-- The function `read_escape_sequence`, with the bytes it leaves unread. -/
def read_escape_sequence (input : List Nat) : esc_key × List Nat :=
  match getchar input with
  | (none, r) => (.ESC_NONE, r)
  | (some next, r) =>
    if next = 27 then (.ESC_DOUBLE, r)
    else if next ≠ 91 ∧ next ≠ 79 then (.ESC_NONE, r)
    else
      match getchar r with
      | (none, r) => (.ESC_NONE, r)
      | (some code, r) =>
        if code = 65 then (.ESC_UP, r)
        else if code = 66 then (.ESC_DOWN, r)
        else if code = 67 then (.ESC_RIGHT, r)
        else if code = 68 then (.ESC_LEFT, r)
        else if code = 72 then (.ESC_HOME, r)
        else if code = 70 then (.ESC_END, r)
        else if code = 49 then
          match getchar r with
          | (none, r) => (.ESC_NONE, r)
          | (some sub, r) =>
            if sub = 126 then (.ESC_HOME, r)
            else if sub = 59 then
              match getchar r with
              | (none, r) => (.ESC_NONE, r)
              | (some _, r) =>
                match getchar r with
                | (none, r) => (.ESC_NONE, r)
                | (some dir, r) =>
                  if dir = 67 then (.ESC_CTRL_RIGHT, r)
                  else if dir = 68 then (.ESC_CTRL_LEFT, r)
                  else (.ESC_NONE, r)
            else (.ESC_NONE, r)
        else if code = 51 then
          match getchar r with
          | (none, r) => (.ESC_NONE, r)
          | (some sub, r) =>
            if sub = 126 then (.ESC_DELETE, r)
            else if sub = 59 then
              match getchar r with
              | (none, r) => (.ESC_NONE, r)
              | (some _, r) =>
                match getchar r with
                | (none, r) => (.ESC_NONE, r)
                | (some _, r) => (.ESC_CTRL_DELETE, r)
            else (.ESC_NONE, r)
        else if code = 52 then
          match getchar r with
          | (none, r) => (.ESC_NONE, r)
          | (some _, r) => (.ESC_END, r)
        else if code = 53 then
          match getchar r with
          | (none, r) => (.ESC_NONE, r)
          | (some _, r) => (.ESC_PAGE_UP, r)
        else if code = 54 then
          match getchar r with
          | (none, r) => (.ESC_NONE, r)
          | (some _, r) => (.ESC_PAGE_DOWN, r)
        else (.ESC_NONE, r)

/-! ## Event loop -/

/-- What one pass of the loop `for (;;)` of `main` leads to. -/
inductive Outcome where
  /-- The loop goes on with these globals and these bytes still unread. -/
  | running (s : State) (input : List Nat)
  /-- The statement `return` of `main`, with the name printed on standard output. -/
  | exited (status : Nat) (selected : Option (List Nat))
  /-- The call `exit(EXIT_FAILURE)` inside `get_files`. -/
  | fatal (e : Fatal)
  /-- The prompt of `delete_selected` waits for an answer that never comes. -/
  | stuck
  deriving DecidableEq, Repr

/-- Turns the result of an operation that may end the process into an outcome. -/
def Outcome.of (r : Except Fatal State) (input : List Nat) : Outcome :=
  match r with
  | .ok s => .running s input
  | .error e => .fatal e

/-- The outcome of `delete_selected` within the loop. -/
def Outcome.of_delete (r : Option (Except Fatal State × List Nat)) : Outcome :=
  match r with
  | none => .stuck
  | some (x, rest) => Outcome.of x rest

/-- The case `default:` of the search switch: `search_insert_char(ch); apply_filter();`. -/
def type_char (ch : Nat) (s : State) : State := apply_filter (search_insert_char ch s)

/-- The statement `switch (read_escape_sequence())` under `case K_ESC` of the
search switch, on the key decoded. -/
def search_escape (key : esc_key) (s : State) : State :=
  match key with
  | .ESC_DOUBLE => clear_search s
  | .ESC_LEFT => if s.search_cursor > 0 then { s with search_cursor := s.search_cursor - 1 } else s
  | .ESC_RIGHT =>
    if s.search_cursor < s.search_len then { s with search_cursor := s.search_cursor + 1 } else s
  | .ESC_HOME => { s with search_cursor := 0 }
  | .ESC_END => { s with search_cursor := s.search_len }
  | .ESC_DELETE => apply_filter (search_delete_char_forward s)
  | .ESC_CTRL_DELETE => apply_filter (search_delete_word_forward s)
  | .ESC_CTRL_LEFT => search_move_word_back s
  | .ESC_CTRL_RIGHT => search_move_word_forward s
  | _ => s

/-- The statement `switch (ch)` under `if (search_open)` in `main`. -/
def search_key (ch : Nat) (s : State) (input : List Nat) : Outcome :=
  if ch = 21 then .running (apply_filter (search_delete_to_start s)) input
  else if ch = 23 then .running (apply_filter (search_delete_word_back s)) input
  else if ch = 27 then
    .running (search_escape (read_escape_sequence input).1 s) (read_escape_sequence input).2
  else if ch = 10 then .running { s with search_open := false } input
  else if ch = 127 then
    if s.search_len = 0 then .running { s with search_open := false } input
    else .running (apply_filter (search_delete_char_back s)) input
  else if ch = 8 then .running (apply_filter (search_delete_word_back s)) input
  else .running (type_char ch s) input

/-- The statement `switch (read_escape_sequence())` under `case K_ESC` of the
second switch, on the key decoded and the bytes left unread. -/
def browse_escape (env : Env) (key : esc_key) (s : State) (input : List Nat) : Outcome :=
  match key with
  | .ESC_DOUBLE => .running (if s.search_len > 0 then clear_search s else s) input
  | .ESC_UP => .running (move_to_previous s).2 input
  | .ESC_DOWN => .running (move_to_next s).2 input
  | .ESC_HOME => .running (move_to_first s).2 input
  | .ESC_END => .running (move_to_last s).2 input
  | .ESC_DELETE => Outcome.of_delete (delete_selected env s input)
  | .ESC_PAGE_UP => .running (move_page_up s).2 input
  | .ESC_PAGE_DOWN => .running (move_page_down s).2 input
  | .ESC_RIGHT => Outcome.of (enter_directory env s) input
  | .ESC_LEFT => Outcome.of (go_to_parent env s) input
  | _ => .running s input

/-- The second statement `switch (ch)` of `main` (search box not focused). -/
def browse_key (env : Env) (ch : Nat) (s : State) (input : List Nat) : Outcome :=
  if ch = 10 then
    .exited 0 (if s.filtered.length > 0 then some (file_name (file_at s s.idx)) else none)
  else if ch = 27 then
    browse_escape env (read_escape_sequence input).1 s (read_escape_sequence input).2
  else if ch = 47 then .running { s with search_open := true } input
  else if ch = 113 then .exited 0 none
  else if ch = 103 then .running (move_to_first s).2 input
  else if ch = 71 then .running (move_to_last s).2 input
  else if ch = 117 then .running (move_page_up s).2 input
  else if ch = 100 then .running (move_page_down s).2 input
  else if ch = 68 then Outcome.of_delete (delete_selected env s input)
  else if ch = 101 then .running s input
  else .running s input

/-- One pass of the loop `for (;;)` of `main`. -/
def main_step (env : Env) (s : State) (input : List Nat) : Outcome :=
  if env.terminate_signal ≠ 0 then .exited (128 + env.terminate_signal) none
  else
    match getchar input with
    | (none, r) =>
      if env.interrupted then .running s r
      else .exited (if env.signal_at_eof ≠ 0 then 128 + env.signal_at_eof else 0) none
    | (some ch, r) =>
      let s1 := if env.term_resized then handle_resize env.winsize s else s
      if s1.search_open then search_key ch s1 r else browse_key env ch s1 r

/-- The globals as the loader leaves them (static storage is zeroed). -/
def initial_state : State :=
  { files := [], filtered := [], search_query := List.replicate 256 0, search_len := 0,
    search_cursor := 0, search_open := false, filter_case_sensitive := false,
    prev_search_len := 0, page := 0, page_size := 0, win_cols := 0, idx := 0, cursor := 0,
    cursor_stack := [] }

/-- The part of `main` before the loop: window size, first `get_files`, and the
pre-selection asked for with `--start`. -/
def startup (ioctl : Option (Nat × Nat)) (dir : Option (List dirent))
    (lstat : List Nat → Option Nat) (start : Option (List Nat)) : Except Fatal State :=
  let ws := get_win_size ioctl
  let s0 := { initial_state with
    page_size := if ws.1 > 3 then ws.1 - 3 else 1, win_cols := ws.2, page := 0 }
  match get_files dir lstat s0 with
  | .error e => .error e
  | .ok s1 =>
    match start with
    | none => .ok s1
    | some name =>
      match bsearch (compare_name_to_file s1 name) s1.files.length with
      | some found =>
        .ok { s1 with idx := found, page := found / s1.page_size, cursor := found % s1.page_size }
      | none => .ok s1

/-- The states the program can be in at the top of its event loop. -/
inductive Reachable : State → Prop where
  | start (ioctl : Option (Nat × Nat)) (dir : Option (List dirent))
      (lstat : List Nat → Option Nat) (start : Option (List Nat)) (s : State) :
      startup ioctl dir lstat start = .ok s → Reachable s
  | step (env : Env) (s : State) (input : List Nat) (s1 : State) (rest : List Nat) :
      Reachable s → main_step env s input = .running s1 rest → Reachable s1

/-! ## Colour table -/

/-- The constant `LsColor_Count`. -/
def LsColor_Count : Nat := 20

/-- The constant `LsColor_Unknown`. -/
def LsColor_Unknown : Int := -1

/-- The function `lookup_ls_color`, returning the value of the `enum LsColor`.
`PACK` of two bytes equals the `PACK` of a case label exactly when both bytes
equal the letters of the label: the labels are ASCII, and a byte above 127
(negative as a `char`) leaves bits set that no label has. -/
def lookup_ls_color (s : List Nat) (len : Nat) : Int :=
  if len ≠ 2 then LsColor_Unknown
  else
    match s.getD 0 0, s.getD 1 0 with
    | 110, 111 => 0
    | 102, 105 => 1
    | 114, 115 => 2
    | 100, 105 => 3
    | 108, 110 => 4
    | 109, 104 => 5
    | 112, 105 => 6
    | 115, 111 => 7
    | 100, 111 => 8
    | 98, 100 => 9
    | 99, 100 => 10
    | 111, 114 => 11
    | 109, 105 => 12
    | 115, 117 => 13
    | 115, 103 => 14
    | 99, 97 => 15
    | 116, 119 => 16
    | 111, 119 => 17
    | 115, 116 => 18
    | 101, 120 => 19
    | _, _ => LsColor_Unknown

/-- The bytes `sscanf` matches for the conversion `%8[0-9;]`: the longest run of
digits and `;` at the head of the C string, at most 8 of them. -/
def scan_params (input : List Nat) : List Nat :=
  ((cstr input).takeWhile (fun b => (decide (48 ≤ b) && decide (b ≤ 57)) || b == 59)).take 8

/-- What can go wrong in `parse_ls_colors`. -/
inductive LsFault where
  /-- The store `ls_colors[c]` with `c` outside `0 .. LsColor_Count - 1`. -/
  | table_index (c : Int)
  /-- The read at `start + 3` lies beyond the NUL that ends the string. -/
  | read_past_end
  deriving DecidableEq, Repr

/-- The body of the `while` loop of `parse_ls_colors` up to the call of
`strchr`: `start` is the C string at `start` (without its NUL), `table` the
array `ls_colors` (20 slots of 9 bytes). -/
def parse_ls_entry (start : List Nat) (table : List (List Nat)) :
    Except LsFault (List (List Nat)) :=
  let c := lookup_ls_color start 2
  if c ≠ 0 then
    if start.length < 3 then .error .read_past_end
    else
      let params := scan_params (start.drop 3)
      if params = [] then .ok table
      else if 0 ≤ c ∧ c < LsColor_Count then
        .ok (table.set c.toNat
          (params ++ 0 :: (table.getD c.toNat []).drop (params.length + 1)))
      else .error (.table_index c)
  else .ok table

/-- The `while` loop of `parse_ls_colors`; each turn moves `start` forward, so
`start.length + 1` turns of `fuel` are enough. -/
def parse_ls_loop : Nat → List Nat → List (List Nat) → Except LsFault (List (List Nat))
  | 0, _, table => .ok table
  | fuel + 1, start, table =>
    if start = [] then .ok table
    else
      match parse_ls_entry start table with
      | .error e => .error e
      | .ok table1 =>
        let next := start.dropWhile (fun b => b != 58)
        if next = [] then .ok table1
        else parse_ls_loop fuel (next.drop 1) table1

/-- The function `parse_ls_colors`; `env` is what `getenv("LS_COLORS")` returns. -/
def parse_ls_colors (env : Option (List Nat)) (table : List (List Nat)) :
    Except LsFault (List (List Nat)) :=
  match env with
  | none => .ok table
  | some value => parse_ls_loop ((cstr value).length + 1) (cstr value) table

/-- The array `ls_colors` as the loader leaves it: 20 slots of 9 zero bytes. -/
def ls_colors_initial : List (List Nat) := List.replicate 20 (List.replicate 9 0)

/-! ## Rendering of names -/

/-- The string `SGR_UNDERSCORE_ON` of `lib/esc.h`: `ESC [ 4 m`. -/
def SGR_UNDERSCORE_ON : List Nat := [27, 91, 52, 109]

/-- The string `SGR_UNDERLINE_OFF` of `lib/esc.h`: `ESC [ 2 4 m`. -/
def SGR_UNDERLINE_OFF : List Nat := [27, 91, 50, 52, 109]

/-- The string literal of the ellipsis character, in UTF-8. -/
def ELLIPSIS : List Nat := [226, 128, 166]

/-- Modelled from the spec: the macro `WRITE_ERR(buf + off, n)` of
`lib/stdio_helpers.h`, a header that is not among the sources; it sends `n`
bytes starting at `buf + off` to the error stream, where all rendering goes.
`buf` is a C string without its NUL; `none` when the bytes read do not all lie
in the string and its NUL. -/
def write_err (buf : List Nat) (off n : Nat) : Option (List Nat) :=
  if off + n ≤ buf.length + 1 then some (((buf ++ [0]).drop off).take n) else none

/-- Modelled from the spec: the macro `PUTS_ERR(buf + off)` of
`lib/stdio_helpers.h`, a header that is not among the sources; it sends the C
string at `buf + off` to the error stream.  `none` when `buf + off` lies beyond
the NUL of the name. -/
def puts_err (buf : List Nat) (off : Nat) : Option (List Nat) :=
  if off ≤ buf.length then some (cstr ((buf ++ [0]).drop off)) else none

/-- The statement `if (search_len > 0) { ... } else { ... }` of `print_view`
that writes the name of one entry: the bytes sent to the error stream. -/
def print_name (name : List Nat) (name_len match_start search_len max_len : Nat) :
    Option (List Nat) :=
  let match_end := match_start + search_len
  let truncated := decide (name_len > max_len)
  if search_len > 0 then
    if truncated then
      if match_start ≥ max_len then do
        let a ← write_err name 0 max_len
        pure (a ++ SGR_UNDERSCORE_ON ++ ELLIPSIS ++ SGR_UNDERLINE_OFF)
      else if match_end > max_len then do
        let a ← write_err name 0 match_start
        let b ← write_err name match_start (max_len - match_start)
        pure (a ++ SGR_UNDERSCORE_ON ++ b ++ ELLIPSIS ++ SGR_UNDERLINE_OFF)
      else do
        let a ← write_err name 0 match_start
        let b ← write_err name match_start search_len
        let c ← write_err name match_end (max_len - match_end)
        pure (a ++ SGR_UNDERSCORE_ON ++ b ++ SGR_UNDERLINE_OFF ++ c ++ ELLIPSIS)
    else do
      let a ← write_err name 0 match_start
      let b ← write_err name match_start search_len
      let c ← puts_err name match_end
      pure (a ++ SGR_UNDERSCORE_ON ++ b ++ SGR_UNDERLINE_OFF ++ c)
  else
    if truncated then do
      let a ← write_err name 0 max_len
      pure (a ++ ELLIPSIS)
    else puts_err name 0

/-- The value `max_len` of `print_view`. -/
def max_len (s : State) : Nat := if s.win_cols > 5 then s.win_cols - 5 else 1

/-- The name block of `print_view` for the entry `e` of the filtered view. -/
def print_entry_name (s : State) (e : filtered_file) : Option (List Nat) :=
  print_name (file_name (s.files.getD e.idx default)) (s.files.getD e.idx default).length
    e.match_start s.search_len (max_len s)

/-! ## Rendering of the header path -/

/-- Subtraction in `size_t`, which wraps around modulo `2 ^ 64` (the width of
`size_t` on the 64-bit Linux targets whose headers the program includes). -/
def size_sub (a b : Nat) : Nat := (a + 2 ^ 64 - b % 2 ^ 64) % 2 ^ 64

/-- The function `strncmp`: `strcmp` on at most `n` bytes of each string. -/
def strncmp (a b : List Nat) (n : Nat) : Int := cmp_bytes ((cstr a).take n) ((cstr b).take n)

/-- The value `main` gives `home_len`: `home_dir ? strlen(home_dir) : 0`, with
`home_dir` what `getenv("HOME")` returns. -/
def home_len (home_dir : Option (List Nat)) : Nat :=
  match home_dir with
  | some home => strlen home
  | none => 0

/-- What the header block of `print_view` does with the path: the value of
`path_cols`, the byte count handed to `WRITE_ERR`, and the bytes sent to the
error stream (`none` when `WRITE_ERR` reads outside the path). -/
structure header_path where
  path_cols : Nat
  count : Nat
  out : Option (List Nat)
  deriving DecidableEq, Repr

/-- The local `use_tilde` of `print_view`. -/
def use_tilde (cwd : List Nat) (home_dir : Option (List Nat)) : Bool :=
  decide (home_len home_dir > 0) && decide (strlen cwd ≥ home_len home_dir)
    && (strncmp cwd (home_dir.getD []) (home_len home_dir) == 0)
    && ((cstr cwd ++ [0]).getD (home_len home_dir) 0 == 47
      || (cstr cwd ++ [0]).getD (home_len home_dir) 0 == 0)

/-- The local `display_len` of `print_view` after the test of `use_tilde`. -/
def display_len (cwd : List Nat) (home_dir : Option (List Nat)) : Nat :=
  if use_tilde cwd home_dir then strlen cwd - home_len home_dir else strlen cwd

/-- The string at `display_path` after the test of `use_tilde`. -/
def display_path (cwd : List Nat) (home_dir : Option (List Nat)) : List Nat :=
  if use_tilde cwd home_dir then (cstr cwd).drop (home_len home_dir) else cstr cwd

/-- The block of `print_view` that writes the path on the header line; `cwd`
is the buffer `cwd`, `126` the byte `~`. -/
def print_header_path (cwd : List Nat) (home_dir : Option (List Nat)) (win_cols : Nat) :
    header_path :=
  let tilde := use_tilde cwd home_dir
  let dlen := display_len cwd home_dir
  let dpath := display_path cwd home_dir
  if (if tilde then 1 else 0) + dlen ≤ win_cols then
    { path_cols := (if tilde then 1 else 0) + dlen
      count := dlen
      out := do
        let a ← write_err dpath 0 dlen
        pure ((if tilde then [126] else []) ++ a) }
  else if tilde then
    { path_cols := win_cols
      count := size_sub win_cols 2
      out := do
        let a ← write_err dpath 0 (size_sub win_cols 2)
        pure ([126] ++ a ++ ELLIPSIS) }
  else
    { path_cols := win_cols
      count := size_sub win_cols 1
      out := do
        let a ← write_err dpath 0 (size_sub win_cols 1)
        pure (a ++ ELLIPSIS) }

/-- The columns the header path takes: one for `~` when the alias is used, one
per path byte written, one for the ellipsis when the path is cut. -/
def header_columns (cwd : List Nat) (home_dir : Option (List Nat)) (win_cols : Nat) : Nat :=
  (if use_tilde cwd home_dir then 1 else 0) + (print_header_path cwd home_dir win_cols).count
    + (if (if use_tilde cwd home_dir then 1 else 0) + display_len cwd home_dir ≤ win_cols
        then 0 else 1)

/-! ## Predicates used in the statements -/

/-- A catalog as `get_files` builds it: at most `UINT32_MAX` records, each
name free of NUL bytes, each `name_lower` the lower-cased name. -/
def catalog_ok (files : List file) : Prop :=
  files.length ≤ UINT32_MAX ∧ ∀ f ∈ files, 0 ∉ f.name ∧ f.name_lower = f.name.map tolower

/-- The query buffer holds the C string `Q` and `search_len` is its length. -/
def holds_query (s : State) (Q : List Nat) : Prop :=
  s.search_len = Q.length ∧ ∃ rest, s.search_query = Q ++ 0 :: rest

/-- The form of the query that is searched for: raw when the query has an
upper-case byte, lower-cased otherwise. -/
def query_form (Q : List Nat) : List Nat := if Q.any isupper then Q else Q.map tolower

/-- The form of a name that is searched in: raw when the query has an
upper-case byte, lower-cased otherwise. -/
def name_form (Q : List Nat) (name : List Nat) : List Nat :=
  if Q.any isupper then name else name.map tolower

/-- The view a scan of the whole catalog gives for the query `Q`, written with
`first_occ` on the forms above. -/
def scan_view (files : List file) (Q : List Nat) : List filtered_file :=
  (List.range files.length).filterMap (fun i =>
    (first_occ (query_form Q) (name_form Q (files.getD i default).name)).map (fun m => ⟨i, m⟩))

/-- What holds between two typed bytes: the buffer holds `q`, the cursor is at
its end, and the view is the one a full re-scan gives. -/
def typing_inv (q : List Nat) (s : State) : Prop :=
  holds_query s q ∧ s.search_cursor = q.length ∧ s.prev_search_len = q.length
    ∧ catalog_ok s.files ∧ 0 ∉ q
    ∧ s.filtered = (apply_filter { s with prev_search_len := 0 }).filtered

/-- Whether a name begins with `.` (byte 46). -/
def begins_with_dot (name : List Nat) : Bool := name.head? == some 46

/-- The entries `get_files` keeps: the first byte is not `.` and the name is
not empty. -/
def kept (entry : dirent) : Bool :=
  !(entry.d_name.getD 0 0 == 46) && !(strlen entry.d_name == 0)

/-- The record `get_files` stores for a kept entry. -/
def file_of (lstat : List Nat → Option Nat) (entry : dirent) : file :=
  resolve_type lstat
    { name := cstr entry.d_name
      name_lower := (List.range (strlen entry.d_name)).map (fun i => tolower (entry.d_name.getD i 0))
      length := strlen entry.d_name
      type := entry.d_type
      exec := false }

/-- The filtered view is a subsequence of the catalog: strictly increasing
catalog indices, each below `files_size`, and `filtered_size <= files_size`. -/
def view_ok (s : State) : Prop :=
  List.Pairwise (fun a b => a < b) (s.filtered.map (fun e => e.idx))
    ∧ (∀ e ∈ s.filtered, e.idx < s.files.length)
    ∧ s.filtered.length ≤ s.files.length

/-- The navigation invariant: on a non-empty view the selection is inside the
view and `page`, `cursor` are its quotient and remainder by `page_size`. -/
def nav_inv (s : State) : Prop :=
  0 < s.filtered.length →
    s.idx < s.filtered.length ∧ s.page = s.idx / s.page_size ∧ s.cursor = s.idx % s.page_size

/-- On an empty view the selection rests at the origin. -/
def origin_if_empty (s : State) : Prop :=
  s.filtered.length = 0 → s.idx = 0 ∧ s.page = 0 ∧ s.cursor = 0

/-- The state `s1` shows the same catalog, view and selection as `s`. -/
def same_nav (s1 s : State) : Prop :=
  s1.files = s.files ∧ s1.filtered = s.filtered ∧ s1.idx = s.idx ∧ s1.page = s.page
    ∧ s1.cursor = s.cursor ∧ s1.page_size = s.page_size

/-- What every state at the top of the event loop satisfies. -/
def session_inv (s : State) : Prop :=
  0 < s.page_size ∧ nav_inv s ∧ origin_if_empty s ∧ s.files.length ≤ UINT32_MAX ∧ view_ok s

/-- The last page of the view: `(N - 1) / page_size`. -/
def last_page (s : State) : Nat := (s.filtered.length - 1) / s.page_size

/-- The bottom row of page `p`: `page_size - 1` before the last page,
`(N - 1) % page_size` on it. -/
def bottom_row (s : State) (p : Nat) : Nat :=
  if p < last_page s then s.page_size - 1 else (s.filtered.length - 1) % s.page_size

/-- The inputs after ESC that end before the sequence is complete: on them
`read_escape_sequence` calls `getchar` once more than there are bytes. -/
def truncated (input : List Nat) : Bool :=
  match input with
  | [] => true
  | [p] => p == 91 || p == 79
  | [p, d] => (p == 91 || p == 79) && (d == 49 || d == 51 || d == 52 || d == 53 || d == 54)
  | [p, d, s] => (p == 91 || p == 79) && (d == 49 || d == 51) && s == 59
  | [p, d, s, _] => (p == 91 || p == 79) && (d == 49 || d == 51) && s == 59
  | _ => false

/-- The assignments `search_query[0] = '\0'; search_len = search_cursor = 0;
search_open = false; prev_search_len = 0;` of `clear_search` and
`enter_directory`. -/
def empty_query (s : State) : State :=
  { s with
    search_query := s.search_query.set 0 0
    search_len := 0
    search_cursor := 0
    search_open := false
    prev_search_len := 0 }

/-- The query buffer is well formed and holds the C string `q`: 256 bytes,
`q` then a NUL byte from offset 0, `search_len` the length of `q`, at most 255,
and the cursor inside `0..search_len`. -/
def query_state (s : State) (q : List Nat) : Prop :=
  holds_query s q ∧ s.search_query.length = 256 ∧ s.search_cursor ≤ q.length ∧ q.length ≤ 255

/-- The bounds of the query buffer: `search_cursor <= search_len <= 255`, the
buffer keeps its 256 bytes and the byte at `search_len` is NUL. -/
def query_inv (s : State) : Prop :=
  s.search_cursor ≤ s.search_len ∧ s.search_len ≤ 255 ∧ s.search_query.length = 256
    ∧ s.search_query.getD s.search_len 1 = 0

/-- The three globals of the query are the same in both states. -/
def same_query (s1 s : State) : Prop :=
  s1.search_query = s.search_query ∧ s1.search_len = s.search_len
    ∧ s1.search_cursor = s.search_cursor

/-- The query buffer is well formed and every byte of the query is in
`32..126`. -/
def printable_query (s : State) : Prop :=
  ∃ q, query_state s q ∧ ∀ b ∈ q, 32 ≤ b ∧ b < 127

/-- From `s` to `s1` the query buffer stays well formed, and every byte of the
new query is a byte of the old one or a byte in `32..126`. -/
def query_step (s s1 : State) : Prop :=
  ∀ q, query_state s q → ∃ q1, query_state s1 q1 ∧ ∀ b ∈ q1, b ∈ q ∨ (32 ≤ b ∧ b < 127)

/-- The editing operations of the search box. -/
inductive Edit where
  | insert_char (ch : Nat)
  | delete_char_back
  | delete_char_forward
  | delete_word_back
  | delete_word_forward
  | delete_to_start
  | move_word_back
  | move_word_forward
  | cursor_left
  | cursor_right
  | cursor_home
  | cursor_end
  | clear

/-- The code that carries out an editing operation: the function of that name,
or for the four cursor keys the case of the search switch in `main`. -/
def Edit.apply : Edit → State → State
  | .insert_char ch, s => search_insert_char ch s
  | .delete_char_back, s => search_delete_char_back s
  | .delete_char_forward, s => search_delete_char_forward s
  | .delete_word_back, s => search_delete_word_back s
  | .delete_word_forward, s => search_delete_word_forward s
  | .delete_to_start, s => search_delete_to_start s
  | .move_word_back, s => search_move_word_back s
  | .move_word_forward, s => search_move_word_forward s
  | .cursor_left, s => search_escape .ESC_LEFT s
  | .cursor_right, s => search_escape .ESC_RIGHT s
  | .cursor_home, s => search_escape .ESC_HOME s
  | .cursor_end, s => search_escape .ESC_END s
  | .clear, s => clear_search s

/-- The state after a sequence of editing operations. -/
def edits (es : List Edit) (s : State) : State := es.foldl (fun s e => e.apply s) s

/-- Every record of the catalog has `length` equal to the length of its name. -/
def lengths_ok (files : List file) : Prop := ∀ f ∈ files, f.length = f.name.length

/-- The match span of every entry of the view lies inside its name. -/
def span_inv (s : State) : Prop :=
  ∀ e ∈ s.filtered, e.match_start + s.search_len ≤ (s.files.getD e.idx default).name.length

/-- What `print_view` relies on: a catalog as `get_files` builds it, with true
lengths, and match spans inside the names. -/
def render_inv (s : State) : Prop := catalog_ok s.files ∧ lengths_ok s.files ∧ span_inv s

/-- The catalog, the view and `search_len` are the same in both states. -/
def same_view (s1 s : State) : Prop :=
  s1.files = s.files ∧ s1.filtered = s.filtered ∧ s1.search_len = s.search_len

/-! ## Concrete sessions used in the examples -/

/-- The bytes of an ASCII string. -/
def bytes (str : String) : List Nat := str.toList.map Char.toNat

/-- An operating system that reports nothing special: no signal, no resize,
the given directory stream, `lstat` failing, every `chdir` and every system
call of a removal succeeding. -/
def quiet_env (dir : Option (List dirent)) : Env :=
  { terminate_signal := 0, interrupted := false, signal_at_eof := 0, term_resized := false,
    winsize := none, dir := dir, lstat := fun _ => none, stat_is_dir := true,
    chdir_ok := true, remove_ok := true }

/-- Runs passes of the event loop until the input is used up (at most `n`
passes). -/
def run_keys (env : Env) : Nat → Outcome → Outcome
  | n + 1, .running s (c :: rest) => run_keys env n (main_step env s (c :: rest))
  | _, o => o

/-- The state of a running session, if it is still running. -/
def Outcome.state : Outcome → Option State
  | .running s _ => some s
  | _ => none

/-- The session right after start-up in a directory with the given names
(regular files), on a terminal of `rows` rows and 80 columns. -/
def session (rows : Nat) (names : List String) : Outcome :=
  match startup (some (rows, 80)) (some (names.map (fun n => ⟨bytes n, DT_REG⟩))) (fun _ => none)
      none with
  | .ok s => .running s []
  | .error e => .fatal e

/-- Feeds the bytes `keys` to a running session, one pass of the loop per
byte. -/
def press (names : List String) (keys : List Nat) (o : Outcome) : Outcome :=
  match o with
  | .running s _ =>
    run_keys (quiet_env (some (names.map (fun n => ⟨bytes n, DT_REG⟩)))) keys.length
      (.running s keys)
  | o => o

/-- The catalog of the directory holding `A`, `a10`, `a2` and `b`. -/
def demo_files : List file :=
  [⟨bytes "A", bytes "a", 1, DT_REG, false⟩, ⟨bytes "a10", bytes "a10", 3, DT_REG, false⟩,
   ⟨bytes "a2", bytes "a2", 2, DT_REG, false⟩, ⟨bytes "b", bytes "b", 1, DT_REG, false⟩]

/-- A session on `demo_files` with an empty query, two rows per page. -/
def demo_state : State :=
  { initial_state with
    files := demo_files, filtered := identity_view 4, page_size := 2, win_cols := 80 }

/-- The state `demo_state` with `Q` written into the query buffer (and nothing
filtered yet). -/
def demo_query (Q : List Nat) : State :=
  { demo_state with
    search_query := Q ++ List.replicate (256 - Q.length) 0, search_len := Q.length,
    search_cursor := Q.length, search_open := true }

/-- The state `demo_state` with entry `i` selected. -/
def demo_at (i : Nat) : State :=
  { demo_state with idx := i, page := i / 2, cursor := i % 2 }

/-- The session right after start-up in an empty directory, on a terminal of
24 rows and 80 columns. -/
def empty_dir_state : State :=
  { initial_state with page_size := 21, win_cols := 80 }

/-- The directory stream holding `A`, `a10`, `a2` and `b`. -/
def demo_dir : List dirent :=
  [⟨bytes "b", DT_REG⟩, ⟨bytes "A", DT_REG⟩, ⟨bytes "a10", DT_REG⟩, ⟨bytes "a2", DT_REG⟩,
   ⟨bytes ".git", DT_DIR⟩]

/-- The names the filtered view shows, in order. -/
def view_names (s : State) : List (List Nat) :=
  s.filtered.map (fun e => file_name (s.files.getD e.idx default))

/-- The match offsets of the filtered view, in order. -/
def view_offsets (s : State) : List Nat := s.filtered.map (fun e => e.match_start)

/-- A session on five regular files `a` to `e`, two rows per page, with entry
`i` selected. -/
def five_at (i : Nat) : State :=
  { initial_state with
    files := ["a", "b", "c", "d", "e"].map (fun n => ⟨bytes n, bytes n, 1, DT_REG, false⟩)
    filtered := identity_view 5
    page_size := 2
    win_cols := 80
    idx := i
    page := i / 2
    cursor := i % 2 }

/-! ## Lemmas on the C library and the filter -/

theorem cstr_of_not_mem {l : List Nat} (h : 0 ∉ l) : cstr l = l := by
  unfold cstr
  rw [List.takeWhile_eq_self_iff]
  intro x hx
  have : x ≠ 0 := fun e => h (e ▸ hx)
  simpa using this

theorem cstr_append_nul {q : List Nat} (h : 0 ∉ q) (rest : List Nat) :
    cstr (q ++ 0 :: rest) = q := by
  induction q with
  | nil => simp [cstr]
  | cons a t ih =>
    have ha : a ≠ 0 := fun e => h (by simp [e])
    have ht : 0 ∉ t := fun m => h (List.mem_cons_of_mem _ m)
    have := ih ht
    simp only [cstr] at this ⊢
    simp [List.takeWhile_cons, ha, this]

theorem not_mem_cstr (l : List Nat) : 0 ∉ cstr l := by
  intro h
  have := List.mem_takeWhile_imp h
  simp at this

theorem first_occ_eq_none {n h : List Nat} : first_occ n h = none ↔ ¬ n <:+: h := by
  induction h with
  | nil =>
    simp only [first_occ]
    by_cases hp : n.isPrefixOf [] = true
    · simp only [hp, if_true]
      have := List.isPrefixOf_iff_prefix.mp hp
      simp [List.prefix_nil.mp this]
    · simp only [hp]
      simp only [List.isPrefixOf_iff_prefix] at hp
      simp
      intro e; apply hp; simp [e]
  | cons a t ih =>
    simp only [first_occ]
    by_cases hp : n.isPrefixOf (a :: t) = true
    · simp only [hp, if_true]
      have := List.isPrefixOf_iff_prefix.mp hp
      simp [this.isInfix]
    · simp only [hp]
      simp only [List.isPrefixOf_iff_prefix] at hp
      simp [ih, List.infix_cons_iff, hp]

theorem first_occ_eq_some {n h : List Nat} {k : Nat} :
    first_occ n h = some k ↔
      (k ≤ h.length ∧ n <+: h.drop k ∧ ∀ j, j < k → ¬ n <+: h.drop j) := by
  induction h generalizing k with
  | nil =>
    by_cases hp : n <+: []
    · have hb : n.isPrefixOf [] = true := List.isPrefixOf_iff_prefix.mpr hp
      simp only [first_occ, hb, if_true]
      constructor
      · intro e; cases e; simp [hp]
      · rintro ⟨hk, -, -⟩; simp at hk; simp [hk]
    · have hb : n.isPrefixOf [] = false := by
        rw [Bool.eq_false_iff]; intro e; exact hp (List.isPrefixOf_iff_prefix.mp e)
      simp only [first_occ, hb]
      constructor
      · intro h; simp at h
      · rintro ⟨hk, h2, -⟩
        simp only [List.length_nil, Nat.le_zero_eq] at hk
        subst hk
        exact absurd (by simpa using h2) hp
  | cons a t ih =>
    by_cases hp : n <+: a :: t
    · have hb : n.isPrefixOf (a :: t) = true := List.isPrefixOf_iff_prefix.mpr hp
      simp only [first_occ, hb, if_true]
      constructor
      · intro e; cases e; simp [hp]
      · rintro ⟨-, -, h3⟩
        rcases Nat.eq_zero_or_pos k with h0 | h0
        · simp [h0]
        · exact absurd hp (h3 0 h0)
    · have hb : n.isPrefixOf (a :: t) = false := by
        rw [Bool.eq_false_iff]; intro e; exact hp (List.isPrefixOf_iff_prefix.mp e)
      simp only [first_occ, hb]
      cases k with
      | zero =>
        constructor
        · intro h; simp at h
        · rintro ⟨-, h2, -⟩; exact absurd (by simpa using h2) hp
      | succ k =>
        simp only [Bool.false_eq_true, if_false, Option.map_eq_some', Nat.add_right_cancel_iff,
          exists_eq_right, ih, List.drop_succ_cons, List.length_cons, Nat.add_le_add_iff_right]
        constructor
        · rintro ⟨h1, h2, h3⟩
          refine ⟨h1, h2, ?_⟩
          intro j hj
          cases j with
          | zero => simpa using hp
          | succ j => simpa using h3 j (by omega)
        · rintro ⟨h1, h2, h3⟩
          refine ⟨h1, h2, ?_⟩
          intro j hj
          simpa using h3 (j + 1) (by omega)


theorem tolower_eq_zero {c : Nat} : tolower c = 0 ↔ c = 0 := by
  unfold tolower isupper
  split <;> rename_i h <;> simp at h ⊢
  omega

theorem not_mem_map_tolower {l : List Nat} (h : 0 ∉ l) : 0 ∉ l.map tolower := by
  intro hm
  rcases List.mem_map.mp hm with ⟨c, hc, e⟩
  rw [tolower_eq_zero] at e
  exact h (e ▸ hc)

theorem holds_query_take {s : State} {Q : List Nat} (h : holds_query s Q) :
    s.search_query.take s.search_len = Q := by
  rcases h with ⟨h1, rest, h2⟩
  rw [h1, h2]; simp

theorem holds_query_cstr {s : State} {Q : List Nat} (h : holds_query s Q) (hQ : 0 ∉ Q) :
    cstr s.search_query = Q := by
  rcases h with ⟨_, rest, h2⟩
  rw [h2]; exact cstr_append_nul hQ rest

theorem getD_mem {α : Type} (l : List α) (d : α) {i : Nat} (h : i < l.length) :
    l.getD i d ∈ l := by
  rw [List.getD_eq_getElem l d h]
  exact List.getElem_mem h

/-- The match computed inside the loops of `apply_filter`, on a catalog record. -/
theorem strstr_filter_hay {s : State} {Q : List Nat} (hq : holds_query s Q) (hQ : 0 ∉ Q)
    {f : file} (hf : 0 ∉ f.name ∧ f.name_lower = f.name.map tolower) :
    strstr (filter_hay ((s.search_query.take s.search_len).any isupper) f)
        (if (s.search_query.take s.search_len).any isupper = true then s.search_query
          else (s.search_query.take s.search_len).map tolower ++ [0])
      = first_occ (query_form Q) (name_form Q f.name) := by
  rw [holds_query_take hq]
  unfold strstr filter_hay query_form name_form file_name file_name_lower
  by_cases hc : Q.any isupper = true
  · simp only [hc, if_true]
    rw [holds_query_cstr hq hQ, cstr_of_not_mem hf.1]
  · simp only [hc]
    simp only [Bool.false_eq_true, if_false]
    rw [hf.2, cstr_of_not_mem (not_mem_map_tolower hf.1)]
    have : cstr (List.map tolower Q ++ [0]) = List.map tolower Q :=
      cstr_append_nul (not_mem_map_tolower hQ) []
    rw [this]

theorem apply_filter_filtered_full {s : State} {Q : List Nat} (hcat : catalog_ok s.files)
    (hq : holds_query s Q) (hQ : 0 ∉ Q) (hne : Q ≠ [])
    (hinc : ¬ (s.search_len > s.prev_search_len ∧ s.prev_search_len > 0)) :
    (apply_filter s).filtered = scan_view s.files Q := by
  have hlen : s.search_len ≠ 0 := by
    rw [hq.1]; intro h; exact hne (List.length_eq_zero.mp h)
  have hinc2 : (decide (s.search_len > s.prev_search_len) && decide (s.prev_search_len > 0)) = false := by
    rw [Bool.eq_false_iff]; intro h; apply hinc; simpa using h
  simp only [apply_filter, hlen, if_false, hinc2, scan_view]
  apply List.filterMap_congr
  intro i hi
  have hi2 : i < s.files.length := List.mem_range.mp hi
  have hmem := getD_mem s.files default hi2
  have hmod : i % 2 ^ 32 = i :=
    Nat.mod_eq_of_lt (by have := hcat.1; unfold UINT32_MAX at this; omega)
  rw [strstr_filter_hay hq hQ (hcat.2 _ hmem), hmod]

theorem map_idx_filterMap (g : Nat → Option Nat) (l : List Nat) :
    (l.filterMap (fun i => (g i).map (fun m => (⟨i, m⟩ : filtered_file)))).map (fun e => e.idx)
      = l.filter (fun i => (g i).isSome) := by
  induction l with
  | nil => rfl
  | cons a t ih =>
    cases h : g a with
    | none => simp [List.filterMap_cons, h, ih]
    | some m => simp [List.filterMap_cons, h, ih]

theorem mem_scan_view {files : List file} {Q : List Nat} {e : filtered_file}
    (h : e ∈ scan_view files Q) :
    e.idx < files.length ∧
      first_occ (query_form Q) (name_form Q (files.getD e.idx default).name) = some e.match_start := by
  unfold scan_view at h
  rcases List.mem_filterMap.mp h with ⟨i, hi, hf⟩
  rcases Option.map_eq_some'.mp hf with ⟨m, hm, rfl⟩
  exact ⟨List.mem_range.mp hi, hm⟩

theorem scan_view_idx (files : List file) (Q : List Nat) :
    (scan_view files Q).map (fun e => e.idx) =
      (List.range files.length).filter
        (fun i => decide (query_form Q <:+: name_form Q (files.getD i default).name)) := by
  unfold scan_view
  rw [map_idx_filterMap (fun i => first_occ (query_form Q) (name_form Q (files.getD i default).name))]
  apply List.filter_congr
  intro i _
  cases h : first_occ (query_form Q) (name_form Q (files.getD i default).name) with
  | none => simpa using first_occ_eq_none.mp h
  | some m =>
    have : query_form Q <:+: name_form Q (files.getD i default).name := by
      by_contra hc
      rw [first_occ_eq_none.mpr hc] at h
      cases h
    simpa using this

theorem query_form_mono (q : List Nat) (c : Nat) (name : List Nat)
    (h : query_form (q ++ [c]) <:+: name_form (q ++ [c]) name) :
    query_form q <:+: name_form q name := by
  unfold query_form name_form at *
  by_cases hq : q.any isupper = true
  · have h2 : (q ++ [c]).any isupper = true := by simp [List.any_append, hq]
    simp only [hq, h2, if_true] at h ⊢
    exact (List.prefix_append q [c]).isInfix.trans h
  · by_cases hc : (q ++ [c]).any isupper = true
    · simp only [hq, hc, if_true] at h ⊢
      simp only [Bool.false_eq_true, if_false]
      exact List.IsInfix.map tolower ((List.prefix_append q [c]).isInfix.trans h)
    · simp only [hq, hc] at h ⊢
      simp only [Bool.false_eq_true, if_false] at h ⊢
      rw [List.map_append] at h
      exact (List.prefix_append _ _).isInfix.trans h

theorem apply_filter_filtered_incremental {s : State} {q : List Nat} {c : Nat}
    (hcat : catalog_ok s.files) (hq : holds_query s (q ++ [c])) (hQ : 0 ∉ q ++ [c])
    (hne : q ≠ []) (hprev : s.prev_search_len = q.length)
    (hview : s.filtered = scan_view s.files q) :
    (apply_filter s).filtered = scan_view s.files (q ++ [c]) := by
  have hlen : s.search_len = q.length + 1 := by rw [hq.1]; simp
  have hlen0 : s.search_len ≠ 0 := by omega
  have hqpos : 0 < q.length := List.length_pos.mpr hne
  have hinc : (decide (s.search_len > s.prev_search_len) && decide (s.prev_search_len > 0)) = true := by
    simp only [Bool.and_eq_true, decide_eq_true_eq]; omega
  simp only [apply_filter, hlen0, if_false, hinc, if_true]
  rw [hview]
  unfold scan_view
  rw [List.filterMap_filterMap]
  apply List.filterMap_congr
  intro i hi
  have hi2 : i < s.files.length := List.mem_range.mp hi
  have hmem := getD_mem s.files default hi2
  cases h : first_occ (query_form q) (name_form q (s.files.getD i default).name) with
  | none =>
    have h1 : ¬ query_form (q ++ [c]) <:+: name_form (q ++ [c]) (s.files.getD i default).name :=
      fun hc => first_occ_eq_none.mp h (query_form_mono q c _ hc)
    rw [first_occ_eq_none.mpr h1]; rfl
  | some m =>
    simp only [Option.map_some', Option.some_bind]
    rw [strstr_filter_hay hq hQ (hcat.2 _ hmem)]

theorem apply_filter_filtered_empty {s : State} (h : s.search_len = 0) :
    (apply_filter s).filtered = identity_view s.files.length := by
  simp [apply_filter, h]

theorem apply_filter_search_query (s : State) : (apply_filter s).search_query = s.search_query := rfl
theorem apply_filter_search_len (s : State) : (apply_filter s).search_len = s.search_len := rfl
theorem apply_filter_search_cursor (s : State) :
    (apply_filter s).search_cursor = s.search_cursor := rfl
theorem apply_filter_files (s : State) : (apply_filter s).files = s.files := rfl
theorem apply_filter_prev (s : State) : (apply_filter s).prev_search_len = s.search_len := rfl
theorem apply_filter_page_size (s : State) : (apply_filter s).page_size = s.page_size := rfl

theorem holds_query_apply_filter {s : State} {Q : List Nat} (h : holds_query s Q) :
    holds_query (apply_filter s) Q := h

/-- Typing a printable byte at the end of the query appends it to the C string
in the buffer. -/
theorem search_insert_char_end {s : State} {q : List Nat} {c : Nat} (hq : holds_query s q)
    (hcur : s.search_cursor = q.length) (hc : 32 ≤ c ∧ c < 127) (hlen : q.length < 255) :
    holds_query (search_insert_char c s) (q ++ [c])
      ∧ (search_insert_char c s).search_cursor = q.length + 1
      ∧ (search_insert_char c s).files = s.files
      ∧ (search_insert_char c s).filtered = s.filtered
      ∧ (search_insert_char c s).prev_search_len = s.prev_search_len := by
  rcases hq with ⟨h1, rest, h2⟩
  have hg : 32 ≤ c ∧ c < 127 ∧ s.search_len < 255 := ⟨hc.1, hc.2, by omega⟩
  rw [search_insert_char, if_pos hg]
  refine ⟨⟨by simp [h1], rest.drop 1, ?_⟩, by simp [hcur], rfl, rfl, rfl⟩
  simp only [hcur, h1, h2, memmove, Nat.sub_self, Nat.zero_add]
  have e1 : (q ++ 0 :: rest).take (q.length + 1) = q ++ [0] := by
    rw [List.take_append_eq_append_take]; simp
  have e2 : ((q ++ 0 :: rest).drop q.length).take 1 = [0] := by simp
  have e3 : (q ++ 0 :: rest).drop (q.length + 1 + 1) = rest.drop 1 := by
    rw [List.drop_append_eq_append_drop]
    have h4 : q.length + 1 + 1 - q.length = 2 := by omega
    rw [h4, List.drop_of_length_le (by omega)]
    simp
  rw [e1, e2, e3]
  rw [List.append_assoc, List.set_append_right _ _ (Nat.le_refl _)]
  simp

theorem rescan_eq_scan_view {s : State} {q : List Nat} (hcat : catalog_ok s.files)
    (hq : holds_query s q) (h0 : 0 ∉ q) (hne : q ≠ []) :
    (apply_filter { s with prev_search_len := 0 }).filtered = scan_view s.files q :=
  apply_filter_filtered_full (s := { s with prev_search_len := 0 }) hcat hq h0 hne
    (fun h => absurd h.2 (Nat.lt_irrefl 0))

theorem typing_inv_step {q : List Nat} {s : State} {c : Nat} (h : typing_inv q s)
    (hc : 32 ≤ c ∧ c < 127) (hlen : q.length < 255) : typing_inv (q ++ [c]) (type_char c s) := by
  rcases h with ⟨hq, hcur, hprev, hcat, h0, hview⟩
  rcases search_insert_char_end hq hcur hc hlen with ⟨iq, icur, ifiles, ifilt, iprev⟩
  have h0c : 0 ∉ q ++ [c] := by
    intro hm
    rcases List.mem_append.mp hm with hm | hm
    · exact h0 hm
    · simp at hm; omega
  have hcat1 : catalog_ok (search_insert_char c s).files := by rw [ifiles]; exact hcat
  have hne : q ++ [c] ≠ [] := by simp
  have key : (type_char c s).filtered = scan_view s.files (q ++ [c]) := by
    unfold type_char
    by_cases hqe : q = []
    · rw [← ifiles]
      apply apply_filter_filtered_full hcat1 iq h0c hne
      rw [iprev, hprev, hqe]
      intro hh; exact absurd hh.2 (Nat.lt_irrefl 0)
    · rw [← ifiles]
      apply apply_filter_filtered_incremental hcat1 iq h0c hqe (by rw [iprev, hprev])
      rw [ifilt, ifiles, hview]
      exact rescan_eq_scan_view hcat hq h0 hqe
  refine ⟨holds_query_apply_filter iq, ?_, ?_, hcat1, h0c, ?_⟩
  · show (search_insert_char c s).search_cursor = (q ++ [c]).length
    rw [icur]; simp
  · show (search_insert_char c s).search_len = (q ++ [c]).length
    exact iq.1
  · have := rescan_eq_scan_view (s := type_char c s) hcat1 (holds_query_apply_filter iq) h0c hne
    rw [this, key]
    show scan_view s.files (q ++ [c]) = scan_view (search_insert_char c s).files (q ++ [c])
    rw [ifiles]

theorem typing_inv_foldl (cs : List Nat) : ∀ (q : List Nat) (s : State), typing_inv q s →
    (∀ c ∈ cs, 32 ≤ c ∧ c < 127) → q.length + cs.length ≤ 255 →
    typing_inv (q ++ cs) (cs.foldl (fun s c => type_char c s) s) := by
  induction cs with
  | nil => intro q s h _ _; simpa using h
  | cons c t ih =>
    intro q s h hp hl
    simp only [List.length_cons] at hl
    have := ih (q ++ [c]) (type_char c s)
      (typing_inv_step h (hp c (List.mem_cons_self _ _)) (by omega))
      (fun x hx => hp x (List.mem_cons_of_mem _ hx)) (by simp; omega)
    simpa using this

/-! ## Lemmas on the catalog -/

theorem cmp_bytes_total (a : List Nat) : ∀ b, cmp_bytes a b ≤ 0 ∨ cmp_bytes b a ≤ 0 := by
  induction a with
  | nil =>
    intro b
    cases b with
    | nil => left; simp [cmp_bytes]
    | cons y ys => left; simp only [cmp_bytes]; omega
  | cons x xs ih =>
    intro b
    cases b with
    | nil => right; simp only [cmp_bytes]; omega
    | cons y ys =>
      simp only [cmp_bytes]
      by_cases h : x = y
      · subst h; simpa using ih ys
      · have h2 : ¬ y = x := fun e => h e.symm
        simp only [h, h2, if_false]; omega

theorem cmp_bytes_trans (a : List Nat) : ∀ b c, 0 ∉ a → 0 ∉ b →
    cmp_bytes a b ≤ 0 → cmp_bytes b c ≤ 0 → cmp_bytes a c ≤ 0 := by
  induction a with
  | nil =>
    intro b c _ _ _ _
    cases c with
    | nil => simp [cmp_bytes]
    | cons z zs => simp only [cmp_bytes]; omega
  | cons x xs ih =>
    intro b c ha hb hab hbc
    have hx : x ≠ 0 := fun e => ha (by simp [e])
    cases b with
    | nil => simp only [cmp_bytes] at hab; omega
    | cons y ys =>
      have hy : y ≠ 0 := fun e => hb (by simp [e])
      cases c with
      | nil => simp only [cmp_bytes] at hbc; omega
      | cons z zs =>
        simp only [cmp_bytes] at hab hbc ⊢
        by_cases hxy : x = y
        · subst hxy
          by_cases hxz : x = z
          · subst hxz
            simp only [if_true] at hab hbc ⊢
            exact ih ys zs (fun m => ha (List.mem_cons_of_mem _ m))
              (fun m => hb (List.mem_cons_of_mem _ m)) hab hbc
          · simp only [hxz, if_false] at hbc ⊢; exact hbc
        · simp only [hxy, if_false] at hab
          by_cases hyz : y = z
          · subst hyz; simp only [hxy, if_false]; exact hab
          · simp only [hyz, if_false] at hbc
            by_cases hxz : x = z
            · omega
            · simp only [hxz, if_false]; omega

theorem strcmp_total (a b : List Nat) : strcmp a b ≤ 0 ∨ strcmp b a ≤ 0 :=
  cmp_bytes_total _ _

theorem strcmp_trans {a b c : List Nat} (h1 : strcmp a b ≤ 0) (h2 : strcmp b c ≤ 0) :
    strcmp a c ≤ 0 :=
  cmp_bytes_trans _ _ _ (not_mem_cstr a) (not_mem_cstr b) h1 h2

theorem qsort_sorted (fs : List file) :
    List.Sorted (fun a b => compare_files a b ≤ 0) (qsort fs) := by
  haveI : IsTotal file (fun a b => compare_files a b ≤ 0) := ⟨fun _ _ => strcmp_total _ _⟩
  haveI : IsTrans file (fun a b => compare_files a b ≤ 0) :=
    ⟨fun _ _ _ h1 h2 => strcmp_trans h1 h2⟩
  exact List.sorted_insertionSort _ fs

theorem qsort_perm (fs : List file) : List.Perm (qsort fs) fs :=
  List.perm_insertionSort _ fs

theorem resolve_type_name (lstat : List Nat → Option Nat) (f : file) :
    (resolve_type lstat f).name = f.name := by
  unfold resolve_type
  split
  · split <;> rfl
  · rfl

theorem resolve_type_name_lower (lstat : List Nat → Option Nat) (f : file) :
    (resolve_type lstat f).name_lower = f.name_lower := by
  unfold resolve_type
  split
  · split <;> rfl
  · rfl

theorem cstr_getD_zero (d : List Nat) (h : strlen d ≠ 0) : (cstr d).getD 0 0 ≠ 0 := by
  unfold strlen at h
  cases hc : cstr d with
  | nil => rw [hc] at h; exact absurd rfl h
  | cons a t =>
    have : a ∈ cstr d := by rw [hc]; exact List.mem_cons_self _ _
    have ha : a ≠ 0 := fun e => not_mem_cstr d (e ▸ this)
    simpa using ha

theorem read_entries_spec (lstat : List Nat → Option Nat) (entries : List dirent) :
    ∀ acc fs, read_entries lstat entries acc = .ok fs →
      fs = acc ++ (entries.filter kept).map (file_of lstat)
        ∧ (acc.length ≤ UINT32_MAX → fs.length ≤ UINT32_MAX) := by
  induction entries with
  | nil =>
    intro acc fs h
    simp only [read_entries, Except.ok.injEq] at h
    subst h
    simp
  | cons e rest ih =>
    intro acc fs h
    unfold read_entries at h
    by_cases hdot : e.d_name.getD 0 0 = 46
    · rw [if_pos hdot] at h
      have hk : kept e = false := by unfold kept; rw [hdot]; rfl
      simpa [List.filter_cons, hk] using ih acc fs h
    · rw [if_neg hdot] at h
      by_cases hmax : acc.length = UINT32_MAX
      · rw [if_pos hmax] at h; cases h
      · rw [if_neg hmax] at h
        by_cases hlen : strlen e.d_name = 0
        · simp only [hlen, if_true] at h
          have hk : kept e = false := by unfold kept; rw [hlen]; simp
          simpa [List.filter_cons, hk] using ih acc fs h
        · simp only [hlen, if_false, cstr_getD_zero _ hlen] at h
          have hk : kept e = true := by
            unfold kept; rw [beq_false_of_ne hdot, beq_false_of_ne hlen]; rfl
          rcases ih _ fs h with ⟨h1, h2⟩
          refine ⟨?_, ?_⟩
          · rw [h1]; simp [List.filter_cons, hk, file_of]
          · intro hle
            apply h2
            simp only [List.length_append, List.length_singleton]
            omega

theorem read_entries_total (lstat : List Nat → Option Nat) (entries : List dirent) :
    ∀ acc, acc.length +
        (entries.filter (fun e => !begins_with_dot (cstr e.d_name))).length ≤ UINT32_MAX →
      ∃ fs, read_entries lstat entries acc = .ok fs := by
  induction entries with
  | nil => intro acc _; exact ⟨acc, rfl⟩
  | cons e rest ih =>
    intro acc h
    unfold read_entries
    by_cases hdot : e.d_name.getD 0 0 = 46
    · rw [if_pos hdot]
      apply ih
      have hle : ((e :: rest).filter (fun e => !begins_with_dot (cstr e.d_name))).length
          ≥ (rest.filter (fun e => !begins_with_dot (cstr e.d_name))).length := by
        rw [List.filter_cons]; split <;> simp
      omega
    · rw [if_neg hdot]
      have hnd : begins_with_dot (cstr e.d_name) = false := by
        unfold begins_with_dot
        rw [beq_eq_false_iff_ne]
        intro hh
        apply hdot
        unfold cstr at hh
        cases hd : e.d_name with
        | nil => rw [hd] at hh; simp at hh
        | cons a t =>
          rw [hd, List.takeWhile_cons] at hh
          split at hh
          · simp at hh; simp [hh]
          · simp at hh
      have hcount : ((e :: rest).filter (fun e => !begins_with_dot (cstr e.d_name))).length
          = (rest.filter (fun e => !begins_with_dot (cstr e.d_name))).length + 1 := by
        rw [List.filter_cons]; simp [hnd]
      have hmax : ¬ acc.length = UINT32_MAX := by omega
      rw [if_neg hmax]
      by_cases hlen : strlen e.d_name = 0
      · simp only [hlen, if_true]
        apply ih; omega
      · simp only [hlen, if_false, cstr_getD_zero _ hlen]
        apply ih
        simp only [List.length_append, List.length_singleton]
        omega

theorem kept_eq (e : dirent) :
    kept e = (!(cstr e.d_name).isEmpty && !begins_with_dot (cstr e.d_name)) := by
  unfold kept strlen begins_with_dot cstr
  cases hd : e.d_name with
  | nil => rfl
  | cons a t =>
    rw [List.takeWhile_cons]
    by_cases ha : a = 0
    · subst ha; simp
    · have : (a != 0) = true := by simpa using ha
      rw [if_pos this]
      simp [Bool.and_comm]

theorem name_lower_eq (d : List Nat) :
    (List.range (strlen d)).map (fun i => tolower (d.getD i 0)) = (cstr d).map tolower := by
  have hp : cstr d <+: d := List.takeWhile_prefix _
  rcases hp with ⟨rest, hrest⟩
  unfold strlen
  apply List.ext_getElem
  · simp
  · intro i h1 h2
    simp only [List.length_map, List.length_range] at h1
    simp only [List.getElem_map, List.getElem_range]
    congr 1
    conv_lhs => rw [← hrest]
    rw [List.getD_eq_getElem _ _ (by simp; omega)]
    exact List.getElem_append_left h1

theorem file_of_ok (lstat : List Nat → Option Nat) (e : dirent) :
    (file_of lstat e).name = cstr e.d_name
      ∧ (file_of lstat e).name_lower = (file_of lstat e).name.map tolower := by
  unfold file_of
  rw [resolve_type_name, resolve_type_name_lower]
  exact ⟨rfl, name_lower_eq _⟩

/-- The catalog `get_files` builds satisfies `catalog_ok`. -/
theorem get_files_catalog_ok {dir : Option (List dirent)} {lstat : List Nat → Option Nat}
    {s s1 : State} (h : get_files dir lstat s = .ok s1) :
    catalog_ok s1.files ∧ s1.filtered = identity_view s1.files.length
      ∧ s1.prev_search_len = 0 := by
  unfold get_files at h
  cases dir with
  | none =>
    simp only [Except.ok.injEq] at h
    subst h
    refine ⟨⟨by simp [UINT32_MAX], by simp⟩, rfl, rfl⟩
  | some entries =>
    simp only at h
    cases hr : read_entries lstat entries [] with
    | error e => rw [hr] at h; cases h
    | ok fs =>
      rw [hr] at h
      simp only [Except.ok.injEq] at h
      subst h
      rcases read_entries_spec lstat entries [] fs hr with ⟨h1, h2⟩
      refine ⟨⟨?_, ?_⟩, rfl, rfl⟩
      · show (qsort fs).length ≤ UINT32_MAX
        rw [(qsort_perm fs).length_eq]
        exact h2 (by simp)
      · intro f hf
        have hf2 : f ∈ fs := (qsort_perm fs).mem_iff.mp hf
        rw [h1] at hf2
        simp only [List.nil_append, List.mem_map] at hf2
        rcases hf2 with ⟨e, _, rfl⟩
        have := file_of_ok lstat e
        refine ⟨?_, this.2⟩
        rw [this.1]; exact not_mem_cstr _

/-! ## Lemmas on the view -/

theorem map_mod_range {n : Nat} (h : n ≤ UINT32_MAX) :
    (List.range n).map (fun i => i % 2 ^ 32) = List.range n := by
  conv_rhs => rw [← List.map_id (List.range n)]
  apply List.map_congr_left
  intro i hi
  have : i < n := List.mem_range.mp hi
  simp only [id]
  exact Nat.mod_eq_of_lt (by unfold UINT32_MAX at h; omega)

theorem identity_view_idx {n : Nat} (h : n ≤ UINT32_MAX) :
    (identity_view n).map (fun e => e.idx) = List.range n := by
  unfold identity_view
  rw [List.map_map]
  exact map_mod_range h

theorem identity_view_length (n : Nat) : (identity_view n).length = n := by
  simp [identity_view]

theorem view_ok_of_idx_sublist {s : State} {n : Nat} (hn : s.files.length = n)
    (h : List.Sublist (s.filtered.map (fun e => e.idx)) (List.range n)) : view_ok s := by
  refine ⟨?_, ?_, ?_⟩
  · exact List.Pairwise.sublist h (List.pairwise_lt_range n)
  · intro e he
    have : e.idx ∈ List.range n := h.subset (List.mem_map_of_mem _ he)
    rw [hn]; exact List.mem_range.mp this
  · have := h.length_le
    simpa [hn] using this

theorem view_ok_identity {s : State} (h : s.files.length ≤ UINT32_MAX)
    (hv : s.filtered = identity_view s.files.length) : view_ok s := by
  apply view_ok_of_idx_sublist rfl
  rw [hv, identity_view_idx h]

theorem view_ok_of_sublist {s s1 : State} (h : view_ok s) (hf : s1.files = s.files)
    (hs : List.Sublist (s1.filtered.map (fun e => e.idx)) (s.filtered.map (fun e => e.idx))) :
    view_ok s1 := by
  refine ⟨List.Pairwise.sublist hs h.1, ?_, ?_⟩
  · intro e he
    have : e.idx ∈ s.filtered.map (fun e => e.idx) := hs.subset (List.mem_map_of_mem _ he)
    rcases List.mem_map.mp this with ⟨e0, he0, heq⟩
    rw [hf, ← heq]; exact h.2.1 e0 he0
  · have := hs.length_le
    simp only [List.length_map] at this
    rw [hf]; exact Nat.le_trans this h.2.2

theorem idx_filterMap_sublist {α : Type} (key : α → Nat) (g : α → Option Nat) (l : List α) :
    List.Sublist
      ((l.filterMap (fun a => (g a).map (fun m => (⟨key a, m⟩ : filtered_file)))).map
        (fun e => e.idx))
      (l.map key) := by
  induction l with
  | nil => simp
  | cons a t ih =>
    cases h : g a with
    | none => simpa [List.filterMap_cons, h] using ih.cons _
    | some m => simpa [List.filterMap_cons, h] using ih

/-- The filter keeps the view a subsequence of the catalog. -/
theorem apply_filter_view_ok {s : State} (hlen : s.files.length ≤ UINT32_MAX) (h : view_ok s) :
    view_ok (apply_filter s) := by
  by_cases h0 : s.search_len = 0
  · exact view_ok_identity (s := apply_filter s) hlen (apply_filter_filtered_empty h0)
  · by_cases hinc :
      (decide (s.search_len > s.prev_search_len) && decide (s.prev_search_len > 0)) = true
    · apply view_ok_of_sublist h (apply_filter_files s)
      simp only [apply_filter, h0, if_false, hinc, if_true]
      exact idx_filterMap_sublist (fun e => e.idx) _ s.filtered
    · apply view_ok_of_idx_sublist (s := apply_filter s) rfl
      simp only [apply_filter, h0, if_false, hinc]
      have := idx_filterMap_sublist (fun i => i % 2 ^ 32)
        (fun i => strstr (filter_hay ((s.search_query.take s.search_len).any isupper)
            (s.files.getD i default))
          (if (s.search_query.take s.search_len).any isupper = true then s.search_query
            else (s.search_query.take s.search_len).map tolower ++ [0]))
        (List.range s.files.length)
      rw [map_mod_range hlen] at this
      exact this

/-! ## Lemmas on the navigation -/

theorem div_mod_of_eq {a b q r : Nat} (h : a = q * b + r) (hr : r < b) :
    q = a / b ∧ r = a % b := by
  have hb : 0 < b := by omega
  have := (Nat.div_mod_unique (a := a) (d := q) (c := r) hb).mpr ⟨by rw [h, Nat.mul_comm]; omega, hr⟩
  exact ⟨this.1.symm, this.2.symm⟩

theorem nav_inv_eq {s : State} (hps : 0 < s.page_size) (hN : 0 < s.filtered.length)
    (h : nav_inv s) :
    s.idx < s.filtered.length ∧ s.idx = s.page * s.page_size + s.cursor
      ∧ s.cursor < s.page_size := by
  rcases h hN with ⟨h1, h2, h3⟩
  refine ⟨h1, ?_, ?_⟩
  · rw [h2, h3, Nat.mul_comm]; exact (Nat.div_add_mod _ _).symm
  · rw [h3]; exact Nat.mod_lt _ hps

theorem move_to_next_eq (s : State) (hps : 0 < s.page_size) (hN : 0 < s.filtered.length)
    (hinv : nav_inv s) :
    (move_to_next s).2 =
        { s with
          idx := (s.idx + 1) % s.filtered.length
          page := (s.idx + 1) % s.filtered.length / s.page_size
          cursor := (s.idx + 1) % s.filtered.length % s.page_size }
      ∧ ((move_to_next s).1 = true ↔ (s.idx + 1) % s.filtered.length / s.page_size ≠ s.page) := by
  rcases nav_inv_eq hps hN hinv with ⟨h1, h2, h3⟩
  have hN0 : ¬ s.filtered.length = 0 := by omega
  unfold move_to_next
  rw [if_neg hN0]
  by_cases hlast : s.idx = s.filtered.length - 1
  · have e : (s.idx + 1) % s.filtered.length = 0 := by
      have : s.idx + 1 = s.filtered.length := by omega
      rw [this, Nat.mod_self]
    rw [if_pos hlast, e]
    simp only [Nat.zero_div, Nat.zero_mod]
    by_cases hp : s.page > 0
    · rw [if_pos hp]
      exact ⟨rfl, by simp; omega⟩
    · rw [if_neg hp]
      have : s.page = 0 := by omega
      refine ⟨?_, by simp; omega⟩
      cases s; simp_all
  · have e : (s.idx + 1) % s.filtered.length = s.idx + 1 := Nat.mod_eq_of_lt (by omega)
    rw [if_neg hlast, e]
    by_cases hc : s.cursor + 1 = s.page_size
    · have hm := Nat.add_mul s.page 1 s.page_size
      rcases div_mod_of_eq (a := s.idx + 1) (b := s.page_size) (q := s.page + 1) (r := 0)
        (by omega) hps with ⟨d1, d2⟩
      simp only [hc, if_true]
      rw [← d1, ← d2]
      exact ⟨rfl, by simp⟩
    · rcases div_mod_of_eq (a := s.idx + 1) (b := s.page_size) (q := s.page) (r := s.cursor + 1)
        (by omega) (by omega) with ⟨d1, d2⟩
      simp only [hc, if_false]
      rw [← d1, ← d2]
      refine ⟨?_, by simp⟩
      cases s; rfl

theorem move_to_previous_eq (s : State) (hps : 0 < s.page_size) (hN : 0 < s.filtered.length)
    (hinv : nav_inv s) :
    (move_to_previous s).2 =
        { s with
          idx := (s.idx + s.filtered.length - 1) % s.filtered.length
          page := (s.idx + s.filtered.length - 1) % s.filtered.length / s.page_size
          cursor := (s.idx + s.filtered.length - 1) % s.filtered.length % s.page_size }
      ∧ ((move_to_previous s).1 = true ↔
          (s.idx + s.filtered.length - 1) % s.filtered.length / s.page_size ≠ s.page) := by
  rcases nav_inv_eq hps hN hinv with ⟨h1, h2, h3⟩
  have hN0 : ¬ s.filtered.length = 0 := by omega
  unfold move_to_previous
  rw [if_neg hN0]
  by_cases hfirst : s.idx = 0
  · have e : (s.idx + s.filtered.length - 1) % s.filtered.length = s.filtered.length - 1 := by
      rw [hfirst, Nat.zero_add]; exact Nat.mod_eq_of_lt (by omega)
    rw [if_pos hfirst, e]
    by_cases hp : (s.filtered.length - 1) / s.page_size ≠ s.page
    · rw [if_pos hp]
      exact ⟨rfl, by simpa using hp⟩
    · rw [if_neg hp]
      have hp2 : (s.filtered.length - 1) / s.page_size = s.page := by
        by_contra hc; exact hp hc
      refine ⟨?_, by simp [hp2]⟩
      rw [hp2]
  · have e : (s.idx + s.filtered.length - 1) % s.filtered.length = s.idx - 1 := by
      have : s.idx + s.filtered.length - 1 = (s.idx - 1) + s.filtered.length := by omega
      rw [this, Nat.add_mod_right]; exact Nat.mod_eq_of_lt (by omega)
    rw [if_neg hfirst, e]
    by_cases hc : s.cursor = 0
    · have hpage : 0 < s.page := by
        rcases Nat.eq_zero_or_pos s.page with h0 | h0
        · rw [h0, hc] at h2; simp at h2; omega
        · exact h0
      have hm := Nat.sub_mul s.page 1 s.page_size
      have hle : s.page_size ≤ s.page * s.page_size := Nat.le_mul_of_pos_left _ hpage
      rcases div_mod_of_eq (a := s.idx - 1) (b := s.page_size) (q := s.page - 1)
        (r := s.page_size - 1) (by omega) (by omega) with ⟨d1, d2⟩
      simp only [hc, if_true]
      rw [← d1, ← d2]
      exact ⟨rfl, by simp; omega⟩
    · rcases div_mod_of_eq (a := s.idx - 1) (b := s.page_size) (q := s.page)
        (r := s.cursor - 1) (by omega) (by omega) with ⟨d1, d2⟩
      simp only [hc, if_false]
      rw [← d1, ← d2]
      refine ⟨?_, by simp⟩
      cases s; rfl

theorem move_to_first_eq (s : State) (hN : 0 < s.filtered.length) :
    (move_to_first s).2 = { s with idx := 0, page := 0, cursor := 0 }
      ∧ ((move_to_first s).1 = true ↔ 0 ≠ s.page) := by
  have hN0 : ¬ s.filtered.length = 0 := by omega
  unfold move_to_first
  rw [if_neg hN0]
  by_cases hp : s.page > 0
  · rw [if_pos hp]; exact ⟨rfl, by simp; omega⟩
  · rw [if_neg hp]
    have : s.page = 0 := by omega
    refine ⟨?_, by simp; omega⟩
    cases s; simp_all

theorem move_to_last_eq (s : State) (hN : 0 < s.filtered.length) :
    (move_to_last s).2 =
        { s with
          idx := s.filtered.length - 1
          page := (s.filtered.length - 1) / s.page_size
          cursor := (s.filtered.length - 1) % s.page_size }
      ∧ ((move_to_last s).1 = true ↔ (s.filtered.length - 1) / s.page_size ≠ s.page) := by
  have hN0 : ¬ s.filtered.length = 0 := by omega
  unfold move_to_last
  rw [if_neg hN0]
  by_cases hp : (s.filtered.length - 1) / s.page_size ≠ s.page
  · rw [if_pos hp]
    exact ⟨rfl, by simpa using hp⟩
  · rw [if_neg hp]
    have hp2 : (s.filtered.length - 1) / s.page_size = s.page := by
      by_contra hc; exact hp hc
    refine ⟨?_, by simp [hp2]⟩
    rw [hp2]

theorem nav_inv_of_eq {s : State} (h1 : s.idx < s.filtered.length)
    (h2 : s.idx = s.page * s.page_size + s.cursor) (h3 : s.cursor < s.page_size) : nav_inv s := by
  intro _
  exact ⟨h1, div_mod_of_eq h2 h3⟩

theorem move_page_up_nav (s : State) (hps : 0 < s.page_size) (hinv : nav_inv s) :
    nav_inv (move_page_up s).2 ∧ ((move_page_up s).1 = true ↔ (move_page_up s).2.page ≠ s.page)
      ∧ (move_page_up s).2.filtered = s.filtered
      ∧ (move_page_up s).2.page_size = s.page_size := by
  unfold move_page_up
  by_cases hN0 : s.filtered.length = 0
  · rw [if_pos hN0]; exact ⟨hinv, by simp, rfl, rfl⟩
  · rw [if_neg hN0]
    rcases nav_inv_eq hps (by omega) hinv with ⟨h1, h2, h3⟩
    by_cases hc : s.cursor = 0
    · rw [if_pos hc]
      by_cases hp : s.page = 0
      · rw [if_pos hp]; exact ⟨hinv, by simp, rfl, rfl⟩
      · rw [if_neg hp]
        refine ⟨?_, by simp; omega, rfl, rfl⟩
        have hle : (s.page - 1) * s.page_size ≤ s.page * s.page_size :=
          Nat.mul_le_mul_right _ (by omega)
        exact nav_inv_of_eq
          (by show (s.page - 1) * s.page_size < s.filtered.length; omega) rfl hps
    · rw [if_neg hc]
      refine ⟨?_, by simp, rfl, rfl⟩
      exact nav_inv_of_eq
        (by show s.page * s.page_size < s.filtered.length; omega) rfl hps

theorem last_page_facts {s : State} (hps : 0 < s.page_size) (hN : 0 < s.filtered.length)
    (hinv : nav_inv s) :
    s.filtered.length - 1 =
        (s.filtered.length - 1) / s.page_size * s.page_size + (s.filtered.length - 1) % s.page_size
      ∧ (s.filtered.length - 1) % s.page_size < s.page_size
      ∧ s.page ≤ (s.filtered.length - 1) / s.page_size
      ∧ (s.page = (s.filtered.length - 1) / s.page_size →
          s.cursor ≤ (s.filtered.length - 1) % s.page_size) := by
  rcases hinv hN with ⟨h1, h2, h3⟩
  refine ⟨?_, Nat.mod_lt _ hps, ?_, ?_⟩
  · rw [Nat.mul_comm]; exact (Nat.div_add_mod _ _).symm
  · rw [h2]; exact Nat.div_le_div_right (by omega)
  · intro hp
    have e1 := Nat.div_add_mod s.idx s.page_size
    have e2 := Nat.div_add_mod (s.filtered.length - 1) s.page_size
    rw [← h2, ← h3] at e1
    rw [← hp] at e2
    omega

theorem move_page_down_nav (s : State) (hps : 0 < s.page_size) (hinv : nav_inv s) :
    nav_inv (move_page_down s).2
      ∧ ((move_page_down s).1 = true ↔ (move_page_down s).2.page ≠ s.page)
      ∧ (move_page_down s).2.filtered = s.filtered
      ∧ (move_page_down s).2.page_size = s.page_size := by
  unfold move_page_down
  by_cases hN0 : s.filtered.length = 0
  · rw [if_pos hN0]; exact ⟨hinv, by simp, rfl, rfl⟩
  · rw [if_neg hN0]
    rcases nav_inv_eq hps (by omega) hinv with ⟨h1, h2, h3⟩
    rcases last_page_facts hps (by omega) hinv with ⟨f1, f2, f3, f4⟩
    simp only
    by_cases hlt : s.page < (s.filtered.length - 1) / s.page_size
    · have hmul : (s.page + 1) * s.page_size ≤
          (s.filtered.length - 1) / s.page_size * s.page_size :=
        Nat.mul_le_mul_right _ (by omega)
      have hm1 := Nat.add_mul s.page 1 s.page_size
      simp only [hlt, if_true]
      by_cases hc : s.cursor = s.page_size - 1
      · have hge : ¬ s.page ≥ (s.filtered.length - 1) / s.page_size := by omega
        rw [if_pos hc, if_neg hge]
        refine ⟨?_, by simp, rfl, rfl⟩
        by_cases hlt2 : s.page + 1 < (s.filtered.length - 1) / s.page_size
        · have hmul2 : (s.page + 1 + 1) * s.page_size ≤
              (s.filtered.length - 1) / s.page_size * s.page_size :=
            Nat.mul_le_mul_right _ (by omega)
          have hm2 := Nat.add_mul (s.page + 1) 1 s.page_size
          simp only [hlt2, if_true]
          exact nav_inv_of_eq
            (by show (s.page + 1) * s.page_size + (s.page_size - 1) < s.filtered.length; omega)
            rfl (by show s.page_size - 1 < s.page_size; omega)
        · have heq : s.page + 1 = (s.filtered.length - 1) / s.page_size := by omega
          simp only [hlt2, if_false]
          exact nav_inv_of_eq
            (by
              show (s.page + 1) * s.page_size + (s.filtered.length - 1) % s.page_size
                < s.filtered.length
              rw [heq]; omega)
            rfl f2
      · rw [if_neg hc]
        refine ⟨?_, by simp, rfl, rfl⟩
        exact nav_inv_of_eq
          (by show s.page * s.page_size + (s.page_size - 1) < s.filtered.length; omega)
          rfl (by show s.page_size - 1 < s.page_size; omega)
    · have heq : s.page = (s.filtered.length - 1) / s.page_size := by omega
      simp only [hlt, if_false]
      by_cases hc : s.cursor = (s.filtered.length - 1) % s.page_size
      · have hge : s.page ≥ (s.filtered.length - 1) / s.page_size := by omega
        rw [if_pos hc, if_pos hge]
        exact ⟨hinv, by simp, rfl, rfl⟩
      · rw [if_neg hc]
        refine ⟨?_, by simp, rfl, rfl⟩
        exact nav_inv_of_eq
          (by
            show s.page * s.page_size + (s.filtered.length - 1) % s.page_size
              < s.filtered.length
            rw [heq]; omega)
          rfl f2

/-! ## The session invariant -/

theorem session_inv_frame {s s1 : State} (h : session_inv s) (hf : s1.files = s.files)
    (hv : s1.filtered = s.filtered) (hi : s1.idx = s.idx) (hp : s1.page = s.page)
    (hc : s1.cursor = s.cursor) (hps : s1.page_size = s.page_size) : session_inv s1 := by
  unfold session_inv nav_inv origin_if_empty view_ok at *
  rw [hf, hv, hi, hp, hc, hps]
  exact h

theorem nav_at_origin {s : State} (hi : s.idx = 0) (hp : s.page = 0) (hc : s.cursor = 0) :
    nav_inv s ∧ origin_if_empty s := by
  unfold nav_inv origin_if_empty
  rw [hi, hp, hc]
  exact ⟨fun h => ⟨h, by simp, by simp⟩, fun _ => ⟨rfl, rfl, rfl⟩⟩

theorem apply_filter_session {s : State} (hps : 0 < s.page_size)
    (hlen : s.files.length ≤ UINT32_MAX) (hv : view_ok s) : session_inv (apply_filter s) := by
  have h0 := nav_at_origin (s := apply_filter s) rfl rfl rfl
  exact ⟨hps, h0.1, h0.2, hlen, apply_filter_view_ok hlen hv⟩

theorem bsearch_loop_bounds (cmp : Nat → Int) (fuel : Nat) :
    ∀ l u i, bsearch_loop cmp fuel l u = some i → l ≤ i ∧ i < u := by
  induction fuel with
  | zero => intro l u i h; simp [bsearch_loop] at h
  | succ n ih =>
    intro l u i h
    unfold bsearch_loop at h
    by_cases hlu : l < u
    · rw [if_pos hlu] at h
      simp only at h
      by_cases h1 : cmp ((l + u) / 2) < 0
      · rw [if_pos h1] at h
        have := ih _ _ _ h
        omega
      · rw [if_neg h1] at h
        by_cases h2 : cmp ((l + u) / 2) > 0
        · rw [if_pos h2] at h
          have := ih _ _ _ h
          omega
        · rw [if_neg h2] at h
          simp only [Option.some.injEq] at h
          omega
    · rw [if_neg hlu] at h; cases h

theorem bsearch_lt {cmp : Nat → Int} {n i : Nat} (h : bsearch cmp n = some i) : i < n :=
  (bsearch_loop_bounds cmp _ _ _ _ h).2

theorem nav_derived {s : State} (hi : s.idx < s.filtered.length)
    (hp : s.page = s.idx / s.page_size) (hc : s.cursor = s.idx % s.page_size) :
    nav_inv s ∧ origin_if_empty s :=
  ⟨fun _ => ⟨hi, hp, hc⟩, fun h => by omega⟩

theorem clear_search_session {s : State} (h : session_inv s) : session_inv (clear_search s) := by
  rcases h with ⟨hps, -, -, hlen, hv⟩
  have hbase : session_inv (apply_filter
      { s with search_query := s.search_query.set 0 0, search_len := 0, search_cursor := 0,
               search_open := false, prev_search_len := 0 }) :=
    apply_filter_session hps hlen hv
  unfold clear_search
  simp only
  generalize (if s.filtered.length > 0 then
    (cstr (file_name (file_at s s.idx))).take (PATH_MAX - 1) else []) = sel
  by_cases hsel : sel.getD 0 0 ≠ 0
  · rw [if_pos hsel]
    split
    · rename_i found hfound
      have hlt := bsearch_lt hfound
      exact ⟨hps, fun _ => ⟨hlt, rfl, rfl⟩, fun h0 => absurd hlt (by rw [h0]; omega), hlen,
        hbase.2.2.2.2⟩
    · exact hbase
  · rw [if_neg hsel]
    exact hbase

theorem handle_resize_session {s : State} (ioctl : Option (Nat × Nat)) (h : session_inv s) :
    session_inv (handle_resize ioctl s) := by
  rcases h with ⟨_, _, ho, hlen, hv⟩
  have hps : 0 < (if (get_win_size ioctl).1 > 3 then (get_win_size ioctl).1 - 3 else 1) := by
    split <;> omega
  unfold handle_resize
  simp only
  split
  · rename_i hN
    refine ⟨hps, ?_, ?_, hlen, hv⟩
    · intro _
      refine ⟨?_, rfl, rfl⟩
      show (if s.idx ≥ s.filtered.length then s.filtered.length - 1 else s.idx) < s.filtered.length
      have hN2 : 0 < s.filtered.length := hN
      split <;> omega
    · intro h0
      have hN2 : 0 < s.filtered.length := hN
      have h1 : s.filtered.length = 0 := h0
      omega
  · exact ⟨hps, fun h0 => absurd h0 (by assumption), ho, hlen, hv⟩

theorem get_files_frame {dir : Option (List dirent)} {lstat : List Nat → Option Nat}
    {s s1 : State} (h : get_files dir lstat s = .ok s1) :
    s1.page_size = s.page_size ∧ s1.idx = s.idx ∧ s1.page = s.page ∧ s1.cursor = s.cursor
      ∧ s1.cursor_stack = s.cursor_stack := by
  unfold get_files at h
  cases dir with
  | none =>
    simp only [Except.ok.injEq] at h
    subst h
    exact ⟨rfl, rfl, rfl, rfl, rfl⟩
  | some entries =>
    simp only at h
    cases hr : read_entries lstat entries [] with
    | error e => rw [hr] at h; cases h
    | ok fs =>
      rw [hr] at h
      simp only [Except.ok.injEq] at h
      subst h
      exact ⟨rfl, rfl, rfl, rfl, rfl⟩

theorem get_files_view {dir : Option (List dirent)} {lstat : List Nat → Option Nat}
    {s s1 : State} (h : get_files dir lstat s = .ok s1) :
    s1.files.length ≤ UINT32_MAX ∧ view_ok s1 := by
  rcases get_files_catalog_ok h with ⟨hc, hv, _⟩
  exact ⟨hc.1, view_ok_identity hc.1 hv⟩

theorem session_inv_of_nav {s s1 : State} (h : session_inv s) (hn : nav_inv s1)
    (ho : origin_if_empty s1) (hf : s1.files = s.files) (hv : s1.filtered = s.filtered)
    (hps : s1.page_size = s.page_size) : session_inv s1 := by
  rcases h with ⟨h1, _, _, h4, h5⟩
  refine ⟨by rw [hps]; exact h1, hn, ho, by rw [hf]; exact h4, ?_⟩
  unfold view_ok at *
  rw [hf, hv]; exact h5

theorem move_to_next_session {s : State} (h : session_inv s) :
    session_inv (move_to_next s).2 := by
  by_cases hN : s.filtered.length = 0
  · have : move_to_next s = (false, s) := by unfold move_to_next; rw [if_pos hN]
    rw [this]; exact h
  · have hN2 : 0 < s.filtered.length := by omega
    rw [(move_to_next_eq s h.1 hN2 h.2.1).1]
    exact session_inv_of_nav h (fun _ => ⟨Nat.mod_lt _ hN2, rfl, rfl⟩)
      (fun h0 => absurd h0 hN) rfl rfl rfl

theorem move_to_previous_session {s : State} (h : session_inv s) :
    session_inv (move_to_previous s).2 := by
  by_cases hN : s.filtered.length = 0
  · have : move_to_previous s = (false, s) := by unfold move_to_previous; rw [if_pos hN]
    rw [this]; exact h
  · have hN2 : 0 < s.filtered.length := by omega
    rw [(move_to_previous_eq s h.1 hN2 h.2.1).1]
    exact session_inv_of_nav h (fun _ => ⟨Nat.mod_lt _ hN2, rfl, rfl⟩)
      (fun h0 => absurd h0 hN) rfl rfl rfl

theorem move_to_first_session {s : State} (h : session_inv s) :
    session_inv (move_to_first s).2 := by
  by_cases hN : s.filtered.length = 0
  · have : move_to_first s = (false, s) := by unfold move_to_first; rw [if_pos hN]
    rw [this]; exact h
  · have hN2 : 0 < s.filtered.length := by omega
    rw [(move_to_first_eq s hN2).1]
    exact session_inv_of_nav h (fun _ => ⟨hN2, by simp, by simp⟩)
      (fun h0 => absurd h0 hN) rfl rfl rfl

theorem move_to_last_session {s : State} (h : session_inv s) :
    session_inv (move_to_last s).2 := by
  by_cases hN : s.filtered.length = 0
  · have : move_to_last s = (false, s) := by unfold move_to_last; rw [if_pos hN]
    rw [this]; exact h
  · have hN2 : 0 < s.filtered.length := by omega
    rw [(move_to_last_eq s hN2).1]
    exact session_inv_of_nav h
      (fun _ => ⟨by show s.filtered.length - 1 < s.filtered.length; omega, rfl, rfl⟩)
      (fun h0 => absurd h0 hN) rfl rfl rfl

theorem move_page_up_frame (s : State) :
    (move_page_up s).2.files = s.files ∧ (s.filtered.length = 0 → (move_page_up s).2 = s) := by
  unfold move_page_up
  constructor
  · split_ifs <;> rfl
  · intro h; rw [if_pos h]

theorem move_page_down_frame (s : State) :
    (move_page_down s).2.files = s.files
      ∧ (s.filtered.length = 0 → (move_page_down s).2 = s) := by
  unfold move_page_down
  constructor
  · simp only
    split_ifs <;> rfl
  · intro h; rw [if_pos h]

theorem move_page_up_session {s : State} (h : session_inv s) :
    session_inv (move_page_up s).2 := by
  rcases move_page_up_nav s h.1 h.2.1 with ⟨h1, _, h3, h4⟩
  rcases move_page_up_frame s with ⟨h5, h6⟩
  refine session_inv_of_nav h h1 ?_ h5 h3 h4
  intro h0
  rw [h3] at h0
  rw [h6 h0]
  exact h.2.2.1 h0

theorem move_page_down_session {s : State} (h : session_inv s) :
    session_inv (move_page_down s).2 := by
  rcases move_page_down_nav s h.1 h.2.1 with ⟨h1, _, h3, h4⟩
  rcases move_page_down_frame s with ⟨h5, h6⟩
  refine session_inv_of_nav h h1 ?_ h5 h3 h4
  intro h0
  rw [h3] at h0
  rw [h6 h0]
  exact h.2.2.1 h0

theorem set_page_cursor_frame (s : State) :
    (set_page_cursor s).files = s.files ∧ (set_page_cursor s).filtered = s.filtered
      ∧ (set_page_cursor s).page_size = s.page_size ∧ (set_page_cursor s).idx = s.idx
      ∧ (set_page_cursor s).cursor_stack = s.cursor_stack := by
  unfold set_page_cursor
  split <;> exact ⟨rfl, rfl, rfl, rfl, rfl⟩

theorem set_page_cursor_nav {s : State} (h1 : 0 < s.filtered.length → s.idx < s.filtered.length)
    (h2 : s.filtered.length = 0 → s.idx = 0) :
    nav_inv (set_page_cursor s) ∧ origin_if_empty (set_page_cursor s) := by
  unfold set_page_cursor
  by_cases hi : s.idx > 0
  · rw [if_pos hi]
    exact ⟨fun hN => ⟨h1 hN, rfl, rfl⟩, fun h0 => absurd (h2 h0) (by omega)⟩
  · rw [if_neg hi]
    have hi0 : s.idx = 0 := by omega
    exact nav_at_origin (s := { s with page := 0, cursor := 0 }) hi0 rfl rfl

theorem delete_answered_session {env : Env} {yes : Bool} {s s1 : State} (h : session_inv s)
    (hd : delete_answered env yes s = .ok s1) : session_inv s1 := by
  unfold delete_answered at hd
  by_cases hy : yes = true ∧ remove_recursive_at env AT_FDCWD (file_name (file_at s s.idx)) = 0
  · rw [if_pos hy] at hd
    unfold delete_refresh at hd
    cases hg : get_files env.dir env.lstat s with
    | error e => rw [hg] at hd; cases hd
    | ok s2 =>
      rw [hg] at hd
      have hfr := get_files_frame hg
      have hvw := get_files_view hg
      have hbase := apply_filter_session (s := s2) (by rw [hfr.1]; exact h.1) hvw.1 hvw.2
      simp only at hd
      have hidx : (if (apply_filter s2).idx ≥ (apply_filter s2).filtered.length
          ∧ (apply_filter s2).filtered.length > 0 then (apply_filter s2).filtered.length - 1
          else (apply_filter s2).idx) = 0 := by
        have : (apply_filter s2).idx = 0 := rfl
        rw [this]
        split
        · omega
        · rfl
      rw [hidx] at hd
      simp only [Except.ok.injEq] at hd
      subst hd
      have hn := set_page_cursor_nav (s := { apply_filter s2 with idx := 0 })
        (fun hN => hN) (fun _ => rfl)
      rcases set_page_cursor_frame { apply_filter s2 with idx := 0 } with ⟨f1, f2, f3, _, _⟩
      refine ⟨by rw [f3]; exact hbase.1, hn.1, hn.2, by rw [f1]; exact hbase.2.2.2.1, ?_⟩
      have hv := hbase.2.2.2.2
      unfold view_ok at hv ⊢
      rw [f1, f2]; exact hv
  · rw [if_neg hy] at hd
    simp only [Except.ok.injEq] at hd
    subst hd; exact h

theorem delete_selected_session {env : Env} {s s1 : State} {input rest : List Nat}
    (h : session_inv s) (hd : delete_selected env s input = some (.ok s1, rest)) :
    session_inv s1 := by
  unfold delete_selected at hd
  by_cases hN : s.filtered.length = 0
  · rw [if_pos hN] at hd
    simp only [Option.some.injEq, Prod.mk.injEq, Except.ok.injEq] at hd
    rw [← hd.1]; exact h
  · rw [if_neg hN] at hd
    cases hr : read_confirm input with
    | none => rw [hr] at hd; cases hd
    | some p =>
      rcases p with ⟨yes, r⟩
      rw [hr] at hd
      simp only [Option.some.injEq, Prod.mk.injEq] at hd
      exact delete_answered_session h hd.1

theorem enter_directory_session {env : Env} {s s1 : State} (h : session_inv s)
    (hd : enter_directory env s = .ok s1) : session_inv s1 := by
  unfold enter_directory at hd
  split at hd
  · simp only [Except.ok.injEq] at hd; subst hd; exact h
  · split at hd
    · simp only [Except.ok.injEq] at hd; subst hd; exact h
    · split at hd
      · simp only [Except.ok.injEq] at hd; subst hd; exact h
      · simp only at hd
        split at hd
        · cases hd
        · rename_i s2 hg
          simp only [Except.ok.injEq] at hd
          subst hd
          have hfr := get_files_frame hg
          have hvw := get_files_view hg
          have h0 := nav_at_origin (s := { s2 with idx := 0, cursor := 0, page := 0 })
            rfl rfl rfl
          exact ⟨by show 0 < s2.page_size; rw [hfr.1]; exact h.1, h0.1, h0.2, hvw.1, hvw.2⟩

theorem pop_cursor_frame (s : State) :
    (pop_cursor s).files = s.files ∧ (pop_cursor s).filtered = s.filtered
      ∧ (pop_cursor s).page_size = s.page_size := by
  unfold pop_cursor
  split <;> exact ⟨rfl, rfl, rfl⟩

theorem pop_cursor_idx (s : State) :
    (0 < s.filtered.length → (pop_cursor s).idx < s.filtered.length)
      ∧ (s.filtered.length = 0 → (pop_cursor s).idx = 0) := by
  unfold pop_cursor
  split
  · simp only
    constructor
    · intro hN
      split
      · omega
      · omega
    · intro h0
      rw [if_pos (by omega), if_neg (by omega)]
  · exact ⟨fun hN => hN, fun _ => rfl⟩

theorem go_to_parent_session {env : Env} {s s1 : State} (h : session_inv s)
    (hd : go_to_parent env s = .ok s1) : session_inv s1 := by
  unfold go_to_parent at hd
  split at hd
  · simp only [Except.ok.injEq] at hd; subst hd; exact h
  · split at hd
    · cases hd
    · rename_i s2 hg
      have hfr := get_files_frame hg
      have hvw := get_files_view hg
      have hps : 0 < s2.page_size := by
        rw [hfr.1]; exact (clear_search_session h).1
      simp only [Except.ok.injEq] at hd
      subst hd
      rcases pop_cursor_frame s2 with ⟨p1, p2, p3⟩
      rcases set_page_cursor_frame (pop_cursor s2) with ⟨f1, f2, f3, _, _⟩
      have hidx := pop_cursor_idx s2
      have hn := set_page_cursor_nav (s := pop_cursor s2)
        (by rw [p2]; exact hidx.1) (by rw [p2]; exact hidx.2)
      refine ⟨by rw [f3, p3]; exact hps, hn.1, hn.2, by rw [f1, p1]; exact hvw.1, ?_⟩
      have hv := hvw.2
      unfold view_ok at hv ⊢
      rw [f1, f2, p1, p2]; exact hv

theorem session_inv_same_nav {s s1 : State} (h : session_inv s) (hs : same_nav s1 s) :
    session_inv s1 :=
  session_inv_frame h hs.1 hs.2.1 hs.2.2.1 hs.2.2.2.1 hs.2.2.2.2.1 hs.2.2.2.2.2

theorem apply_filter_same_nav {s s1 : State} (h : session_inv s) (hs : same_nav s1 s) :
    session_inv (apply_filter s1) := by
  have h1 := session_inv_same_nav h hs
  exact apply_filter_session h1.1 h1.2.2.2.1 h1.2.2.2.2

theorem search_delete_to_start_same (s : State) : same_nav (search_delete_to_start s) s := by
  unfold search_delete_to_start
  split <;> exact ⟨rfl, rfl, rfl, rfl, rfl, rfl⟩

theorem search_delete_word_back_same (s : State) : same_nav (search_delete_word_back s) s := by
  unfold search_delete_word_back
  split <;> exact ⟨rfl, rfl, rfl, rfl, rfl, rfl⟩

theorem search_delete_word_forward_same (s : State) :
    same_nav (search_delete_word_forward s) s := by
  unfold search_delete_word_forward
  split <;> exact ⟨rfl, rfl, rfl, rfl, rfl, rfl⟩

theorem search_delete_char_back_same (s : State) : same_nav (search_delete_char_back s) s := by
  unfold search_delete_char_back
  split <;> exact ⟨rfl, rfl, rfl, rfl, rfl, rfl⟩

theorem search_delete_char_forward_same (s : State) :
    same_nav (search_delete_char_forward s) s := by
  unfold search_delete_char_forward
  split <;> exact ⟨rfl, rfl, rfl, rfl, rfl, rfl⟩

theorem search_insert_char_same (ch : Nat) (s : State) : same_nav (search_insert_char ch s) s := by
  unfold search_insert_char
  split <;> exact ⟨rfl, rfl, rfl, rfl, rfl, rfl⟩

theorem search_move_word_back_same (s : State) : same_nav (search_move_word_back s) s := by
  unfold search_move_word_back
  split <;> exact ⟨rfl, rfl, rfl, rfl, rfl, rfl⟩

theorem search_move_word_forward_same (s : State) : same_nav (search_move_word_forward s) s := by
  unfold search_move_word_forward
  split <;> exact ⟨rfl, rfl, rfl, rfl, rfl, rfl⟩

theorem search_escape_session {key : esc_key} {s : State} (h : session_inv s) :
    session_inv (search_escape key s) := by
  cases key <;> unfold search_escape <;> simp only
  case ESC_DOUBLE => exact clear_search_session h
  case ESC_LEFT => split <;> exact h
  case ESC_RIGHT => split <;> exact h
  case ESC_DELETE => exact apply_filter_same_nav h (search_delete_char_forward_same s)
  case ESC_CTRL_DELETE => exact apply_filter_same_nav h (search_delete_word_forward_same s)
  case ESC_CTRL_LEFT => exact session_inv_same_nav h (search_move_word_back_same s)
  case ESC_CTRL_RIGHT => exact session_inv_same_nav h (search_move_word_forward_same s)
  all_goals exact h

theorem search_key_session {ch : Nat} {s s1 : State} {input rest : List Nat}
    (h : session_inv s) (hk : search_key ch s input = .running s1 rest) : session_inv s1 := by
  unfold search_key at hk
  split_ifs at hk
  all_goals simp only [Outcome.running.injEq] at hk
  all_goals obtain ⟨rfl, -⟩ := hk
  · exact apply_filter_same_nav h (search_delete_to_start_same s)
  · exact apply_filter_same_nav h (search_delete_word_back_same s)
  · exact search_escape_session h
  · exact h
  · exact h
  · exact apply_filter_same_nav h (search_delete_char_back_same s)
  · exact apply_filter_same_nav h (search_delete_word_back_same s)
  · exact apply_filter_same_nav h (search_insert_char_same ch s)

theorem outcome_of_running {r : Except Fatal State} {input rest : List Nat} {s1 : State}
    (h : Outcome.of r input = .running s1 rest) : r = .ok s1 := by
  unfold Outcome.of at h
  split at h
  · simp only [Outcome.running.injEq] at h
    rw [h.1]
  · cases h

theorem outcome_of_delete_running {r : Option (Except Fatal State × List Nat)} {rest : List Nat}
    {s1 : State} (h : Outcome.of_delete r = .running s1 rest) : r = some (.ok s1, rest) := by
  unfold Outcome.of_delete at h
  split at h
  · cases h
  · rename_i x r2
    have := outcome_of_running h
    unfold Outcome.of at h
    rw [this] at h
    simp only [Outcome.running.injEq] at h
    rw [this, h.2]

theorem browse_escape_session {env : Env} {key : esc_key} {s s1 : State}
    {input rest : List Nat} (h : session_inv s)
    (hk : browse_escape env key s input = .running s1 rest) : session_inv s1 := by
  cases key <;> unfold browse_escape at hk <;> simp only at hk
  case ESC_DELETE => exact delete_selected_session h (outcome_of_delete_running hk)
  case ESC_RIGHT => exact enter_directory_session h (outcome_of_running hk)
  case ESC_LEFT => exact go_to_parent_session h (outcome_of_running hk)
  all_goals simp only [Outcome.running.injEq] at hk
  all_goals obtain ⟨rfl, -⟩ := hk
  case ESC_DOUBLE =>
    split
    · exact clear_search_session h
    · exact h
  case ESC_UP => exact move_to_previous_session h
  case ESC_DOWN => exact move_to_next_session h
  case ESC_HOME => exact move_to_first_session h
  case ESC_END => exact move_to_last_session h
  case ESC_PAGE_UP => exact move_page_up_session h
  case ESC_PAGE_DOWN => exact move_page_down_session h
  all_goals exact h

theorem browse_key_session {env : Env} {ch : Nat} {s s1 : State} {input rest : List Nat}
    (h : session_inv s) (hk : browse_key env ch s input = .running s1 rest) :
    session_inv s1 := by
  unfold browse_key at hk
  by_cases h10 : ch = 10
  · rw [if_pos h10] at hk; cases hk
  rw [if_neg h10] at hk
  by_cases h27 : ch = 27
  · rw [if_pos h27] at hk
    exact browse_escape_session h hk
  rw [if_neg h27] at hk
  by_cases h47 : ch = 47
  · rw [if_pos h47] at hk
    simp only [Outcome.running.injEq] at hk
    obtain ⟨rfl, -⟩ := hk
    exact h
  rw [if_neg h47] at hk
  by_cases h113 : ch = 113
  · rw [if_pos h113] at hk; cases hk
  rw [if_neg h113] at hk
  by_cases h103 : ch = 103
  · rw [if_pos h103] at hk
    simp only [Outcome.running.injEq] at hk
    obtain ⟨rfl, -⟩ := hk
    exact move_to_first_session h
  rw [if_neg h103] at hk
  by_cases h71 : ch = 71
  · rw [if_pos h71] at hk
    simp only [Outcome.running.injEq] at hk
    obtain ⟨rfl, -⟩ := hk
    exact move_to_last_session h
  rw [if_neg h71] at hk
  by_cases h117 : ch = 117
  · rw [if_pos h117] at hk
    simp only [Outcome.running.injEq] at hk
    obtain ⟨rfl, -⟩ := hk
    exact move_page_up_session h
  rw [if_neg h117] at hk
  by_cases h100 : ch = 100
  · rw [if_pos h100] at hk
    simp only [Outcome.running.injEq] at hk
    obtain ⟨rfl, -⟩ := hk
    exact move_page_down_session h
  rw [if_neg h100] at hk
  by_cases h68 : ch = 68
  · rw [if_pos h68] at hk
    exact delete_selected_session h (outcome_of_delete_running hk)
  rw [if_neg h68] at hk
  simp only [ite_self, Outcome.running.injEq] at hk
  obtain ⟨rfl, -⟩ := hk
  exact h

theorem main_step_session {env : Env} {s s1 : State} {input rest : List Nat}
    (h : session_inv s) (hk : main_step env s input = .running s1 rest) : session_inv s1 := by
  unfold main_step at hk
  by_cases hsig : env.terminate_signal ≠ 0
  · rw [if_pos hsig] at hk; cases hk
  · rw [if_neg hsig] at hk
    cases hg : getchar input with
    | mk c r =>
      rw [hg] at hk
      cases c with
      | none =>
        simp only at hk
        split at hk
        · simp only [Outcome.running.injEq] at hk
          rw [← hk.1]; exact h
        · cases hk
      | some ch =>
        simp only at hk
        have h1 : session_inv
            (if env.term_resized = true then handle_resize env.winsize s else s) := by
          split
          · exact handle_resize_session _ h
          · exact h
        by_cases hopen :
            (if env.term_resized = true then handle_resize env.winsize s else s).search_open = true
        · rw [if_pos hopen] at hk
          exact search_key_session h1 hk
        · rw [if_neg hopen] at hk
          exact browse_key_session h1 hk

theorem startup_session {ioctl : Option (Nat × Nat)} {dir : Option (List dirent)}
    {lstat : List Nat → Option Nat} {start : Option (List Nat)} {s : State}
    (h : startup ioctl dir lstat start = .ok s) : session_inv s := by
  unfold startup at h
  simp only at h
  split at h
  · cases h
  · rename_i s1 hg
    have hfr := get_files_frame hg
    have hvw := get_files_view hg
    have hid := (get_files_catalog_ok hg).2.1
    have hps : 0 < s1.page_size := by
      rw [hfr.1]
      show 0 < (if (get_win_size ioctl).1 > 3 then (get_win_size ioctl).1 - 3 else 1)
      split <;> omega
    have h0 := nav_at_origin (s := s1) (hfr.2.1.trans rfl) (hfr.2.2.1.trans rfl)
      (hfr.2.2.2.1.trans rfl)
    split at h
    · simp only [Except.ok.injEq] at h
      subst h
      exact ⟨hps, h0.1, h0.2, hvw.1, hvw.2⟩
    · split at h
      · rename_i found hfound
        simp only [Except.ok.injEq] at h
        subst h
        have hlt : found < s1.filtered.length := by
          rw [hid, identity_view_length]; exact bsearch_lt hfound
        exact ⟨hps, fun _ => ⟨hlt, rfl, rfl⟩, fun h0 => absurd hlt (by rw [h0]; omega),
          hvw.1, hvw.2⟩
      · simp only [Except.ok.injEq] at h
        subst h
        exact ⟨hps, h0.1, h0.2, hvw.1, hvw.2⟩

/-- Every state at the top of the event loop satisfies the session invariant. -/
theorem reachable_session_inv {s : State} (h : Reachable s) : session_inv s := by
  induction h with
  | start ioctl dir lstat start s hs => exact startup_session hs
  | step env s input s1 rest _ hstep ih => exact main_step_session ih hstep

/-! ## Navigation: lemmas for the claims C6 to C10 -/

theorem move_empty (s : State) (h : s.filtered.length = 0) :
    move_to_previous s = (false, s) ∧ move_to_next s = (false, s) ∧ move_to_first s = (false, s)
      ∧ move_to_last s = (false, s) ∧ move_page_up s = (false, s)
      ∧ move_page_down s = (false, s) := by
  unfold move_to_previous move_to_next move_to_first move_to_last move_page_up move_page_down
  simp only [h, if_true, and_self]

theorem moves_nav_inv (s : State) (hps : 0 < s.page_size) (h : nav_inv s) :
    nav_inv (move_to_previous s).2 ∧ nav_inv (move_to_next s).2 ∧ nav_inv (move_to_first s).2
      ∧ nav_inv (move_to_last s).2 ∧ nav_inv (move_page_up s).2
      ∧ nav_inv (move_page_down s).2 := by
  refine ⟨?_, ?_, ?_, ?_, (move_page_up_nav s hps h).1, (move_page_down_nav s hps h).1⟩
  all_goals by_cases hN : s.filtered.length = 0
  · rw [(move_empty s hN).1]; exact h
  · have hN2 : 0 < s.filtered.length := by omega
    rw [(move_to_previous_eq s hps hN2 h).1]
    exact fun _ => ⟨Nat.mod_lt _ hN2, rfl, rfl⟩
  · rw [(move_empty s hN).2.1]; exact h
  · have hN2 : 0 < s.filtered.length := by omega
    rw [(move_to_next_eq s hps hN2 h).1]
    exact fun _ => ⟨Nat.mod_lt _ hN2, rfl, rfl⟩
  · rw [(move_empty s hN).2.2.1]; exact h
  · have hN2 : 0 < s.filtered.length := by omega
    rw [(move_to_first_eq s hN2).1]
    exact fun _ => ⟨hN2, by simp, by simp⟩
  · rw [(move_empty s hN).2.2.2.1]; exact h
  · have hN2 : 0 < s.filtered.length := by omega
    rw [(move_to_last_eq s hN2).1]
    exact fun _ => ⟨by show s.filtered.length - 1 < s.filtered.length; omega, rfl, rfl⟩

theorem moves_redraw (s : State) (hps : 0 < s.page_size) (h : nav_inv s) :
    ((move_to_previous s).1 = true ↔ (move_to_previous s).2.page ≠ s.page)
      ∧ ((move_to_next s).1 = true ↔ (move_to_next s).2.page ≠ s.page)
      ∧ ((move_to_first s).1 = true ↔ (move_to_first s).2.page ≠ s.page)
      ∧ ((move_to_last s).1 = true ↔ (move_to_last s).2.page ≠ s.page)
      ∧ ((move_page_up s).1 = true ↔ (move_page_up s).2.page ≠ s.page)
      ∧ ((move_page_down s).1 = true ↔ (move_page_down s).2.page ≠ s.page) := by
  refine ⟨?_, ?_, ?_, ?_, (move_page_up_nav s hps h).2.1, (move_page_down_nav s hps h).2.1⟩
  all_goals by_cases hN : s.filtered.length = 0
  · rw [(move_empty s hN).1]; simp
  · have hN2 : 0 < s.filtered.length := by omega
    rw [(move_to_previous_eq s hps hN2 h).1]
    exact (move_to_previous_eq s hps hN2 h).2
  · rw [(move_empty s hN).2.1]; simp
  · have hN2 : 0 < s.filtered.length := by omega
    rw [(move_to_next_eq s hps hN2 h).1]
    exact (move_to_next_eq s hps hN2 h).2
  · rw [(move_empty s hN).2.2.1]; simp
  · have hN2 : 0 < s.filtered.length := by omega
    rw [(move_to_first_eq s hN2).1]
    exact (move_to_first_eq s hN2).2
  · rw [(move_empty s hN).2.2.2.1]; simp
  · have hN2 : 0 < s.filtered.length := by omega
    rw [(move_to_last_eq s hN2).1]
    exact (move_to_last_eq s hN2).2

theorem clear_search_nav_inv (s : State) : nav_inv (clear_search s) := by
  have hbase := (nav_at_origin (s := apply_filter
      { s with search_query := s.search_query.set 0 0, search_len := 0, search_cursor := 0,
               search_open := false, prev_search_len := 0 }) rfl rfl rfl).1
  unfold clear_search
  simp only
  generalize (if s.filtered.length > 0 then
    (cstr (file_name (file_at s s.idx))).take (PATH_MAX - 1) else []) = sel
  by_cases hsel : sel.getD 0 0 ≠ 0
  · rw [if_pos hsel]
    split
    · rename_i found hfound
      exact fun _ => ⟨bsearch_lt hfound, rfl, rfl⟩
    · exact hbase
  · rw [if_neg hsel]
    exact hbase

theorem handle_resize_nav_inv (ioctl : Option (Nat × Nat)) (s : State) :
    0 < (handle_resize ioctl s).page_size ∧ nav_inv (handle_resize ioctl s) := by
  have hps : 0 < (if (get_win_size ioctl).1 > 3 then (get_win_size ioctl).1 - 3 else 1) := by
    split <;> omega
  unfold handle_resize
  simp only
  split
  · rename_i hN
    refine ⟨hps, fun _ => ⟨?_, rfl, rfl⟩⟩
    show (if s.idx ≥ s.filtered.length then s.filtered.length - 1 else s.idx) < s.filtered.length
    have hN2 : 0 < s.filtered.length := hN
    split <;> omega
  · exact ⟨hps, fun h0 => absurd h0 (by assumption)⟩

theorem delete_selected_nav_inv {env : Env} {s s1 : State} {input rest : List Nat}
    (h : nav_inv s) (hd : delete_selected env s input = some (.ok s1, rest)) : nav_inv s1 := by
  unfold delete_selected at hd
  by_cases hN : s.filtered.length = 0
  · rw [if_pos hN] at hd
    simp only [Option.some.injEq, Prod.mk.injEq, Except.ok.injEq] at hd
    rw [← hd.1]; exact h
  · rw [if_neg hN] at hd
    cases hr : read_confirm input with
    | none => rw [hr] at hd; cases hd
    | some p =>
      rcases p with ⟨yes, r⟩
      rw [hr] at hd
      simp only [Option.some.injEq, Prod.mk.injEq] at hd
      have hd1 := hd.1
      unfold delete_answered at hd1
      by_cases hy : yes = true ∧ remove_recursive_at env AT_FDCWD (file_name (file_at s s.idx)) = 0
      · rw [if_pos hy] at hd1
        unfold delete_refresh at hd1
        cases hg : get_files env.dir env.lstat s with
        | error e => rw [hg] at hd1; cases hd1
        | ok s2 =>
          rw [hg] at hd1
          simp only at hd1
          have hidx : (if (apply_filter s2).idx ≥ (apply_filter s2).filtered.length
              ∧ (apply_filter s2).filtered.length > 0 then (apply_filter s2).filtered.length - 1
              else (apply_filter s2).idx) = 0 := by
            have : (apply_filter s2).idx = 0 := rfl
            rw [this]
            split
            · omega
            · rfl
          rw [hidx] at hd1
          simp only [Except.ok.injEq] at hd1
          subst hd1
          exact (set_page_cursor_nav (s := { apply_filter s2 with idx := 0 })
            (fun hN => hN) (fun _ => rfl)).1
      · rw [if_neg hy] at hd1
        simp only [Except.ok.injEq] at hd1
        subst hd1; exact h

theorem enter_directory_nav_inv {env : Env} {s s1 : State} (h : nav_inv s)
    (hd : enter_directory env s = .ok s1) : nav_inv s1 := by
  unfold enter_directory at hd
  split at hd
  · simp only [Except.ok.injEq] at hd; subst hd; exact h
  · split at hd
    · simp only [Except.ok.injEq] at hd; subst hd; exact h
    · split at hd
      · simp only [Except.ok.injEq] at hd; subst hd; exact h
      · simp only at hd
        split at hd
        · cases hd
        · rename_i s2 hg
          simp only [Except.ok.injEq] at hd
          subst hd
          exact (nav_at_origin (s := { s2 with idx := 0, cursor := 0, page := 0 })
            rfl rfl rfl).1

theorem go_to_parent_nav_inv {env : Env} {s s1 : State} (h : nav_inv s)
    (hd : go_to_parent env s = .ok s1) : nav_inv s1 := by
  unfold go_to_parent at hd
  split at hd
  · simp only [Except.ok.injEq] at hd; subst hd; exact h
  · split at hd
    · cases hd
    · rename_i s2 hg
      simp only [Except.ok.injEq] at hd
      subst hd
      rcases pop_cursor_frame s2 with ⟨_, p2, _⟩
      have hidx := pop_cursor_idx s2
      exact (set_page_cursor_nav (s := pop_cursor s2)
        (by rw [p2]; exact hidx.1) (by rw [p2]; exact hidx.2)).1

/-- While the search box has focus a printable byte takes the `default:` case of
the switch: it is inserted and the filter runs. -/
theorem search_key_printable (ch : Nat) (s : State) (input : List Nat)
    (h : 32 ≤ ch ∧ ch < 127) : search_key ch s input = .running (type_char ch s) input := by
  unfold search_key
  rw [if_neg (by omega), if_neg (by omega), if_neg (by omega), if_neg (by omega),
    if_neg (by omega), if_neg (by omega)]

/-! ## Lemmas on the input decoder -/

theorem decode_first_unknown (b : Nat) (rest : List Nat) (h1 : b ≠ 27) (h2 : b ≠ 91)
    (h3 : b ≠ 79) : read_escape_sequence (b :: rest) = (.ESC_NONE, rest) := by
  simp [read_escape_sequence, getchar, h1, h2, h3]

theorem decode_code_unknown (p b : Nat) (hp : p = 91 ∨ p = 79) (rest : List Nat)
    (hb : b ≠ 65 ∧ b ≠ 66 ∧ b ≠ 67 ∧ b ≠ 68 ∧ b ≠ 72 ∧ b ≠ 70 ∧ b ≠ 49 ∧ b ≠ 51 ∧ b ≠ 52
      ∧ b ≠ 53 ∧ b ≠ 54) :
    read_escape_sequence (p :: b :: rest) = (.ESC_NONE, rest) := by
  obtain ⟨h1, h2, h3, h4, h5, h6, h7, h8, h9, h10, h11⟩ := hb
  rcases hp with rfl | rfl <;>
    simp [read_escape_sequence, getchar, h1, h2, h3, h4, h5, h6, h7, h8, h9, h10, h11]

theorem decode_1_unknown (p b : Nat) (hp : p = 91 ∨ p = 79) (rest : List Nat)
    (h1 : b ≠ 126) (h2 : b ≠ 59) :
    read_escape_sequence (p :: 49 :: b :: rest) = (.ESC_NONE, rest) := by
  rcases hp with rfl | rfl <;> simp [read_escape_sequence, getchar, h1, h2]

theorem decode_3_unknown (p b : Nat) (hp : p = 91 ∨ p = 79) (rest : List Nat)
    (h1 : b ≠ 126) (h2 : b ≠ 59) :
    read_escape_sequence (p :: 51 :: b :: rest) = (.ESC_NONE, rest) := by
  rcases hp with rfl | rfl <;> simp [read_escape_sequence, getchar, h1, h2]

theorem decode_1_dir_unknown (p m b : Nat) (hp : p = 91 ∨ p = 79) (rest : List Nat)
    (h1 : b ≠ 67) (h2 : b ≠ 68) :
    read_escape_sequence (p :: 49 :: 59 :: m :: b :: rest) = (.ESC_NONE, rest) := by
  rcases hp with rfl | rfl <;> simp [read_escape_sequence, getchar, h1, h2]

theorem decode_unchecked (p m b : Nat) (hp : p = 91 ∨ p = 79) (rest : List Nat) :
    read_escape_sequence (p :: 52 :: b :: rest) = (.ESC_END, rest)
      ∧ read_escape_sequence (p :: 53 :: b :: rest) = (.ESC_PAGE_UP, rest)
      ∧ read_escape_sequence (p :: 54 :: b :: rest) = (.ESC_PAGE_DOWN, rest)
      ∧ read_escape_sequence (p :: 51 :: 59 :: m :: b :: rest) = (.ESC_CTRL_DELETE, rest)
      ∧ read_escape_sequence (p :: 49 :: 59 :: m :: 67 :: rest) = (.ESC_CTRL_RIGHT, rest)
      ∧ read_escape_sequence (p :: 49 :: 59 :: m :: 68 :: rest) = (.ESC_CTRL_LEFT, rest) := by
  rcases hp with rfl | rfl <;> exact ⟨rfl, rfl, rfl, rfl, rfl, rfl⟩

theorem truncated_none (input : List Nat) (h : truncated input = true) :
    read_escape_sequence input = (.ESC_NONE, []) := by
  rcases input with _ | ⟨a, _ | ⟨b, _ | ⟨c, _ | ⟨d, _ | ⟨e, t⟩⟩⟩⟩⟩
  · rfl
  · simp only [truncated, Bool.or_eq_true, beq_iff_eq] at h
    rcases h with rfl | rfl <;> rfl
  · simp only [truncated, Bool.and_eq_true, Bool.or_eq_true, beq_iff_eq] at h
    rcases h with ⟨rfl | rfl, (((rfl | rfl) | rfl) | rfl) | rfl⟩ <;> rfl
  · simp only [truncated, Bool.and_eq_true, Bool.or_eq_true, beq_iff_eq] at h
    rcases h with ⟨⟨rfl | rfl, rfl | rfl⟩, rfl⟩ <;> rfl
  · simp only [truncated, Bool.and_eq_true, Bool.or_eq_true, beq_iff_eq] at h
    rcases h with ⟨⟨rfl | rfl, rfl | rfl⟩, rfl⟩ <;> rfl
  · simp [truncated] at h


theorem not_truncated_append (input extra : List Nat) (h : truncated input = false) :
    read_escape_sequence (input ++ extra)
      = ((read_escape_sequence input).1, (read_escape_sequence input).2 ++ extra) := by
  rcases input with _ | ⟨a, t⟩
  · simp [truncated] at h
  by_cases ha27 : a = 27
  · subst ha27; rfl
  by_cases hp : a = 91 ∨ a = 79
  swap
  · have h1 : a ≠ 91 := fun e => hp (Or.inl e)
    have h2 : a ≠ 79 := fun e => hp (Or.inr e)
    rw [List.cons_append, decode_first_unknown a _ ha27 h1 h2,
      decode_first_unknown a _ ha27 h1 h2]
  rcases t with _ | ⟨b, t⟩
  · rcases hp with rfl | rfl <;> simp [truncated] at h
  by_cases hb : b ≠ 65 ∧ b ≠ 66 ∧ b ≠ 67 ∧ b ≠ 68 ∧ b ≠ 72 ∧ b ≠ 70 ∧ b ≠ 49 ∧ b ≠ 51 ∧ b ≠ 52
      ∧ b ≠ 53 ∧ b ≠ 54
  · rw [List.cons_append, List.cons_append, decode_code_unknown a b hp _ hb,
      decode_code_unknown a b hp _ hb]
  have hb2 : b = 65 ∨ b = 66 ∨ b = 67 ∨ b = 68 ∨ b = 72 ∨ b = 70 ∨ b = 49 ∨ b = 51 ∨ b = 52
      ∨ b = 53 ∨ b = 54 := by omega
  rcases hb2 with rfl | rfl | rfl | rfl | rfl | rfl | rfl | rfl | rfl | rfl | rfl
  · rcases hp with rfl | rfl <;> rfl
  · rcases hp with rfl | rfl <;> rfl
  · rcases hp with rfl | rfl <;> rfl
  · rcases hp with rfl | rfl <;> rfl
  · rcases hp with rfl | rfl <;> rfl
  · rcases hp with rfl | rfl <;> rfl
  · -- after `1`
    rcases t with _ | ⟨c, t⟩
    · rcases hp with rfl | rfl <;> simp [truncated] at h
    by_cases hc1 : c = 126
    · subst hc1; rcases hp with rfl | rfl <;> rfl
    by_cases hc2 : c = 59
    swap
    · rw [List.cons_append, List.cons_append, List.cons_append,
        decode_1_unknown a c hp _ hc1 hc2, decode_1_unknown a c hp _ hc1 hc2]
    subst hc2
    rcases t with _ | ⟨m, t⟩
    · rcases hp with rfl | rfl <;> simp [truncated] at h
    rcases t with _ | ⟨d, t⟩
    · rcases hp with rfl | rfl <;> simp [truncated] at h
    by_cases hd1 : d = 67
    · subst hd1; rcases hp with rfl | rfl <;> rfl
    by_cases hd2 : d = 68
    · subst hd2; rcases hp with rfl | rfl <;> rfl
    simp only [List.cons_append]
    rw [decode_1_dir_unknown a m d hp _ hd1 hd2, decode_1_dir_unknown a m d hp _ hd1 hd2]
  · -- after `3`
    rcases t with _ | ⟨c, t⟩
    · rcases hp with rfl | rfl <;> simp [truncated] at h
    by_cases hc1 : c = 126
    · subst hc1; rcases hp with rfl | rfl <;> rfl
    by_cases hc2 : c = 59
    swap
    · rw [List.cons_append, List.cons_append, List.cons_append,
        decode_3_unknown a c hp _ hc1 hc2, decode_3_unknown a c hp _ hc1 hc2]
    subst hc2
    rcases t with _ | ⟨m, t⟩
    · rcases hp with rfl | rfl <;> simp [truncated] at h
    rcases t with _ | ⟨d, t⟩
    · rcases hp with rfl | rfl <;> simp [truncated] at h
    rcases hp with rfl | rfl <;> rfl
  all_goals
    rcases t with _ | ⟨c, t⟩
    · rcases hp with rfl | rfl <;> simp [truncated] at h
    rcases hp with rfl | rfl <;> rfl

/-! ## Lemmas on clearing the search -/

theorem cmp_bytes_swap (a : List Nat) : ∀ b, cmp_bytes b a = - cmp_bytes a b := by
  induction a with
  | nil =>
    intro b
    cases b with
    | nil => simp [cmp_bytes]
    | cons y ys => simp [cmp_bytes]
  | cons x xs ih =>
    intro b
    cases b with
    | nil => simp [cmp_bytes]
    | cons y ys =>
      simp only [cmp_bytes]
      by_cases h : x = y
      · subst h; simpa using ih ys
      · have h2 : ¬ y = x := fun e => h e.symm
        simp only [h, h2, if_false]; omega

theorem cmp_bytes_self (a : List Nat) : cmp_bytes a a = 0 := by
  induction a with
  | nil => rfl
  | cons x xs ih => simp [cmp_bytes, ih]

theorem cmp_bytes_eq_zero (a : List Nat) : ∀ b, 0 ∉ a → 0 ∉ b → cmp_bytes a b = 0 → a = b := by
  induction a with
  | nil =>
    intro b _ hb h
    cases b with
    | nil => rfl
    | cons y ys =>
      have hy : y ≠ 0 := fun e => hb (by simp [e])
      simp only [cmp_bytes] at h; omega
  | cons x xs ih =>
    intro b ha hb h
    have hx : x ≠ 0 := fun e => ha (by simp [e])
    cases b with
    | nil => simp only [cmp_bytes] at h; omega
    | cons y ys =>
      simp only [cmp_bytes] at h
      by_cases hxy : x = y
      · subst hxy
        simp only [if_true] at h
        rw [ih ys (fun m => ha (List.mem_cons_of_mem _ m))
          (fun m => hb (List.mem_cons_of_mem _ m)) h]
      · simp only [hxy, if_false] at h; omega

theorem strcmp_swap (a b : List Nat) : strcmp b a = - strcmp a b := cmp_bytes_swap _ _

theorem strcmp_self (a : List Nat) : strcmp a a = 0 := cmp_bytes_self _

theorem strcmp_eq_zero {a b : List Nat} (ha : 0 ∉ a) (hb : 0 ∉ b) (h : strcmp a b = 0) :
    a = b := by
  unfold strcmp at h
  rw [cstr_of_not_mem ha, cstr_of_not_mem hb] at h
  exact cmp_bytes_eq_zero a b ha hb h

/-- The loop of `bsearch` finds position `j` when the comparator is positive
before `j`, zero at `j` and negative after it. -/
theorem bsearch_loop_finds (cmp : Nat → Int) (j n : Nat) (hlt : ∀ i, i < j → 0 < cmp i)
    (hgt : ∀ i, j < i → i < n → cmp i < 0) (heq : cmp j = 0) (fuel : Nat) :
    ∀ l u, l ≤ j → j < u → u ≤ n → u - l < fuel → bsearch_loop cmp fuel l u = some j := by
  induction fuel with
  | zero => intro l u _ _ _ h; omega
  | succ k ih =>
    intro l u h1 h2 h3 h4
    unfold bsearch_loop
    rw [if_pos (by omega)]
    simp only
    rcases Nat.lt_trichotomy ((l + u) / 2) j with hm | hm | hm
    · have hc := hlt _ hm
      rw [if_neg (by omega), if_pos (by omega)]
      exact ih _ _ (by omega) h2 h3 (by omega)
    · rw [hm, heq]
      simp
    · have hc := hgt _ hm (by omega)
      rw [if_pos hc]
      exact ih _ _ h1 hm (by omega) (by omega)

theorem bsearch_finds (cmp : Nat → Int) (j n : Nat) (hj : j < n) (hlt : ∀ i, i < j → 0 < cmp i)
    (hgt : ∀ i, j < i → i < n → cmp i < 0) (heq : cmp j = 0) : bsearch cmp n = some j :=
  bsearch_loop_finds cmp j n hlt hgt heq (n + 1) 0 n (Nat.zero_le _) hj (Nat.le_refl _)
    (by omega)


theorem catalog_strict {files : List file} (hcat : catalog_ok files)
    (hsorted : List.Sorted (fun a b => strcmp a b ≤ 0) (files.map (fun f => f.name)))
    (hnodup : (files.map (fun f => f.name)).Nodup) {i k : Nat} (hik : i < k)
    (hk : k < files.length) :
    strcmp (files.getD i default).name (files.getD k default).name < 0 := by
  have hi : i < files.length := by omega
  have hp := (List.Pairwise.and hsorted hnodup)
  rw [List.pairwise_iff_getElem] at hp
  have := hp i k (by simpa using hi) (by simpa using hk) hik
  simp only [List.getElem_map] at this
  rw [List.getD_eq_getElem _ _ hi, List.getD_eq_getElem _ _ hk]
  rcases this with ⟨h1, h2⟩
  have h0i := (hcat.2 _ (List.getElem_mem hi)).1
  have h0k := (hcat.2 _ (List.getElem_mem hk)).1
  by_cases h : strcmp files[i].name files[k].name = 0
  · exact absurd (strcmp_eq_zero h0i h0k h) h2
  · omega

/-- Searching a sorted catalog with distinct names for the name of record `j`
finds position `j`. -/
theorem bsearch_catalog {files : List file} (hcat : catalog_ok files)
    (hsorted : List.Sorted (fun a b => strcmp a b ≤ 0) (files.map (fun f => f.name)))
    (hnodup : (files.map (fun f => f.name)).Nodup) {j : Nat} (hj : j < files.length)
    (cmp : Nat → Int)
    (hcmp : ∀ i, i < files.length →
      cmp i = strcmp (files.getD j default).name (files.getD i default).name) :
    bsearch cmp files.length = some j := by
  apply bsearch_finds cmp j files.length hj
  · intro i hi
    rw [hcmp i (by omega), strcmp_swap]
    have := catalog_strict hcat hsorted hnodup hi hj
    omega
  · intro i hi hn
    rw [hcmp i hn]
    exact catalog_strict hcat hsorted hnodup hi hn
  · rw [hcmp j hj]; exact strcmp_self _

theorem identity_view_getD {n i : Nat} (hn : n ≤ UINT32_MAX) (hi : i < n) :
    (identity_view n).getD i default = ⟨i, 0⟩ := by
  unfold identity_view
  rw [List.getD_eq_getElem _ _ (by simpa using hi)]
  simp only [List.getElem_map, List.getElem_range]
  have : i % 2 ^ 32 = i := Nat.mod_eq_of_lt (by unfold UINT32_MAX at hn; omega)
  rw [this]

theorem identity_view_eq {n : Nat} (hn : n ≤ UINT32_MAX) :
    identity_view n = (List.range n).map (fun i => (⟨i, 0⟩ : filtered_file)) := by
  unfold identity_view
  apply List.map_congr_left
  intro i hi
  have hi2 : i < n := List.mem_range.mp hi
  have : i % 2 ^ 32 = i := Nat.mod_eq_of_lt (by unfold UINT32_MAX at hn; omega)
  rw [this]

theorem clear_search_unfold (s : State) :
    clear_search s =
      if ((if s.filtered.length > 0 then
            (cstr (file_name (file_at s s.idx))).take (PATH_MAX - 1) else []).getD 0 0 ≠ 0) then
        match bsearch (compare_name_to_filtered (apply_filter (empty_query s))
            (if s.filtered.length > 0 then
              (cstr (file_name (file_at s s.idx))).take (PATH_MAX - 1) else []))
            (apply_filter (empty_query s)).filtered.length with
        | some found =>
          { apply_filter (empty_query s) with
            idx := found
            page := found / (apply_filter (empty_query s)).page_size
            cursor := found % (apply_filter (empty_query s)).page_size }
        | none => apply_filter (empty_query s)
      else apply_filter (empty_query s) := rfl

/-- What `clear_search` does when an entry of a sorted catalog with distinct
names is selected. -/
theorem clear_search_eq {s : State} (hcat : catalog_ok s.files)
    (hsorted : List.Sorted (fun a b => strcmp a b ≤ 0) (s.files.map (fun f => f.name)))
    (hnodup : (s.files.map (fun f => f.name)).Nodup)
    (hname : ∀ f ∈ s.files, f.name ≠ [] ∧ f.name.length < PATH_MAX)
    (hsel : (s.filtered.getD s.idx default).idx < s.files.length)
    (hidx : s.idx < s.filtered.length) :
    clear_search s =
      { apply_filter (empty_query s) with
        idx := (s.filtered.getD s.idx default).idx
        page := (s.filtered.getD s.idx default).idx / s.page_size
        cursor := (s.filtered.getD s.idx default).idx % s.page_size } := by
  have hmem := getD_mem s.files default hsel
  have h0 := (hcat.2 _ hmem).1
  have hn := hname _ hmem
  have hselname : (cstr (file_name (file_at s s.idx))).take (PATH_MAX - 1)
      = (s.files.getD (s.filtered.getD s.idx default).idx default).name := by
    unfold file_at file_name
    rw [cstr_of_not_mem h0]
    exact List.take_of_length_le (by have := hn.2; omega)
  have hview : (apply_filter (empty_query s)).filtered = identity_view s.files.length :=
    apply_filter_filtered_empty rfl
  have hpos : s.filtered.length > 0 := by omega
  rw [clear_search_unfold]
  simp only [hpos, if_true]
  rw [hselname]
  have hfirst : (s.files.getD (s.filtered.getD s.idx default).idx default).name.getD 0 0 ≠ 0 := by
    cases hq : (s.files.getD (s.filtered.getD s.idx default).idx default).name with
    | nil => exact absurd hq hn.1
    | cons a t =>
      have : a ≠ 0 := fun e => h0 (by rw [hq, e]; exact List.mem_cons_self _ _)
      simpa using this
  rw [if_pos hfirst]
  have hb : bsearch (compare_name_to_filtered (apply_filter (empty_query s))
      (s.files.getD (s.filtered.getD s.idx default).idx default).name)
      (apply_filter (empty_query s)).filtered.length
      = some (s.filtered.getD s.idx default).idx := by
    rw [hview, identity_view_length]
    apply bsearch_catalog hcat hsorted hnodup hsel
    intro i hi
    unfold compare_name_to_filtered file_at file_name
    rw [hview, identity_view_getD hcat.1 hi]
    rfl
  rw [hb]
  rfl

/-! ## Lemmas on the query buffer -/

theorem memmove_delete (q rest : List Nat) (a b : Nat) (hab : a ≤ b) (hb : b ≤ q.length) :
    memmove (q ++ 0 :: rest) a b (q.length - b + 1)
      = (q.take a ++ q.drop b) ++ 0 :: (q ++ 0 :: rest).drop (a + (q.length - b + 1)) := by
  unfold memmove
  have e1 : (q ++ 0 :: rest).take a = q.take a := by
    rw [List.take_append_of_le_length (by omega)]
  have e2 : ((q ++ 0 :: rest).drop b).take (q.length - b + 1) = q.drop b ++ [0] := by
    rw [List.drop_append_of_le_length hb, List.take_append_eq_append_take]
    simp
  rw [e1, e2]
  simp

theorem memmove_delete_length (q rest : List Nat) (a b : Nat) (hab : a ≤ b)
    (hb : b ≤ q.length) :
    (memmove (q ++ 0 :: rest) a b (q.length - b + 1)).length = (q ++ 0 :: rest).length := by
  rw [memmove_delete q rest a b hab hb]
  simp only [List.length_append, List.length_cons, List.length_take, List.length_drop]
  omega

theorem memmove_insert (q rest : List Nat) (c ch : Nat) (hc : c ≤ q.length) :
    (memmove (q ++ 0 :: rest) (c + 1) c (q.length - c + 1)).set c ch
      = (q.take c ++ ch :: q.drop c) ++ 0 :: rest.drop 1 := by
  unfold memmove
  have e1 : (q ++ 0 :: rest).take (c + 1) = q.take c ++ [(q ++ 0 :: rest).getD c 0] := by
    have hlt : c < (q ++ 0 :: rest).length := by simp; omega
    rw [List.take_succ, List.take_append_of_le_length hc, List.getD_eq_getElem _ _ hlt,
      List.getElem?_eq_getElem hlt]
    rfl
  have e2 : ((q ++ 0 :: rest).drop c).take (q.length - c + 1) = q.drop c ++ [0] := by
    rw [List.drop_append_of_le_length hc, List.take_append_eq_append_take]
    simp
  have e3 : (q ++ 0 :: rest).drop (c + 1 + (q.length - c + 1)) = rest.drop 1 := by
    have : c + 1 + (q.length - c + 1) = q.length + 2 := by omega
    rw [this, List.drop_append_eq_append_drop, List.drop_of_length_le (by omega)]
    have h4 : q.length + 2 - q.length = 2 := by omega
    rw [h4]
    simp
  rw [e1, e2, e3]
  have hl : (q.take c).length = c := by simp; omega
  rw [List.append_assoc (q.take c), List.set_append_right _ _ (by omega), hl, Nat.sub_self]
  simp


theorem word_back_le (buf : List Nat) (word : Bool) (c : Nat) : word_back buf word c ≤ c := by
  induction c with
  | zero => simp [word_back]
  | succ n ih =>
    unfold word_back
    split
    · omega
    · omega

theorem word_forward_bounds (buf : List Nat) (word : Bool) (len fuel : Nat) :
    ∀ c, c ≤ word_forward buf word len fuel c
      ∧ (c ≤ len → word_forward buf word len fuel c ≤ len) := by
  induction fuel with
  | zero => intro c; simp [word_forward]
  | succ n ih =>
    intro c
    unfold word_forward
    split
    · rename_i h
      have := ih (c + 1)
      exact ⟨by omega, fun _ => this.2 (by omega)⟩
    · exact ⟨Nat.le_refl _, fun h => h⟩

/-- Removing the bytes `a..b` of the query with `memmove` keeps the buffer well
formed. -/
theorem delete_range_state {s s1 : State} {q : List Nat} (h : query_state s q) (a b : Nat)
    (hab : a ≤ b) (hb : b ≤ q.length)
    (hbuf : s1.search_query = memmove s.search_query a b (s.search_len - b + 1))
    (hlen : s1.search_len = s.search_len - (b - a)) (hcur : s1.search_cursor = a) :
    query_state s1 (q.take a ++ q.drop b) := by
  rcases h with ⟨⟨h1, rest, h2⟩, h3, _, h5⟩
  have hl : (q.take a ++ q.drop b).length = q.length - (b - a) := by
    simp only [List.length_append, List.length_take, List.length_drop]; omega
  refine ⟨⟨by rw [hlen, h1, hl], (q ++ 0 :: rest).drop (a + (q.length - b + 1)), ?_⟩, ?_,
    by rw [hcur, hl]; omega, by rw [hl]; omega⟩
  · rw [hbuf, h2, h1]; exact memmove_delete q rest a b hab hb
  · rw [hbuf, h2, h1, memmove_delete_length q rest a b hab hb, ← h2]; exact h3

theorem search_delete_char_back_state {s : State} {q : List Nat} (h : query_state s q)
    (hc : 0 < s.search_cursor) :
    query_state (search_delete_char_back s)
      (q.take (s.search_cursor - 1) ++ q.drop s.search_cursor) := by
  have hcur := h.2.2.1
  have hlen := h.1.1
  unfold search_delete_char_back
  rw [if_pos hc]
  exact delete_range_state h (s.search_cursor - 1) s.search_cursor (by omega) hcur rfl
    (by show s.search_len - 1 = _; omega) rfl

theorem search_delete_char_forward_state {s : State} {q : List Nat} (h : query_state s q)
    (hc : s.search_cursor < s.search_len) :
    query_state (search_delete_char_forward s)
      (q.take s.search_cursor ++ q.drop (s.search_cursor + 1)) := by
  have hlen := h.1.1
  unfold search_delete_char_forward
  rw [if_pos hc]
  refine delete_range_state h s.search_cursor (s.search_cursor + 1) (by omega) (by omega) ?_
    (by show s.search_len - 1 = _; omega) rfl
  show memmove _ _ _ (s.search_len - s.search_cursor) = _
  have : s.search_len - s.search_cursor = s.search_len - (s.search_cursor + 1) + 1 := by omega
  rw [this]

theorem search_delete_word_back_state {s : State} {q : List Nat} (h : query_state s q)
    (hc : 0 < s.search_cursor) :
    query_state (search_delete_word_back s)
      (q.take (word_back s.search_query
          (is_word_char (s.search_query.getD (s.search_cursor - 1) 0)) s.search_cursor)
        ++ q.drop s.search_cursor) := by
  have hcur := h.2.2.1
  unfold search_delete_word_back
  rw [if_pos hc]
  exact delete_range_state h _ s.search_cursor (word_back_le _ _ _) hcur rfl rfl rfl

theorem search_delete_word_forward_state {s : State} {q : List Nat} (h : query_state s q)
    (hc : s.search_cursor < s.search_len) :
    query_state (search_delete_word_forward s)
      (q.take s.search_cursor
        ++ q.drop (word_forward s.search_query
            (is_word_char (s.search_query.getD s.search_cursor 0)) s.search_len
            (s.search_len - s.search_cursor) s.search_cursor)) := by
  have hlen := h.1.1
  have hb := word_forward_bounds s.search_query
    (is_word_char (s.search_query.getD s.search_cursor 0)) s.search_len
    (s.search_len - s.search_cursor) s.search_cursor
  unfold search_delete_word_forward
  rw [if_pos hc]
  exact delete_range_state h s.search_cursor _ hb.1 (by rw [← hlen]; exact hb.2 (by omega))
    rfl rfl rfl

theorem search_delete_to_start_state {s : State} {q : List Nat} (h : query_state s q)
    (hc : 0 < s.search_cursor) :
    query_state (search_delete_to_start s) (q.drop s.search_cursor) := by
  have hcur := h.2.2.1
  unfold search_delete_to_start
  rw [if_pos hc]
  show query_state _ (q.take 0 ++ q.drop s.search_cursor)
  exact delete_range_state h 0 s.search_cursor (by omega) hcur rfl rfl rfl

theorem search_insert_char_state {s : State} {q : List Nat} {ch : Nat} (h : query_state s q)
    (hch : 32 ≤ ch ∧ ch < 127) (hlt : q.length < 255) :
    query_state (search_insert_char ch s)
        (q.take s.search_cursor ++ ch :: q.drop s.search_cursor)
      ∧ (search_insert_char ch s).search_cursor = s.search_cursor + 1 := by
  rcases h with ⟨⟨h1, rest, h2⟩, h3, h4, h5⟩
  have hg : 32 ≤ ch ∧ ch < 127 ∧ s.search_len < 255 := ⟨hch.1, hch.2, by omega⟩
  rw [search_insert_char, if_pos hg]
  have hl : (q.take s.search_cursor ++ ch :: q.drop s.search_cursor).length = q.length + 1 := by
    simp only [List.length_append, List.length_take, List.length_cons, List.length_drop]; omega
  have hbuf : (memmove s.search_query (s.search_cursor + 1) s.search_cursor
      (s.search_len - s.search_cursor + 1)).set s.search_cursor ch
      = (q.take s.search_cursor ++ ch :: q.drop s.search_cursor) ++ 0 :: rest.drop 1 := by
    rw [h2, h1]; exact memmove_insert q rest s.search_cursor ch h4
  refine ⟨⟨⟨by show s.search_len + 1 = _; rw [hl, h1], rest.drop 1, hbuf⟩, ?_, ?_, ?_⟩, rfl⟩
  · show ((memmove s.search_query (s.search_cursor + 1) s.search_cursor
      (s.search_len - s.search_cursor + 1)).set s.search_cursor ch).length = 256
    rw [hbuf]
    rw [h2] at h3
    simp only [List.length_append, List.length_cons, List.length_take, List.length_drop] at h3 ⊢
    omega
  · show s.search_cursor + 1 ≤ _
    rw [hl]; omega
  · rw [hl]; omega

theorem search_insert_char_refused {s : State} {ch : Nat}
    (h : ¬ (32 ≤ ch ∧ ch < 127) ∨ 255 ≤ s.search_len) : search_insert_char ch s = s := by
  rw [search_insert_char, if_neg (by omega)]

theorem empty_query_state {s : State} (h : s.search_query.length = 256) :
    query_state (empty_query s) [] := by
  refine ⟨⟨rfl, s.search_query.drop 1, ?_⟩, by simpa [empty_query] using h, Nat.le_refl _,
    by simp⟩
  show s.search_query.set 0 0 = _
  cases hq : s.search_query with
  | nil => rw [hq] at h; simp at h
  | cons a t => simp

theorem cstr_set_zero (l : List Nat) : cstr (l.set 0 0) = [] := by
  cases l with
  | nil => rfl
  | cons a t => simp [cstr]

theorem query_inv_iff (s : State) : query_inv s ↔ ∃ q, query_state s q := by
  constructor
  · rintro ⟨h1, h2, h3, h4⟩
    refine ⟨s.search_query.take s.search_len, ⟨?_, s.search_query.drop (s.search_len + 1), ?_⟩,
      h3, ?_, ?_⟩
    · rw [List.length_take]; omega
    · have hlt : s.search_len < s.search_query.length := by omega
      rw [List.getD_eq_getElem _ _ hlt] at h4
      rw [← h4, ← List.drop_eq_getElem_cons hlt, List.take_append_drop]
    · rw [List.length_take]; omega
    · rw [List.length_take]; omega
  · rintro ⟨q, ⟨h1, rest, h2⟩, h3, h4, h5⟩
    refine ⟨by omega, by omega, h3, ?_⟩
    rw [h2, h1, List.getD_append_right _ _ _ _ (Nat.le_refl _), Nat.sub_self]
    rfl

theorem query_step_inv {s s1 : State} (h : query_step s s1) (hi : query_inv s) : query_inv s1 := by
  obtain ⟨q, hq⟩ := (query_inv_iff s).mp hi
  obtain ⟨q1, hq1, -⟩ := h q hq
  exact (query_inv_iff s1).mpr ⟨q1, hq1⟩

theorem query_step_printable {s s1 : State} (h : query_step s s1) (hp : printable_query s) :
    printable_query s1 := by
  obtain ⟨q, hq, hb⟩ := hp
  obtain ⟨q1, hq1, hb1⟩ := h q hq
  refine ⟨q1, hq1, fun b hm => ?_⟩
  rcases hb1 b hm with h | h
  · exact hb b h
  · exact h

theorem query_step_refl (s : State) : query_step s s := fun q hq => ⟨q, hq, fun _ h => Or.inl h⟩

theorem query_step_trans {s s1 s2 : State} (h1 : query_step s s1) (h2 : query_step s1 s2) :
    query_step s s2 := by
  intro q hq
  obtain ⟨q1, hq1, hb1⟩ := h1 q hq
  obtain ⟨q2, hq2, hb2⟩ := h2 q1 hq1
  refine ⟨q2, hq2, fun b hm => ?_⟩
  rcases hb2 b hm with h | h
  · exact hb1 b h
  · exact Or.inr h

theorem query_step_same {s s1 : State} (h : same_query s1 s) : query_step s s1 := by
  rintro q ⟨⟨h1, rest, h2⟩, h3, h4, h5⟩
  rcases h with ⟨e1, e2, e3⟩
  exact ⟨q, ⟨⟨by rw [e2, h1], rest, by rw [e1, h2]⟩, by rw [e1, h3], by rw [e3]; exact h4, h5⟩,
    fun _ h => Or.inl h⟩

theorem mem_take_append_drop {q : List Nat} {a b x : Nat} (h : x ∈ q.take a ++ q.drop b) :
    x ∈ q := by
  rcases List.mem_append.mp h with h | h
  · exact List.mem_of_mem_take h
  · exact List.mem_of_mem_drop h

theorem search_delete_char_back_step (s : State) : query_step s (search_delete_char_back s) := by
  by_cases hc : 0 < s.search_cursor
  · exact fun q hq => ⟨_, search_delete_char_back_state hq hc, fun _ h =>
      Or.inl (mem_take_append_drop h)⟩
  · rw [search_delete_char_back, if_neg hc]; exact query_step_refl s

theorem search_delete_char_forward_step (s : State) :
    query_step s (search_delete_char_forward s) := by
  by_cases hc : s.search_cursor < s.search_len
  · exact fun q hq => ⟨_, search_delete_char_forward_state hq hc, fun _ h =>
      Or.inl (mem_take_append_drop h)⟩
  · rw [search_delete_char_forward, if_neg hc]; exact query_step_refl s

theorem search_delete_word_back_step (s : State) : query_step s (search_delete_word_back s) := by
  by_cases hc : 0 < s.search_cursor
  · exact fun q hq => ⟨_, search_delete_word_back_state hq hc, fun _ h =>
      Or.inl (mem_take_append_drop h)⟩
  · rw [search_delete_word_back, if_neg hc]; exact query_step_refl s

theorem search_delete_word_forward_step (s : State) :
    query_step s (search_delete_word_forward s) := by
  by_cases hc : s.search_cursor < s.search_len
  · exact fun q hq => ⟨_, search_delete_word_forward_state hq hc, fun _ h =>
      Or.inl (mem_take_append_drop h)⟩
  · rw [search_delete_word_forward, if_neg hc]; exact query_step_refl s

theorem search_delete_to_start_step (s : State) : query_step s (search_delete_to_start s) := by
  by_cases hc : 0 < s.search_cursor
  · exact fun q hq => ⟨_, search_delete_to_start_state hq hc, fun _ h =>
      Or.inl (List.mem_of_mem_drop h)⟩
  · rw [search_delete_to_start, if_neg hc]; exact query_step_refl s

theorem search_insert_char_step (ch : Nat) (s : State) :
    query_step s (search_insert_char ch s) := by
  by_cases hg : 32 ≤ ch ∧ ch < 127 ∧ s.search_len < 255
  · intro q hq
    have hlt : q.length < 255 := by rw [← hq.1.1]; exact hg.2.2
    refine ⟨_, (search_insert_char_state hq ⟨hg.1, hg.2.1⟩ hlt).1, fun b h => ?_⟩
    rcases List.mem_append.mp h with h | h
    · exact Or.inl (List.mem_of_mem_take h)
    · rcases List.mem_cons.mp h with h | h
      · rw [h]; exact Or.inr ⟨hg.1, hg.2.1⟩
      · exact Or.inl (List.mem_of_mem_drop h)
  · rw [search_insert_char, if_neg hg]; exact query_step_refl s

theorem query_step_cursor {s : State} (c : Nat) (h : c ≤ s.search_len) :
    query_step s { s with search_cursor := c } := by
  rintro q ⟨⟨h1, rest, h2⟩, h3, h4, h5⟩
  exact ⟨q, ⟨⟨h1, rest, h2⟩, h3, by show c ≤ q.length; omega, h5⟩, fun _ h => Or.inl h⟩

theorem search_move_word_back_step (s : State) : query_step s (search_move_word_back s) := by
  by_cases hc : 0 < s.search_cursor
  · rw [search_move_word_back, if_pos hc]
    intro q hq
    have hcur : s.search_cursor ≤ s.search_len := by rw [hq.1.1]; exact hq.2.2.1
    exact query_step_cursor _ (Nat.le_trans (word_back_le _ _ _) hcur) q hq
  · rw [search_move_word_back, if_neg hc]; exact query_step_refl s

theorem search_move_word_forward_step (s : State) :
    query_step s (search_move_word_forward s) := by
  by_cases hc : s.search_cursor < s.search_len
  · rw [search_move_word_forward, if_pos hc]
    exact query_step_cursor _ ((word_forward_bounds _ _ _ _ _).2 (by omega))
  · rw [search_move_word_forward, if_neg hc]; exact query_step_refl s

theorem empty_query_step (s s1 : State) (h : same_query s1 (empty_query s)) :
    query_step s s1 := by
  intro q hq
  obtain ⟨q1, h1, h2⟩ := query_step_same h [] (empty_query_state hq.2.1)
  refine ⟨q1, h1, fun b hb => ?_⟩
  rcases h2 b hb with h | h
  · cases h
  · exact Or.inr h

theorem clear_search_same (s : State) : same_query (clear_search s) (empty_query s) := by
  unfold clear_search
  simp only
  generalize (if s.filtered.length > 0 then
    (cstr (file_name (file_at s s.idx))).take (PATH_MAX - 1) else []) = sel
  by_cases hsel : sel.getD 0 0 ≠ 0
  · rw [if_pos hsel]
    split <;> exact ⟨rfl, rfl, rfl⟩
  · rw [if_neg hsel]
    exact ⟨rfl, rfl, rfl⟩

theorem clear_search_step (s : State) : query_step s (clear_search s) :=
  empty_query_step s _ (clear_search_same s)

theorem search_escape_step (key : esc_key) (s : State) : query_step s (search_escape key s) := by
  cases key <;> unfold search_escape <;> simp only
  case ESC_DOUBLE => exact clear_search_step s
  case ESC_LEFT =>
    intro q hq
    have hcur : s.search_cursor ≤ s.search_len := by rw [hq.1.1]; exact hq.2.2.1
    split
    · exact query_step_cursor _ (by omega) q hq
    · exact query_step_refl s q hq
  case ESC_RIGHT =>
    split
    · exact query_step_cursor _ (by omega)
    · exact query_step_refl s
  case ESC_HOME => exact query_step_cursor 0 (Nat.zero_le _)
  case ESC_END => exact query_step_cursor _ (Nat.le_refl _)
  case ESC_DELETE =>
    exact query_step_trans (search_delete_char_forward_step s) (query_step_same ⟨rfl, rfl, rfl⟩)
  case ESC_CTRL_DELETE =>
    exact query_step_trans (search_delete_word_forward_step s) (query_step_same ⟨rfl, rfl, rfl⟩)
  case ESC_CTRL_LEFT => exact search_move_word_back_step s
  case ESC_CTRL_RIGHT => exact search_move_word_forward_step s
  all_goals exact query_step_refl s

theorem edit_apply_step (e : Edit) (s : State) : query_step s (e.apply s) := by
  cases e <;> unfold Edit.apply
  case insert_char ch => exact search_insert_char_step ch s
  case delete_char_back => exact search_delete_char_back_step s
  case delete_char_forward => exact search_delete_char_forward_step s
  case delete_word_back => exact search_delete_word_back_step s
  case delete_word_forward => exact search_delete_word_forward_step s
  case delete_to_start => exact search_delete_to_start_step s
  case move_word_back => exact search_move_word_back_step s
  case move_word_forward => exact search_move_word_forward_step s
  case clear => exact clear_search_step s
  all_goals exact search_escape_step _ s

theorem edits_step (es : List Edit) : ∀ s : State, query_step s (edits es s) := by
  induction es with
  | nil => exact query_step_refl
  | cons e t ih => exact fun s => query_step_trans (edit_apply_step e s) (ih (e.apply s))

/-! ## The query buffer through the event loop -/

theorem apply_filter_step {s s1 : State} (h : query_step s s1) : query_step s (apply_filter s1) :=
  query_step_trans h (query_step_same ⟨rfl, rfl, rfl⟩)

theorem moves_same_query (s : State) :
    same_query (move_to_previous s).2 s ∧ same_query (move_to_next s).2 s
      ∧ same_query (move_to_first s).2 s ∧ same_query (move_to_last s).2 s
      ∧ same_query (move_page_up s).2 s ∧ same_query (move_page_down s).2 s := by
  refine ⟨?_, ?_, ?_, ?_, ?_, ?_⟩
  · unfold move_to_previous; simp only; split_ifs <;> exact ⟨rfl, rfl, rfl⟩
  · unfold move_to_next; simp only; split_ifs <;> exact ⟨rfl, rfl, rfl⟩
  · unfold move_to_first; simp only; split_ifs <;> exact ⟨rfl, rfl, rfl⟩
  · unfold move_to_last; simp only; split_ifs <;> exact ⟨rfl, rfl, rfl⟩
  · unfold move_page_up; simp only; split_ifs <;> exact ⟨rfl, rfl, rfl⟩
  · unfold move_page_down; simp only; split_ifs <;> exact ⟨rfl, rfl, rfl⟩

theorem handle_resize_same_query (ioctl : Option (Nat × Nat)) (s : State) :
    same_query (handle_resize ioctl s) s := by
  unfold handle_resize
  simp only
  split <;> exact ⟨rfl, rfl, rfl⟩

theorem get_files_same_query {dir : Option (List dirent)} {lstat : List Nat → Option Nat}
    {s s1 : State} (h : get_files dir lstat s = .ok s1) : same_query s1 s := by
  unfold get_files at h
  cases dir with
  | none =>
    simp only [Except.ok.injEq] at h
    subst h
    exact ⟨rfl, rfl, rfl⟩
  | some entries =>
    simp only at h
    cases hr : read_entries lstat entries [] with
    | error e => rw [hr] at h; cases h
    | ok fs =>
      rw [hr] at h
      simp only [Except.ok.injEq] at h
      subst h
      exact ⟨rfl, rfl, rfl⟩

theorem set_page_cursor_same_query (s : State) : same_query (set_page_cursor s) s := by
  unfold set_page_cursor
  split <;> exact ⟨rfl, rfl, rfl⟩

theorem pop_cursor_same_query (s : State) : same_query (pop_cursor s) s := by
  unfold pop_cursor
  split <;> exact ⟨rfl, rfl, rfl⟩

theorem same_query_trans {s s1 s2 : State} (h1 : same_query s2 s1) (h2 : same_query s1 s) :
    same_query s2 s :=
  ⟨h1.1.trans h2.1, h1.2.1.trans h2.2.1, h1.2.2.trans h2.2.2⟩

theorem delete_answered_step {env : Env} {yes : Bool} {s s1 : State}
    (hd : delete_answered env yes s = .ok s1) : query_step s s1 := by
  unfold delete_answered at hd
  by_cases hy : yes = true ∧ remove_recursive_at env AT_FDCWD (file_name (file_at s s.idx)) = 0
  · rw [if_pos hy] at hd
    unfold delete_refresh at hd
    cases hg : get_files env.dir env.lstat s with
    | error e => rw [hg] at hd; cases hd
    | ok s2 =>
      rw [hg] at hd
      simp only [Except.ok.injEq] at hd
      subst hd
      have hq := get_files_same_query hg
      exact query_step_same (same_query_trans (set_page_cursor_same_query _)
        ⟨hq.1, hq.2.1, hq.2.2⟩)
  · rw [if_neg hy] at hd
    simp only [Except.ok.injEq] at hd
    subst hd
    exact query_step_refl s

theorem delete_selected_step {env : Env} {s s1 : State} {input rest : List Nat}
    (hd : delete_selected env s input = some (.ok s1, rest)) : query_step s s1 := by
  unfold delete_selected at hd
  by_cases hN : s.filtered.length = 0
  · rw [if_pos hN] at hd
    simp only [Option.some.injEq, Prod.mk.injEq, Except.ok.injEq] at hd
    rw [← hd.1]; exact query_step_refl s
  · rw [if_neg hN] at hd
    cases hr : read_confirm input with
    | none => rw [hr] at hd; cases hd
    | some p =>
      rcases p with ⟨yes, r⟩
      rw [hr] at hd
      simp only [Option.some.injEq, Prod.mk.injEq] at hd
      exact delete_answered_step hd.1

theorem enter_directory_step {env : Env} {s s1 : State} (hd : enter_directory env s = .ok s1) :
    query_step s s1 := by
  unfold enter_directory at hd
  split at hd
  · simp only [Except.ok.injEq] at hd; subst hd; exact query_step_refl s
  · split at hd
    · simp only [Except.ok.injEq] at hd; subst hd; exact query_step_refl s
    · split at hd
      · simp only [Except.ok.injEq] at hd; subst hd; exact query_step_refl s
      · simp only at hd
        split at hd
        · cases hd
        · rename_i s2 hg
          simp only [Except.ok.injEq] at hd
          subst hd
          have hq := get_files_same_query hg
          exact empty_query_step s _ ⟨hq.1, hq.2.1, hq.2.2⟩

theorem go_to_parent_step {env : Env} {s s1 : State} (hd : go_to_parent env s = .ok s1) :
    query_step s s1 := by
  unfold go_to_parent at hd
  split at hd
  · simp only [Except.ok.injEq] at hd; subst hd; exact query_step_refl s
  · split at hd
    · cases hd
    · rename_i s2 hg
      simp only [Except.ok.injEq] at hd
      subst hd
      exact query_step_trans (clear_search_step s)
        (query_step_same (same_query_trans (set_page_cursor_same_query _)
          (same_query_trans (pop_cursor_same_query _) (get_files_same_query hg))))

theorem search_key_step {ch : Nat} {s s1 : State} {input rest : List Nat}
    (hk : search_key ch s input = .running s1 rest) : query_step s s1 := by
  unfold search_key at hk
  split_ifs at hk
  all_goals simp only [Outcome.running.injEq] at hk
  all_goals obtain ⟨rfl, -⟩ := hk
  · exact apply_filter_step (search_delete_to_start_step s)
  · exact apply_filter_step (search_delete_word_back_step s)
  · exact search_escape_step _ s
  · exact query_step_same ⟨rfl, rfl, rfl⟩
  · exact query_step_same ⟨rfl, rfl, rfl⟩
  · exact apply_filter_step (search_delete_char_back_step s)
  · exact apply_filter_step (search_delete_word_back_step s)
  · exact apply_filter_step (search_insert_char_step ch s)

theorem browse_escape_step {env : Env} {key : esc_key} {s s1 : State}
    {input rest : List Nat} (hk : browse_escape env key s input = .running s1 rest) :
    query_step s s1 := by
  have hm := moves_same_query s
  cases key <;> unfold browse_escape at hk <;> simp only at hk
  case ESC_DELETE => exact delete_selected_step (outcome_of_delete_running hk)
  case ESC_RIGHT => exact enter_directory_step (outcome_of_running hk)
  case ESC_LEFT => exact go_to_parent_step (outcome_of_running hk)
  all_goals simp only [Outcome.running.injEq] at hk
  all_goals obtain ⟨rfl, -⟩ := hk
  case ESC_DOUBLE =>
    split
    · exact clear_search_step s
    · exact query_step_refl s
  case ESC_UP => exact query_step_same hm.1
  case ESC_DOWN => exact query_step_same hm.2.1
  case ESC_HOME => exact query_step_same hm.2.2.1
  case ESC_END => exact query_step_same hm.2.2.2.1
  case ESC_PAGE_UP => exact query_step_same hm.2.2.2.2.1
  case ESC_PAGE_DOWN => exact query_step_same hm.2.2.2.2.2
  all_goals exact query_step_refl s

theorem browse_key_step {env : Env} {ch : Nat} {s s1 : State} {input rest : List Nat}
    (hk : browse_key env ch s input = .running s1 rest) : query_step s s1 := by
  have hm := moves_same_query s
  unfold browse_key at hk
  by_cases h10 : ch = 10
  · rw [if_pos h10] at hk; cases hk
  rw [if_neg h10] at hk
  by_cases h27 : ch = 27
  · rw [if_pos h27] at hk
    exact browse_escape_step hk
  rw [if_neg h27] at hk
  by_cases h47 : ch = 47
  · rw [if_pos h47] at hk
    simp only [Outcome.running.injEq] at hk
    obtain ⟨rfl, -⟩ := hk
    exact query_step_same ⟨rfl, rfl, rfl⟩
  rw [if_neg h47] at hk
  by_cases h113 : ch = 113
  · rw [if_pos h113] at hk; cases hk
  rw [if_neg h113] at hk
  by_cases h103 : ch = 103
  · rw [if_pos h103] at hk
    simp only [Outcome.running.injEq] at hk
    obtain ⟨rfl, -⟩ := hk
    exact query_step_same hm.2.2.1
  rw [if_neg h103] at hk
  by_cases h71 : ch = 71
  · rw [if_pos h71] at hk
    simp only [Outcome.running.injEq] at hk
    obtain ⟨rfl, -⟩ := hk
    exact query_step_same hm.2.2.2.1
  rw [if_neg h71] at hk
  by_cases h117 : ch = 117
  · rw [if_pos h117] at hk
    simp only [Outcome.running.injEq] at hk
    obtain ⟨rfl, -⟩ := hk
    exact query_step_same hm.2.2.2.2.1
  rw [if_neg h117] at hk
  by_cases h100 : ch = 100
  · rw [if_pos h100] at hk
    simp only [Outcome.running.injEq] at hk
    obtain ⟨rfl, -⟩ := hk
    exact query_step_same hm.2.2.2.2.2
  rw [if_neg h100] at hk
  by_cases h68 : ch = 68
  · rw [if_pos h68] at hk
    exact delete_selected_step (outcome_of_delete_running hk)
  rw [if_neg h68] at hk
  simp only [ite_self, Outcome.running.injEq] at hk
  obtain ⟨rfl, -⟩ := hk
  exact query_step_refl s

theorem main_step_step {env : Env} {s s1 : State} {input rest : List Nat}
    (hk : main_step env s input = .running s1 rest) : query_step s s1 := by
  unfold main_step at hk
  by_cases hsig : env.terminate_signal ≠ 0
  · rw [if_pos hsig] at hk; cases hk
  · rw [if_neg hsig] at hk
    cases hg : getchar input with
    | mk c r =>
      rw [hg] at hk
      cases c with
      | none =>
        simp only at hk
        split at hk
        · simp only [Outcome.running.injEq] at hk
          rw [← hk.1]; exact query_step_refl s
        · cases hk
      | some ch =>
        simp only at hk
        have h1 : query_step s
            (if env.term_resized = true then handle_resize env.winsize s else s) := by
          split
          · exact query_step_same (handle_resize_same_query _ s)
          · exact query_step_refl s
        by_cases hopen :
            (if env.term_resized = true then handle_resize env.winsize s else s).search_open = true
        · rw [if_pos hopen] at hk
          exact query_step_trans h1 (search_key_step hk)
        · rw [if_neg hopen] at hk
          exact query_step_trans h1 (browse_key_step hk)

theorem same_initial_query_state {s1 : State} (hs : same_query s1 initial_state) :
    query_state s1 [] := by
  rcases hs with ⟨e1, e2, e3⟩
  refine ⟨⟨e2, List.replicate 255 0, e1.trans ?_⟩, ?_, ?_, Nat.zero_le _⟩
  · exact List.replicate_succ 0 255
  · rw [e1]; exact List.length_replicate _ _
  · rw [e3]; exact Nat.le_refl _

theorem startup_query {ioctl : Option (Nat × Nat)} {dir : Option (List dirent)}
    {lstat : List Nat → Option Nat} {start : Option (List Nat)} {s : State}
    (h : startup ioctl dir lstat start = .ok s) : query_state s [] := by
  unfold startup at h
  simp only at h
  split at h
  · cases h
  · rename_i s1 hg
    have hq := get_files_same_query hg
    have hs1 : same_query s1 initial_state := ⟨hq.1, hq.2.1, hq.2.2⟩
    split at h
    · simp only [Except.ok.injEq] at h; subst h; exact same_initial_query_state hs1
    · split at h
      · simp only [Except.ok.injEq] at h; subst h
        exact same_initial_query_state ⟨hs1.1, hs1.2.1, hs1.2.2⟩
      · simp only [Except.ok.injEq] at h; subst h; exact same_initial_query_state hs1

theorem reachable_printable_query {s : State} (h : Reachable s) : printable_query s := by
  induction h with
  | start ioctl dir lstat start s hs =>
    exact ⟨[], startup_query hs, fun b hb => by cases hb⟩
  | step env s input s1 rest _ hstep ih => exact query_step_printable (main_step_step hstep) ih

theorem printable_query_inv {s : State} (h : printable_query s) : query_inv s := by
  obtain ⟨q, hq, -⟩ := h
  exact (query_inv_iff s).mpr ⟨q, hq⟩

theorem demo_query_length (Q : List Nat) (h : Q.length ≤ 256) :
    (demo_query Q).search_query.length = 256 := by
  show (Q ++ List.replicate (256 - Q.length) 0).length = 256
  rw [List.length_append, List.length_replicate]; omega

theorem demo_query_state (Q : List Nat) (h : Q.length ≤ 255) (c : Nat) (hc : c ≤ Q.length) :
    query_state { demo_query Q with search_cursor := c } Q := by
  refine ⟨⟨rfl, List.replicate (255 - Q.length) 0, ?_⟩, demo_query_length Q (by omega), hc, h⟩
  show Q ++ List.replicate (256 - Q.length) 0 = Q ++ 0 :: List.replicate (255 - Q.length) 0
  have : 256 - Q.length = (255 - Q.length) + 1 := by omega
  rw [this, List.replicate_succ]

theorem handle_resize_search_open (ioctl : Option (Nat × Nat)) (s : State) :
    (handle_resize ioctl s).search_open = s.search_open := by
  unfold handle_resize
  simp only
  split <;> rfl

theorem main_step_printable (env : Env) (s : State) (input : List Nat) (b : Nat)
    (hsig : env.terminate_signal = 0) (hopen : s.search_open = true) (hb : 32 ≤ b ∧ b < 127) :
    main_step env s (b :: input)
      = .running (apply_filter (search_insert_char b
          (if env.term_resized = true then handle_resize env.winsize s else s))) input := by
  have ho : (if env.term_resized = true then handle_resize env.winsize s else s).search_open
      = true := by
    split
    · rw [handle_resize_search_open]; exact hopen
    · exact hopen
  unfold main_step
  rw [if_neg (by simp [hsig])]
  simp only [getchar]
  rw [if_pos ho]
  exact search_key_printable b _ input hb

/-! ## Lemmas on the cursor history -/

theorem clear_search_stack (s : State) :
    (clear_search s).cursor_stack = s.cursor_stack ∧ (clear_search s).page_size = s.page_size := by
  unfold clear_search
  simp only
  generalize (if s.filtered.length > 0 then
    (cstr (file_name (file_at s s.idx))).take (PATH_MAX - 1) else []) = sel
  by_cases hsel : sel.getD 0 0 ≠ 0
  · rw [if_pos hsel]
    split <;> exact ⟨rfl, rfl⟩
  · rw [if_neg hsel]
    exact ⟨rfl, rfl⟩

theorem enter_directory_pushes {env : Env} {s s1 : State} (hN : 0 < s.filtered.length)
    (hdir : (file_at s s.idx).type = DT_DIR ∨ env.stat_is_dir = true)
    (hcd : env.chdir_ok = true) (hstack : s.cursor_stack.length < 64)
    (h : enter_directory env s = .ok s1) :
    s1.cursor_stack = s.cursor_stack ++ [s.idx] ∧ s1.page_size = s.page_size
      ∧ s1.idx = 0 ∧ s1.page = 0 ∧ s1.cursor = 0 := by
  unfold enter_directory at h
  rw [if_neg (by omega), if_neg (by
    rcases hdir with hd | hd
    · exact fun hc => hc.1 hd
    · exact fun hc => by rw [hd] at hc; exact absurd hc.2 (by decide)),
    if_neg (by rw [hcd]; decide)] at h
  simp only at h
  split at h
  · cases h
  · rename_i s2 hg
    simp only [Except.ok.injEq] at h
    subst h
    have hfr := get_files_frame hg
    refine ⟨?_, hfr.1, rfl, rfl, rfl⟩
    show s2.cursor_stack = _
    rw [hfr.2.2.2.2]
    show (if s.cursor_stack.length < 64 then s.cursor_stack ++ [s.idx] else s.cursor_stack) = _
    rw [if_pos hstack]

theorem go_to_parent_pops {env : Env} {s s1 : State} {stack : List Nat} {i : Nat}
    (hcd : env.chdir_ok = true) (hst : s.cursor_stack = stack ++ [i])
    (h : go_to_parent env s = .ok s1) (hi : i < s1.filtered.length) :
    s1.idx = i ∧ s1.page = i / s1.page_size ∧ s1.cursor = i % s1.page_size
      ∧ s1.cursor_stack = stack ∧ s1.page_size = s.page_size := by
  unfold go_to_parent at h
  rw [if_neg (by rw [hcd]; decide)] at h
  split at h
  · cases h
  · rename_i s2 hg
    simp only [Except.ok.injEq] at h
    have hfr := get_files_frame hg
    have hcs := clear_search_stack s
    have hstack : s2.cursor_stack = stack ++ [i] := by rw [hfr.2.2.2.2, hcs.1, hst]
    have hf : s1.filtered = s2.filtered := by
      rw [← h, (set_page_cursor_frame _).2.1, (pop_cursor_frame _).2.1]
    have hi2 : i < s2.filtered.length := by rw [← hf]; exact hi
    have hpop : pop_cursor s2 = { s2 with cursor_stack := stack, idx := i } := by
      unfold pop_cursor
      rw [if_pos (by rw [hstack]; simp)]
      simp only [hstack, List.length_append, List.length_singleton, Nat.add_sub_cancel,
        List.take_left', List.getD_eq_getElem?_getD, List.getElem?_concat_length,
        Option.getD_some]
      rw [if_neg (by omega)]
    rw [hpop] at h
    subst h
    unfold set_page_cursor
    by_cases h0 : i > 0
    · rw [if_pos h0]
      exact ⟨rfl, rfl, rfl, rfl, by show s2.page_size = _; rw [hfr.1, hcs.2]⟩
    · rw [if_neg h0]
      have hi0 : i = 0 := by omega
      subst hi0
      exact ⟨rfl, (Nat.zero_div _).symm, (Nat.zero_mod _).symm, rfl,
        by show s2.page_size = _; rw [hfr.1, hcs.2]⟩

theorem pop_cursor_nil {s : State} (h : s.cursor_stack = []) :
    pop_cursor s = { s with idx := 0 } := by
  unfold pop_cursor
  rw [if_neg (by rw [h]; simp)]

theorem pop_cursor_concat {s : State} {stack : List Nat} {i : Nat}
    (h : s.cursor_stack = stack ++ [i]) :
    pop_cursor s = { s with
      cursor_stack := stack
      idx := if i ≥ s.filtered.length then s.filtered.length - 1 else i } := by
  unfold pop_cursor
  rw [if_pos (by rw [h]; simp)]
  simp only [h, List.length_append, List.length_singleton, Nat.add_sub_cancel,
    List.take_left', List.getD_eq_getElem?_getD, List.getElem?_concat_length,
    Option.getD_some]
  by_cases hi : i ≥ s.filtered.length
  · rw [if_pos hi, if_pos hi]
    by_cases hN : s.filtered.length > 0
    · rw [if_pos hN]
    · rw [if_neg hN]
      have : s.filtered.length - 1 = 0 := by omega
      rw [this]
  · rw [if_neg hi, if_neg hi]

theorem set_page_cursor_page (s : State) :
    (set_page_cursor s).page = s.idx / s.page_size
      ∧ (set_page_cursor s).cursor = s.idx % s.page_size := by
  unfold set_page_cursor
  by_cases h0 : s.idx > 0
  · rw [if_pos h0]; exact ⟨rfl, rfl⟩
  · rw [if_neg h0]
    have : s.idx = 0 := by omega
    rw [this]
    exact ⟨(Nat.zero_div _).symm, (Nat.zero_mod _).symm⟩

theorem go_to_parent_unfold {env : Env} {s s1 : State} (hcd : env.chdir_ok = true)
    (h : go_to_parent env s = .ok s1) :
    ∃ s2, get_files env.dir env.lstat (clear_search s) = .ok s2
      ∧ s1 = set_page_cursor (pop_cursor s2) ∧ s2.cursor_stack = s.cursor_stack
      ∧ s2.page_size = s.page_size := by
  unfold go_to_parent at h
  rw [if_neg (by rw [hcd]; decide)] at h
  split at h
  · cases h
  · rename_i s2 hg
    simp only [Except.ok.injEq] at h
    have hfr := get_files_frame hg
    have hcs := clear_search_stack s
    exact ⟨s2, hg, h.symm, by rw [hfr.2.2.2.2, hcs.1], by rw [hfr.1, hcs.2]⟩

theorem enter_directory_unfold {env : Env} {s s1 : State} (hN : 0 < s.filtered.length)
    (hdir : (file_at s s.idx).type = DT_DIR ∨ env.stat_is_dir = true)
    (hcd : env.chdir_ok = true) (h : enter_directory env s = .ok s1) :
    s1.cursor_stack = (if s.cursor_stack.length < 64 then s.cursor_stack ++ [s.idx]
        else s.cursor_stack)
      ∧ same_query s1 (empty_query s) ∧ s1.search_open = false
      ∧ s1.idx = 0 ∧ s1.cursor = 0 ∧ s1.page = 0 ∧ s1.page_size = s.page_size := by
  unfold enter_directory at h
  rw [if_neg (by omega), if_neg (by
    rcases hdir with hd | hd
    · exact fun hc => hc.1 hd
    · exact fun hc => by rw [hd] at hc; exact absurd hc.2 (by decide)),
    if_neg (by rw [hcd]; decide)] at h
  simp only at h
  split at h
  · cases h
  · rename_i s2 hg
    simp only [Except.ok.injEq] at h
    subst h
    have hfr := get_files_frame hg
    have hq := get_files_same_query hg
    have ho : s2.search_open = false := by
      unfold get_files at hg
      cases hd : env.dir with
      | none =>
        rw [hd] at hg
        simp only [Except.ok.injEq] at hg
        rw [← hg]
      | some entries =>
        rw [hd] at hg
        simp only at hg
        cases hr : read_entries env.lstat entries [] with
        | error e => rw [hr] at hg; cases hg
        | ok fs =>
          rw [hr] at hg
          simp only [Except.ok.injEq] at hg
          rw [← hg]
    exact ⟨hfr.2.2.2.2, ⟨hq.1, hq.2.1, hq.2.2⟩, ho, rfl, rfl, rfl, hfr.1⟩

/-! ## Lemmas on start-up -/

theorem bsearch_loop_zero (cmp : Nat → Int) (fuel : Nat) :
    ∀ l u i, bsearch_loop cmp fuel l u = some i → cmp i = 0 := by
  induction fuel with
  | zero => intro l u i h; simp [bsearch_loop] at h
  | succ n ih =>
    intro l u i h
    unfold bsearch_loop at h
    by_cases hlu : l < u
    · rw [if_pos hlu] at h
      simp only at h
      by_cases h1 : cmp ((l + u) / 2) < 0
      · rw [if_pos h1] at h; exact ih _ _ _ h
      · rw [if_neg h1] at h
        by_cases h2 : cmp ((l + u) / 2) > 0
        · rw [if_pos h2] at h; exact ih _ _ _ h
        · rw [if_neg h2] at h
          simp only [Option.some.injEq] at h
          rw [← h]; omega
    · rw [if_neg hlu] at h; cases h

theorem get_files_sorted {dir : Option (List dirent)} {lstat : List Nat → Option Nat}
    {s s1 : State} (h : get_files dir lstat s = .ok s1) :
    List.Sorted (fun a b => strcmp a b ≤ 0) (s1.files.map (fun f => f.name)) := by
  unfold get_files at h
  cases dir with
  | none =>
    simp only [Except.ok.injEq] at h
    subst h
    exact List.Pairwise.nil
  | some entries =>
    simp only at h
    cases hr : read_entries lstat entries [] with
    | error e => rw [hr] at h; cases h
    | ok fs =>
      rw [hr] at h
      simp only [Except.ok.injEq] at h
      subst h
      exact List.pairwise_map.mpr (qsort_sorted fs)

theorem startup_unfold {ioctl : Option (Nat × Nat)} {dir : Option (List dirent)}
    {lstat : List Nat → Option Nat} {start : Option (List Nat)} {s : State}
    (h : startup ioctl dir lstat start = .ok s) :
    ∃ s1, get_files dir lstat { initial_state with
            page_size := if (get_win_size ioctl).1 > 3 then (get_win_size ioctl).1 - 3 else 1,
            win_cols := (get_win_size ioctl).2, page := 0 } = .ok s1
      ∧ s1.idx = 0 ∧ s1.page = 0 ∧ s1.cursor = 0
      ∧ s1.page_size = (if (get_win_size ioctl).1 > 3 then (get_win_size ioctl).1 - 3 else 1)
      ∧ s = (match start with
          | none => s1
          | some name =>
            match bsearch (compare_name_to_file s1 name) s1.files.length with
            | some found =>
              { s1 with idx := found, page := found / s1.page_size, cursor := found % s1.page_size }
            | none => s1) := by
  unfold startup at h
  simp only at h
  split at h
  · cases h
  · rename_i s1 hg
    have hfr := get_files_frame hg
    refine ⟨s1, hg, hfr.2.1, hfr.2.2.1, hfr.2.2.2.1, hfr.1, ?_⟩
    cases start with
    | none =>
      simp only [Except.ok.injEq] at h
      exact h.symm
    | some name =>
      simp only at h ⊢
      cases hb : bsearch (compare_name_to_file s1 name) s1.files.length with
      | none =>
        rw [hb] at h
        simp only [Except.ok.injEq] at h
        exact h.symm
      | some found =>
        rw [hb] at h
        simp only [Except.ok.injEq] at h
        exact h.symm

theorem strcmp_cstr_left (a b : List Nat) : strcmp (cstr a) b = strcmp a b := by
  unfold strcmp
  rw [cstr_of_not_mem (not_mem_cstr a)]

/-! ## Lemmas on the rendering of names -/

theorem write_err_inside (name : List Nat) (off n : Nat) (h : off + n ≤ name.length) :
    write_err name off n = some ((name.drop off).take n) := by
  unfold write_err
  rw [if_pos (by omega)]
  congr 1
  rw [List.drop_append_of_le_length (by omega), List.take_append_of_le_length]
  rw [List.length_drop]; omega

theorem puts_err_inside (name : List Nat) (off : Nat) (h0 : 0 ∉ name) (h : off ≤ name.length) :
    puts_err name off = some (name.drop off) := by
  unfold puts_err
  rw [if_pos h, List.drop_append_of_le_length h]
  congr 1
  exact cstr_append_nul (fun hm => h0 (List.mem_of_mem_drop hm)) []

theorem take_split (name : List Nat) (a n : Nat) :
    name.take a ++ (name.drop a).take n = name.take (a + n) := by
  rw [List.take_add]

/-- The name block writes without leaving the name when the match span lies
inside the name and `name_len` is the length of the name. -/
theorem print_name_some (name : List Nat) (ms sl ml : Nat) (h0 : 0 ∉ name)
    (hspan : ms + sl ≤ name.length) : (print_name name name.length ms sl ml).isSome = true := by
  unfold print_name
  simp only
  by_cases hsl : sl > 0
  · rw [if_pos hsl]
    by_cases htr : name.length > ml
    · rw [if_pos (by simpa using htr)]
      by_cases ha : ms ≥ ml
      · rw [if_pos ha, write_err_inside name 0 ml (by omega)]; rfl
      · rw [if_neg ha]
        by_cases hb : ms + sl > ml
        · rw [if_pos hb, write_err_inside name 0 ms (by omega),
            write_err_inside name ms (ml - ms) (by omega)]; rfl
        · rw [if_neg hb, write_err_inside name 0 ms (by omega),
            write_err_inside name ms sl (by omega),
            write_err_inside name (ms + sl) (ml - (ms + sl)) (by omega)]; rfl
    · rw [if_neg (by simpa using htr), write_err_inside name 0 ms (by omega),
        write_err_inside name ms sl (by omega), puts_err_inside name (ms + sl) h0 hspan]; rfl
  · rw [if_neg hsl]
    by_cases htr : name.length > ml
    · rw [if_pos (by simpa using htr), write_err_inside name 0 ml (by omega)]; rfl
    · rw [if_neg (by simpa using htr), puts_err_inside name 0 h0 (Nat.zero_le _)]; rfl

/-! ## Match spans through the event loop -/

theorem resolve_type_length (lstat : List Nat → Option Nat) (f : file) :
    (resolve_type lstat f).length = f.length := by
  unfold resolve_type
  split
  · split <;> rfl
  · rfl

theorem get_files_lengths {dir : Option (List dirent)} {lstat : List Nat → Option Nat}
    {s s1 : State} (h : get_files dir lstat s = .ok s1) : lengths_ok s1.files := by
  unfold get_files at h
  cases dir with
  | none =>
    simp only [Except.ok.injEq] at h
    subst h
    intro f hf
    cases hf
  | some entries =>
    simp only at h
    cases hr : read_entries lstat entries [] with
    | error e => rw [hr] at h; cases h
    | ok fs =>
      rw [hr] at h
      simp only [Except.ok.injEq] at h
      subst h
      rcases read_entries_spec lstat entries [] fs hr with ⟨h1, -⟩
      intro f hf
      have hf2 : f ∈ fs := (qsort_perm fs).mem_iff.mp hf
      rw [h1] at hf2
      simp only [List.nil_append, List.mem_map] at hf2
      rcases hf2 with ⟨e, _, rfl⟩
      rw [(file_of_ok lstat e).1]
      unfold file_of
      rw [resolve_type_length]
      rfl

theorem first_occ_span {n h : List Nat} {k : Nat} (hk : first_occ n h = some k) :
    k + n.length ≤ h.length := by
  rcases first_occ_eq_some.mp hk with ⟨h1, h2, -⟩
  have := h2.length_le
  rw [List.length_drop] at this
  omega

theorem query_form_length (Q : List Nat) : (query_form Q).length = Q.length := by
  unfold query_form
  split
  · rfl
  · exact List.length_map _ _

theorem name_form_length (Q name : List Nat) : (name_form Q name).length = name.length := by
  unfold name_form
  split
  · rfl
  · exact List.length_map _ _

/-- A match found by the loops of `apply_filter` lies inside the name. -/
theorem filter_match_span {s : State} {Q : List Nat} (hq : holds_query s Q) (hQ : 0 ∉ Q)
    {f : file} (hf : 0 ∉ f.name ∧ f.name_lower = f.name.map tolower) {m : Nat}
    (hm : strstr (filter_hay ((s.search_query.take s.search_len).any isupper) f)
        (if (s.search_query.take s.search_len).any isupper = true then s.search_query
          else (s.search_query.take s.search_len).map tolower ++ [0]) = some m) :
    m + s.search_len ≤ f.name.length := by
  rw [strstr_filter_hay hq hQ hf] at hm
  have := first_occ_span hm
  rw [query_form_length, name_form_length] at this
  rw [hq.1]; exact this

theorem apply_filter_span {s : State} {Q : List Nat} (hcat : catalog_ok s.files)
    (hv : view_ok s) (hq : holds_query s Q) (hQ : 0 ∉ Q) : span_inv (apply_filter s) := by
  intro e he
  show e.match_start + s.search_len ≤ (s.files.getD e.idx default).name.length
  by_cases h0 : s.search_len = 0
  · rw [apply_filter_filtered_empty h0] at he
    unfold identity_view at he
    rcases List.mem_map.mp he with ⟨i, -, rfl⟩
    rw [h0]; exact Nat.zero_le _
  · by_cases hinc :
      (decide (s.search_len > s.prev_search_len) && decide (s.prev_search_len > 0)) = true
    · simp only [apply_filter, h0, if_false, hinc, if_true] at he
      rcases List.mem_filterMap.mp he with ⟨e0, he0, hm⟩
      rcases Option.map_eq_some'.mp hm with ⟨m, hm1, rfl⟩
      have hmem := getD_mem s.files default (hv.2.1 e0 he0)
      exact filter_match_span hq hQ (hcat.2 _ hmem) hm1
    · simp only [apply_filter, h0, if_false, hinc] at he
      rcases List.mem_filterMap.mp he with ⟨i, hi, hm⟩
      rcases Option.map_eq_some'.mp hm with ⟨m, hm1, rfl⟩
      have hi2 : i < s.files.length := List.mem_range.mp hi
      have hmod : i % 2 ^ 32 = i :=
        Nat.mod_eq_of_lt (by have := hcat.1; unfold UINT32_MAX at this; omega)
      have hmem := getD_mem s.files default hi2
      show m + s.search_len ≤ (s.files.getD (i % 2 ^ 32) default).name.length
      rw [hmod]
      exact filter_match_span hq hQ (hcat.2 _ hmem) hm1

theorem printable_no_nul {s : State} (h : printable_query s) :
    ∃ Q, holds_query s Q ∧ 0 ∉ Q := by
  obtain ⟨q, hq, hb⟩ := h
  exact ⟨q, hq.1, fun h0 => by have := (hb 0 h0).1; omega⟩

theorem apply_filter_render {s : State} (hcat : catalog_ok s.files) (hl : lengths_ok s.files)
    (hv : view_ok s) (hp : printable_query s) : render_inv (apply_filter s) := by
  obtain ⟨Q, hq, hQ⟩ := printable_no_nul hp
  exact ⟨hcat, hl, apply_filter_span hcat hv hq hQ⟩

theorem render_inv_same {s s1 : State} (h : render_inv s) (hs : same_view s1 s) :
    render_inv s1 := by
  rcases hs with ⟨h1, h2, h3⟩
  unfold render_inv span_inv at *
  rw [h1, h2, h3]
  exact h

theorem identity_view_span {s : State} (hv : s.filtered = identity_view s.files.length)
    (h0 : s.search_len = 0) : span_inv s := by
  intro e he
  rw [hv] at he
  unfold identity_view at he
  rcases List.mem_map.mp he with ⟨i, -, rfl⟩
  rw [h0]; exact Nat.zero_le _

theorem get_files_render {dir : Option (List dirent)} {lstat : List Nat → Option Nat}
    {s s1 : State} (h : get_files dir lstat s = .ok s1) (h0 : s.search_len = 0) :
    render_inv s1 :=
  ⟨(get_files_catalog_ok h).1, get_files_lengths h,
    identity_view_span (get_files_catalog_ok h).2.1 ((get_files_same_query h).2.1.trans h0)⟩

theorem moves_same_view (s : State) :
    same_view (move_to_previous s).2 s ∧ same_view (move_to_next s).2 s
      ∧ same_view (move_to_first s).2 s ∧ same_view (move_to_last s).2 s
      ∧ same_view (move_page_up s).2 s ∧ same_view (move_page_down s).2 s := by
  refine ⟨?_, ?_, ?_, ?_, ?_, ?_⟩
  · unfold move_to_previous; simp only; split_ifs <;> exact ⟨rfl, rfl, rfl⟩
  · unfold move_to_next; simp only; split_ifs <;> exact ⟨rfl, rfl, rfl⟩
  · unfold move_to_first; simp only; split_ifs <;> exact ⟨rfl, rfl, rfl⟩
  · unfold move_to_last; simp only; split_ifs <;> exact ⟨rfl, rfl, rfl⟩
  · unfold move_page_up; simp only; split_ifs <;> exact ⟨rfl, rfl, rfl⟩
  · unfold move_page_down; simp only; split_ifs <;> exact ⟨rfl, rfl, rfl⟩

theorem handle_resize_same_view (ioctl : Option (Nat × Nat)) (s : State) :
    same_view (handle_resize ioctl s) s := by
  unfold handle_resize
  simp only
  split <;> exact ⟨rfl, rfl, rfl⟩

theorem set_page_cursor_same_view (s : State) : same_view (set_page_cursor s) s := by
  unfold set_page_cursor
  split <;> exact ⟨rfl, rfl, rfl⟩

theorem pop_cursor_same_view (s : State) : same_view (pop_cursor s) s := by
  unfold pop_cursor
  split <;> exact ⟨rfl, rfl, rfl⟩

/-- The filter run after an edit of the query re-establishes the match spans. -/
theorem edit_filter_render {s s1 : State} (hr : render_inv s) (hv : view_ok s)
    (hs : same_nav s1 s) (hp : printable_query s1) : render_inv (apply_filter s1) := by
  apply apply_filter_render _ _ _ hp
  · rw [hs.1]; exact hr.1
  · rw [hs.1]; exact hr.2.1
  · unfold view_ok at hv ⊢
    rw [hs.1, hs.2.1]; exact hv

theorem clear_search_render {s : State} (hr : render_inv s) (hv : view_ok s)
    (hp : printable_query s) : render_inv (clear_search s) := by
  have hbase : render_inv (apply_filter (empty_query s)) :=
    edit_filter_render hr hv ⟨rfl, rfl, rfl, rfl, rfl, rfl⟩
      (query_step_printable (empty_query_step s _ ⟨rfl, rfl, rfl⟩) hp)
  apply render_inv_same hbase
  unfold clear_search
  simp only
  generalize (if s.filtered.length > 0 then
    (cstr (file_name (file_at s s.idx))).take (PATH_MAX - 1) else []) = sel
  by_cases hsel : sel.getD 0 0 ≠ 0
  · rw [if_pos hsel]
    split <;> exact ⟨rfl, rfl, rfl⟩
  · rw [if_neg hsel]
    exact ⟨rfl, rfl, rfl⟩

theorem search_escape_render {key : esc_key} {s : State} (hr : render_inv s) (hv : view_ok s)
    (hp : printable_query s) : render_inv (search_escape key s) := by
  cases key <;> unfold search_escape <;> simp only
  case ESC_DOUBLE => exact clear_search_render hr hv hp
  case ESC_LEFT => split <;> exact hr
  case ESC_RIGHT => split <;> exact hr
  case ESC_HOME => exact render_inv_same hr ⟨rfl, rfl, rfl⟩
  case ESC_END => exact render_inv_same hr ⟨rfl, rfl, rfl⟩
  case ESC_DELETE =>
    exact edit_filter_render hr hv (search_delete_char_forward_same s)
      (query_step_printable (search_delete_char_forward_step s) hp)
  case ESC_CTRL_DELETE =>
    exact edit_filter_render hr hv (search_delete_word_forward_same s)
      (query_step_printable (search_delete_word_forward_step s) hp)
  case ESC_CTRL_LEFT =>
    apply render_inv_same hr
    unfold search_move_word_back
    split <;> exact ⟨rfl, rfl, rfl⟩
  case ESC_CTRL_RIGHT =>
    apply render_inv_same hr
    unfold search_move_word_forward
    split <;> exact ⟨rfl, rfl, rfl⟩
  all_goals exact hr

theorem search_key_render {ch : Nat} {s s1 : State} {input rest : List Nat}
    (hr : render_inv s) (hv : view_ok s) (hp : printable_query s)
    (hk : search_key ch s input = .running s1 rest) : render_inv s1 := by
  unfold search_key at hk
  split_ifs at hk
  all_goals simp only [Outcome.running.injEq] at hk
  all_goals obtain ⟨rfl, -⟩ := hk
  · exact edit_filter_render hr hv (search_delete_to_start_same s)
      (query_step_printable (search_delete_to_start_step s) hp)
  · exact edit_filter_render hr hv (search_delete_word_back_same s)
      (query_step_printable (search_delete_word_back_step s) hp)
  · exact search_escape_render hr hv hp
  · exact render_inv_same hr ⟨rfl, rfl, rfl⟩
  · exact render_inv_same hr ⟨rfl, rfl, rfl⟩
  · exact edit_filter_render hr hv (search_delete_char_back_same s)
      (query_step_printable (search_delete_char_back_step s) hp)
  · exact edit_filter_render hr hv (search_delete_word_back_same s)
      (query_step_printable (search_delete_word_back_step s) hp)
  · exact edit_filter_render hr hv (search_insert_char_same ch s)
      (query_step_printable (search_insert_char_step ch s) hp)

theorem delete_answered_render {env : Env} {yes : Bool} {s s1 : State} (hr : render_inv s)
    (hp : printable_query s) (hd : delete_answered env yes s = .ok s1) : render_inv s1 := by
  unfold delete_answered at hd
  by_cases hy : yes = true ∧ remove_recursive_at env AT_FDCWD (file_name (file_at s s.idx)) = 0
  · rw [if_pos hy] at hd
    unfold delete_refresh at hd
    cases hg : get_files env.dir env.lstat s with
    | error e => rw [hg] at hd; cases hd
    | ok s2 =>
      rw [hg] at hd
      simp only [Except.ok.injEq] at hd
      subst hd
      have hp2 : printable_query s2 :=
        query_step_printable (query_step_same (get_files_same_query hg)) hp
      have hbase := apply_filter_render (get_files_catalog_ok hg).1 (get_files_lengths hg)
        (get_files_view hg).2 hp2
      exact render_inv_same (render_inv_same hbase ⟨rfl, rfl, rfl⟩)
        (set_page_cursor_same_view _)
  · rw [if_neg hy] at hd
    simp only [Except.ok.injEq] at hd
    subst hd
    exact hr

theorem delete_selected_render {env : Env} {s s1 : State} {input rest : List Nat}
    (hr : render_inv s) (hp : printable_query s)
    (hd : delete_selected env s input = some (.ok s1, rest)) : render_inv s1 := by
  unfold delete_selected at hd
  by_cases hN : s.filtered.length = 0
  · rw [if_pos hN] at hd
    simp only [Option.some.injEq, Prod.mk.injEq, Except.ok.injEq] at hd
    rw [← hd.1]; exact hr
  · rw [if_neg hN] at hd
    cases hc : read_confirm input with
    | none => rw [hc] at hd; cases hd
    | some p =>
      rcases p with ⟨yes, r⟩
      rw [hc] at hd
      simp only [Option.some.injEq, Prod.mk.injEq] at hd
      exact delete_answered_render hr hp hd.1

theorem enter_directory_render {env : Env} {s s1 : State} (hr : render_inv s)
    (hd : enter_directory env s = .ok s1) : render_inv s1 := by
  unfold enter_directory at hd
  split at hd
  · simp only [Except.ok.injEq] at hd; subst hd; exact hr
  · split at hd
    · simp only [Except.ok.injEq] at hd; subst hd; exact hr
    · split at hd
      · simp only [Except.ok.injEq] at hd; subst hd; exact hr
      · simp only at hd
        split at hd
        · cases hd
        · rename_i s2 hg
          simp only [Except.ok.injEq] at hd
          subst hd
          exact render_inv_same (get_files_render hg rfl) ⟨rfl, rfl, rfl⟩

theorem go_to_parent_render {env : Env} {s s1 : State} (hr : render_inv s)
    (hd : go_to_parent env s = .ok s1) : render_inv s1 := by
  unfold go_to_parent at hd
  split at hd
  · simp only [Except.ok.injEq] at hd; subst hd; exact hr
  · split at hd
    · cases hd
    · rename_i s2 hg
      simp only [Except.ok.injEq] at hd
      subst hd
      exact render_inv_same (render_inv_same (get_files_render hg (clear_search_same s).2.1)
        (pop_cursor_same_view _)) (set_page_cursor_same_view _)

theorem browse_escape_render {env : Env} {key : esc_key} {s s1 : State}
    {input rest : List Nat} (hr : render_inv s) (hv : view_ok s) (hp : printable_query s)
    (hk : browse_escape env key s input = .running s1 rest) : render_inv s1 := by
  have hm := moves_same_view s
  cases key <;> unfold browse_escape at hk <;> simp only at hk
  case ESC_DELETE => exact delete_selected_render hr hp (outcome_of_delete_running hk)
  case ESC_RIGHT => exact enter_directory_render hr (outcome_of_running hk)
  case ESC_LEFT => exact go_to_parent_render hr (outcome_of_running hk)
  all_goals simp only [Outcome.running.injEq] at hk
  all_goals obtain ⟨rfl, -⟩ := hk
  case ESC_DOUBLE =>
    split
    · exact clear_search_render hr hv hp
    · exact hr
  case ESC_UP => exact render_inv_same hr hm.1
  case ESC_DOWN => exact render_inv_same hr hm.2.1
  case ESC_HOME => exact render_inv_same hr hm.2.2.1
  case ESC_END => exact render_inv_same hr hm.2.2.2.1
  case ESC_PAGE_UP => exact render_inv_same hr hm.2.2.2.2.1
  case ESC_PAGE_DOWN => exact render_inv_same hr hm.2.2.2.2.2
  all_goals exact hr

theorem browse_key_render {env : Env} {ch : Nat} {s s1 : State} {input rest : List Nat}
    (hr : render_inv s) (hv : view_ok s) (hp : printable_query s)
    (hk : browse_key env ch s input = .running s1 rest) : render_inv s1 := by
  have hm := moves_same_view s
  unfold browse_key at hk
  by_cases h10 : ch = 10
  · rw [if_pos h10] at hk; cases hk
  rw [if_neg h10] at hk
  by_cases h27 : ch = 27
  · rw [if_pos h27] at hk
    exact browse_escape_render hr hv hp hk
  rw [if_neg h27] at hk
  by_cases h47 : ch = 47
  · rw [if_pos h47] at hk
    simp only [Outcome.running.injEq] at hk
    obtain ⟨rfl, -⟩ := hk
    exact render_inv_same hr ⟨rfl, rfl, rfl⟩
  rw [if_neg h47] at hk
  by_cases h113 : ch = 113
  · rw [if_pos h113] at hk; cases hk
  rw [if_neg h113] at hk
  by_cases h103 : ch = 103
  · rw [if_pos h103] at hk
    simp only [Outcome.running.injEq] at hk
    obtain ⟨rfl, -⟩ := hk
    exact render_inv_same hr hm.2.2.1
  rw [if_neg h103] at hk
  by_cases h71 : ch = 71
  · rw [if_pos h71] at hk
    simp only [Outcome.running.injEq] at hk
    obtain ⟨rfl, -⟩ := hk
    exact render_inv_same hr hm.2.2.2.1
  rw [if_neg h71] at hk
  by_cases h117 : ch = 117
  · rw [if_pos h117] at hk
    simp only [Outcome.running.injEq] at hk
    obtain ⟨rfl, -⟩ := hk
    exact render_inv_same hr hm.2.2.2.2.1
  rw [if_neg h117] at hk
  by_cases h100 : ch = 100
  · rw [if_pos h100] at hk
    simp only [Outcome.running.injEq] at hk
    obtain ⟨rfl, -⟩ := hk
    exact render_inv_same hr hm.2.2.2.2.2
  rw [if_neg h100] at hk
  by_cases h68 : ch = 68
  · rw [if_pos h68] at hk
    exact delete_selected_render hr hp (outcome_of_delete_running hk)
  rw [if_neg h68] at hk
  simp only [ite_self, Outcome.running.injEq] at hk
  obtain ⟨rfl, -⟩ := hk
  exact hr

theorem main_step_render {env : Env} {s s1 : State} {input rest : List Nat}
    (hr : render_inv s) (hi : session_inv s) (hp : printable_query s)
    (hk : main_step env s input = .running s1 rest) : render_inv s1 := by
  unfold main_step at hk
  by_cases hsig : env.terminate_signal ≠ 0
  · rw [if_pos hsig] at hk; cases hk
  · rw [if_neg hsig] at hk
    cases hg : getchar input with
    | mk c r =>
      rw [hg] at hk
      cases c with
      | none =>
        simp only at hk
        split at hk
        · simp only [Outcome.running.injEq] at hk
          rw [← hk.1]; exact hr
        · cases hk
      | some ch =>
        simp only at hk
        have h1 : render_inv (if env.term_resized = true then handle_resize env.winsize s else s)
            ∧ view_ok (if env.term_resized = true then handle_resize env.winsize s else s)
            ∧ printable_query
                (if env.term_resized = true then handle_resize env.winsize s else s) := by
          split
          · exact ⟨render_inv_same hr (handle_resize_same_view _ s),
              (handle_resize_session _ hi).2.2.2.2,
              query_step_printable (query_step_same (handle_resize_same_query _ s)) hp⟩
          · exact ⟨hr, hi.2.2.2.2, hp⟩
        by_cases hopen :
            (if env.term_resized = true then handle_resize env.winsize s else s).search_open = true
        · rw [if_pos hopen] at hk
          exact search_key_render h1.1 h1.2.1 h1.2.2 hk
        · rw [if_neg hopen] at hk
          exact browse_key_render h1.1 h1.2.1 h1.2.2 hk

theorem startup_render {ioctl : Option (Nat × Nat)} {dir : Option (List dirent)}
    {lstat : List Nat → Option Nat} {start : Option (List Nat)} {s : State}
    (h : startup ioctl dir lstat start = .ok s) : render_inv s := by
  obtain ⟨s1, hg, -, -, -, -, hs⟩ := startup_unfold h
  have hbase := get_files_render hg rfl
  apply render_inv_same hbase
  rw [hs]
  cases start with
  | none => exact ⟨rfl, rfl, rfl⟩
  | some name =>
    simp only
    split <;> exact ⟨rfl, rfl, rfl⟩

theorem reachable_render_inv {s : State} (h : Reachable s) : render_inv s := by
  induction h with
  | start ioctl dir lstat start s hs => exact startup_render hs
  | step env s input s1 rest hreach hstep ih =>
    exact main_step_render ih (reachable_session_inv hreach) (reachable_printable_query hreach)
      hstep

theorem print_entry_name_some {s : State} (hr : render_inv s) (hv : view_ok s)
    {e : filtered_file} (he : e ∈ s.filtered) : (print_entry_name s e).isSome = true := by
  have hmem := getD_mem s.files default (hv.2.1 e he)
  unfold print_entry_name file_name
  rw [hr.2.1 _ hmem]
  exact print_name_some _ _ _ _ (hr.1.2 _ hmem).1 (hr.2.2 e he)

/-! ## Lemmas on round trips -/

theorem mod_pred_succ {i n : Nat} (hi : i < n) : ((i + n - 1) % n + 1) % n = i := by
  by_cases h0 : i = 0
  · subst h0
    rw [Nat.zero_add]
    have a : (n - 1) % n = n - 1 := Nat.mod_eq_of_lt (by omega)
    have b : n - 1 + 1 = n := by omega
    rw [a, b, Nat.mod_self]
  · have a : (i + n - 1) % n = i - 1 := by
      have h1 : i + n - 1 = (i - 1) + n := by omega
      rw [h1, Nat.add_mod_right]
      exact Nat.mod_eq_of_lt (by omega)
    have b : i - 1 + 1 = i := by omega
    rw [a, b]
    exact Nat.mod_eq_of_lt hi

theorem mod_succ_pred {i n : Nat} (hi : i < n) : ((i + 1) % n + n - 1) % n = i := by
  by_cases h0 : i + 1 = n
  · have a : (i + 1) % n = 0 := by rw [h0, Nat.mod_self]
    have b : 0 + n - 1 = i := by omega
    rw [a, b]
    exact Nat.mod_eq_of_lt hi
  · have a : (i + 1) % n = i + 1 := Nat.mod_eq_of_lt (by omega)
    have b : i + 1 + n - 1 = i + n := by omega
    rw [a, b, Nat.add_mod_right]
    exact Nat.mod_eq_of_lt hi

theorem take_succ_append_nul (q r : List Nat) : (q ++ 0 :: r).take (q.length + 1) = q ++ [0] := by
  induction q with
  | nil => rfl
  | cons a t ih =>
    show a :: (t ++ 0 :: r).take (t.length + 1) = a :: (t ++ [0])
    rw [ih]

theorem previous_then_next (s : State) (hps : 0 < s.page_size) (hN : 0 < s.filtered.length)
    (hinv : nav_inv s) : (move_to_next (move_to_previous s).2).2 = s := by
  rcases hinv hN with ⟨h1, h2, h3⟩
  have hp := (move_to_previous_eq s hps hN hinv).1
  have hinv1 := (moves_nav_inv s hps hinv).1
  have hps1 : 0 < (move_to_previous s).2.page_size := by rw [hp]; exact hps
  have hN1 : 0 < (move_to_previous s).2.filtered.length := by rw [hp]; exact hN
  rw [(move_to_next_eq (move_to_previous s).2 hps1 hN1 hinv1).1, hp]
  simp only [mod_pred_succ h1]
  rw [← h2, ← h3]

theorem next_then_previous (s : State) (hps : 0 < s.page_size) (hN : 0 < s.filtered.length)
    (hinv : nav_inv s) : (move_to_previous (move_to_next s).2).2 = s := by
  rcases hinv hN with ⟨h1, h2, h3⟩
  have hp := (move_to_next_eq s hps hN hinv).1
  have hinv1 := (moves_nav_inv s hps hinv).2.1
  have hps1 : 0 < (move_to_next s).2.page_size := by rw [hp]; exact hps
  have hN1 : 0 < (move_to_next s).2.filtered.length := by rw [hp]; exact hN
  rw [(move_to_previous_eq (move_to_next s).2 hps1 hN1 hinv1).1, hp]
  simp only [mod_succ_pred h1]
  rw [← h2, ← h3]

/-! ## Lemmas on the header path -/

theorem display_path_length (cwd : List Nat) (home_dir : Option (List Nat)) :
    (display_path cwd home_dir).length = display_len cwd home_dir := by
  unfold display_path display_len strlen
  split
  · rw [List.length_drop]
  · rfl

theorem size_sub_eq {a b : Nat} (hb : b ≤ a) (ha : a < 2 ^ 64) : size_sub a b = a - b := by
  unfold size_sub
  have h1 : b % 2 ^ 64 = b := Nat.mod_eq_of_lt (by omega)
  rw [h1]
  have h2 : a + 2 ^ 64 - b = (a - b) + 2 ^ 64 := by omega
  rw [h2, Nat.add_mod_right]
  exact Nat.mod_eq_of_lt (by omega)

/-- The header path fits when the terminal has at least two columns, or at
least one and the alias `~` is not used: the count handed to `WRITE_ERR` does
not wrap around and is at most `display_len`, the read stays inside the path,
and the alias, the bytes written and the ellipsis take at most `win_cols`
columns. -/
theorem header_path_fits (cwd : List Nat) (home_dir : Option (List Nat)) (win_cols : Nat)
    (hw : win_cols < 2 ^ 64)
    (h : 2 ≤ win_cols ∨ (use_tilde cwd home_dir = false ∧ 1 ≤ win_cols)) :
    (print_header_path cwd home_dir win_cols).count ≤ display_len cwd home_dir
      ∧ header_columns cwd home_dir win_cols ≤ win_cols
      ∧ (print_header_path cwd home_dir win_cols).path_cols ≤ win_cols
      ∧ (print_header_path cwd home_dir win_cols).out.isSome = true := by
  have hlen := display_path_length cwd home_dir
  unfold header_columns print_header_path
  simp only
  by_cases hfit : (if use_tilde cwd home_dir = true then 1 else 0) + display_len cwd home_dir
      ≤ win_cols
  · rw [if_pos hfit, if_pos hfit]
    simp only
    rw [write_err_inside _ 0 _ (by omega)]
    exact ⟨Nat.le_refl _, by omega, hfit, rfl⟩
  · rw [if_neg hfit, if_neg hfit]
    by_cases ht : use_tilde cwd home_dir = true
    · have h2 : 2 ≤ win_cols := by
        rcases h with h | h
        · exact h
        · rw [h.1] at ht; cases ht
      rw [if_pos ht] at hfit ⊢
      simp only [ht, if_true]
      rw [size_sub_eq h2 hw, write_err_inside _ 0 _ (by omega)]
      exact ⟨by omega, by omega, Nat.le_refl _, rfl⟩
    · have h1 : 1 ≤ win_cols := by omega
      rw [if_neg ht] at hfit ⊢
      simp only [ht]
      rw [size_sub_eq h1 hw, write_err_inside _ 0 _ (by omega)]
      exact ⟨by omega, by simp only [Bool.false_eq_true, if_false]; omega, Nat.le_refl _, rfl⟩

/-! ## Lemmas on deletion -/

/-- The removal asked for by `delete_selected` is refused whatever the system
would answer: the descriptor `AT_FDCWD` is negative. -/
theorem remove_recursive_at_cwd (env : Env) (name : List Nat) :
    remove_recursive_at env AT_FDCWD name = -1 := rfl

theorem delete_answered_refused (env : Env) (yes : Bool) (s : State) :
    delete_answered env yes s = .ok s := by
  unfold delete_answered
  rw [if_neg (by rw [remove_recursive_at_cwd]; exact fun h => absurd h.2 (by decide))]

/-- Whatever the answer to the prompt, `delete_selected` leaves the state as it
is. -/
theorem delete_selected_refused {env : Env} {s : State} {input rest : List Nat}
    {r : Except Fatal State} (h : delete_selected env s input = some (r, rest)) :
    r = .ok s := by
  unfold delete_selected at h
  split at h
  · simp only [Option.some.injEq, Prod.mk.injEq] at h
    exact h.1.symm
  · split at h
    · cases h
    · simp only [Option.some.injEq, Prod.mk.injEq] at h
      rw [← h.1]; exact delete_answered_refused _ _ _

/-! ## The filter engine: claims C1 to C3 -/

/-- C1: a full re-scan (`prev_search_len = 0`) for a non-empty query `Q` leaves
exactly the catalog indices whose name contains `Q`, in increasing order, the
comparison being on raw bytes when `Q` has an upper-case byte and on the
lower-cased name and query otherwise; each `match_start` is the first offset at
which `Q` occurs in that name form. -/
theorem apply_filter_full_scan (s : State) (Q : List Nat) (hcat : catalog_ok s.files)
    (hq : holds_query s Q) (hne : Q ≠ []) (hnul : 0 ∉ Q) (hprev : s.prev_search_len = 0) :
    (apply_filter s).filtered.map (fun e => e.idx) =
        (List.range s.files.length).filter
          (fun i => decide (query_form Q <:+: name_form Q (s.files.getD i default).name))
      ∧ ∀ e ∈ (apply_filter s).filtered,
          query_form Q <+: (name_form Q (s.files.getD e.idx default).name).drop e.match_start
          ∧ ∀ j, j < e.match_start →
              ¬ query_form Q <+: (name_form Q (s.files.getD e.idx default).name).drop j := by
  have hfull : (apply_filter s).filtered = scan_view s.files Q :=
    apply_filter_filtered_full hcat hq hnul hne (fun h => by omega)
  rw [hfull]
  refine ⟨scan_view_idx s.files Q, ?_⟩
  intro e he
  exact (first_occ_eq_some.mp (mem_scan_view he).2).2

/-- C1 at the query `a` on the catalog `A`, `a10`, `a2`, `b`. -/
theorem apply_filter_full_scan_witness :
    (catalog_ok (demo_query [97]).files ∧ holds_query (demo_query [97]) [97]
      ∧ (demo_query [97]).prev_search_len = 0)
    ∧ (apply_filter (demo_query [97])).filtered.map (fun e => e.idx) =
        (List.range (demo_query [97]).files.length).filter
          (fun i => decide (query_form [97] <:+:
            name_form [97] ((demo_query [97]).files.getD i default).name))
    ∧ (apply_filter (demo_query [97])).filtered = [⟨0, 0⟩, ⟨1, 0⟩, ⟨2, 0⟩] :=
  have hcat : catalog_ok (demo_query [97]).files := by unfold catalog_ok; decide
  have hq : holds_query (demo_query [97]) [97] := ⟨rfl, List.replicate 254 0, rfl⟩
  ⟨⟨hcat, hq, rfl⟩,
    (apply_filter_full_scan (demo_query [97]) [97] hcat hq (by decide) (by decide) rfl).1,
    by decide⟩

/-- C2: typing printable bytes one at a time at the end of an empty query, the
filter running after each, leaves the buffer holding the typed bytes and the
same view as one full re-scan (`prev_search_len = 0`) of the catalog for them,
whether or not a byte switches the filter to case-sensitive. -/
theorem typing_equals_full_scan (s : State) (cs : List Nat) (hcat : catalog_ok s.files)
    (hq : holds_query s []) (hcur : s.search_cursor = 0) (hprev : s.prev_search_len = 0)
    (hview : s.filtered = identity_view s.files.length)
    (hprint : ∀ c ∈ cs, 32 ≤ c ∧ c < 127) (hlen : cs.length ≤ 255) :
    holds_query (cs.foldl (fun s c => type_char c s) s) cs
      ∧ (cs.foldl (fun s c => type_char c s) s).filtered =
          (apply_filter
            { cs.foldl (fun s c => type_char c s) s with prev_search_len := 0 }).filtered := by
  have h0 : typing_inv [] s := by
    refine ⟨hq, hcur, hprev, hcat, by simp, ?_⟩
    exact hview.trans
      (apply_filter_filtered_empty (s := { s with prev_search_len := 0 }) hq.1).symm
  have := typing_inv_foldl cs [] s h0 hprint (by simpa using hlen)
  simp only [List.nil_append] at this
  exact ⟨this.1, this.2.2.2.2.2⟩

/-- C2 at the bytes `a`, `A` typed on the catalog `A`, `a10`, `a2`, `b`: the
second byte switches the filter to case-sensitive. -/
theorem typing_equals_full_scan_witness :
    (catalog_ok demo_state.files ∧ holds_query demo_state []
      ∧ demo_state.filtered = identity_view demo_state.files.length)
    ∧ ([97, 65].foldl (fun s c => type_char c s) demo_state).filtered =
        (apply_filter
          { [97, 65].foldl (fun s c => type_char c s) demo_state with
            prev_search_len := 0 }).filtered :=
  have hcat : catalog_ok demo_state.files := by unfold catalog_ok; decide
  have hq : holds_query demo_state [] := ⟨rfl, List.replicate 255 0, rfl⟩
  ⟨⟨hcat, hq, rfl⟩,
    (typing_equals_full_scan demo_state [97, 65] hcat hq rfl rfl rfl (by decide) (by decide)).2⟩

/-- C3 (the code departs from the claim): in a directory holding `ab` and `axb`,
the keys `/`, `a`, `b`, Left, `x` insert `x` inside the query `ab`; the filter
takes its incremental path and leaves an empty view, while a full re-scan for
the new query `axb` finds the entry `axb`. -/
theorem insert_inside_query_not_rescanned :
    ((press ["ab", "axb"] [47, 97, 98, 27, 91, 68, 120] (session 24 ["ab", "axb"])).state.map
        (fun s => (cstr s.search_query, s.filtered,
          (apply_filter { s with prev_search_len := 0 }).filtered)))
      = some ([97, 120, 98], [], [⟨1, 0⟩]) := by
  decide

/-! ## The catalog: claims C4 and C5 -/

/-- C4: for every list of directory entries handed to `get_files`, the catalog
it returns has its names in ascending `strcmp` order, none beginning with `.`,
and they are a permutation of the non-empty input names that do not begin with
`.`; and `get_files` does return a catalog whenever at most `UINT32_MAX` names do
not begin with `.` (beyond that it ends the process). -/
theorem get_files_sorted_visible (entries : List dirent) (lstat : List Nat → Option Nat)
    (s : State) :
    (∀ s1, get_files (some entries) lstat s = .ok s1 →
        List.Sorted (fun a b => strcmp a b ≤ 0) (s1.files.map (fun f => f.name))
          ∧ (∀ f ∈ s1.files, begins_with_dot f.name = false)
          ∧ List.Perm (s1.files.map (fun f => f.name))
              ((entries.map (fun e => cstr e.d_name)).filter
                (fun n => !n.isEmpty && !begins_with_dot n)))
      ∧ ((entries.filter (fun e => !begins_with_dot (cstr e.d_name))).length ≤ UINT32_MAX →
          ∃ s1, get_files (some entries) lstat s = .ok s1) := by
  constructor
  · intro s1 hget
    unfold get_files at hget
    simp only at hget
    cases hfs : read_entries lstat entries [] with
    | error e => rw [hfs] at hget; cases hget
    | ok fs =>
      rw [hfs] at hget
      simp only [Except.ok.injEq] at hget
      subst hget
      have hspec := (read_entries_spec lstat entries [] fs hfs).1
      simp only [List.nil_append] at hspec
      refine ⟨?_, ?_, ?_⟩
      · show List.Sorted (fun a b => strcmp a b ≤ 0) ((qsort fs).map (fun f => f.name))
        exact List.pairwise_map.mpr (qsort_sorted fs)
      · intro f hf
        have hf2 : f ∈ fs := (qsort_perm fs).mem_iff.mp hf
        rw [hspec] at hf2
        rcases List.mem_map.mp hf2 with ⟨e, he, rfl⟩
        have hk := (List.mem_filter.mp he).2
        rw [kept_eq] at hk
        rw [(file_of_ok lstat e).1]
        simp only [Bool.and_eq_true, Bool.not_eq_true'] at hk
        exact hk.2
      · show List.Perm ((qsort fs).map (fun f => f.name)) _
        refine ((qsort_perm fs).map _).trans ?_
        rw [hspec, List.map_map, List.filter_map]
        have e1 : (fun f => f.name) ∘ file_of lstat = fun e => cstr e.d_name := by
          funext e; exact (file_of_ok lstat e).1
        have e2 : ((fun n => !n.isEmpty && !begins_with_dot n) ∘
            fun e : dirent => cstr e.d_name) = kept := by
          funext e; exact (kept_eq e).symm
        rw [e1, e2]
  · intro hcount
    rcases read_entries_total lstat entries [] (by simpa using hcount) with ⟨fs, hfs⟩
    have hget : get_files (some entries) lstat s =
        .ok { s with files := qsort fs, filtered := identity_view (qsort fs).length,
                     prev_search_len := 0 } := by
      simp only [get_files, hfs]
    exact ⟨_, hget⟩

/-- C4 at the entries `b`, `A`, `a10`, `a2`, `.git`: the catalog is `A`, `a10`,
`a2`, `b`. -/
theorem get_files_sorted_visible_witness :
    ((demo_dir.filter (fun e => !begins_with_dot (cstr e.d_name))).length ≤ UINT32_MAX
        ∧ get_files (some demo_dir) (fun _ => none) initial_state
          = .ok { initial_state with files := demo_files, filtered := identity_view 4 })
      ∧ List.Sorted (fun a b => strcmp a b ≤ 0) (demo_files.map (fun f => f.name))
      ∧ (∀ f ∈ demo_files, begins_with_dot f.name = false)
      ∧ List.Perm (demo_files.map (fun f => f.name))
          ((demo_dir.map (fun e => cstr e.d_name)).filter
            (fun n => !n.isEmpty && !begins_with_dot n)) :=
  ⟨⟨by decide, rfl⟩,
    (get_files_sorted_visible demo_dir (fun _ => none) initial_state).1
      { initial_state with files := demo_files, filtered := identity_view 4 } rfl⟩

/-- C5: after `get_files` and after `apply_filter` the filtered view is a
subsequence of the catalog in catalog order (strictly increasing indices, each
below `files_size`, `filtered_size <= files_size`); the two facts the filter
relies on, the catalog bound and the view before the call, hold in every
reachable state. -/
theorem view_is_subsequence :
    (∀ (dir : Option (List dirent)) (lstat : List Nat → Option Nat) (s s1 : State),
        get_files dir lstat s = .ok s1 → view_ok s1)
      ∧ (∀ s : State, s.files.length ≤ UINT32_MAX → view_ok s → view_ok (apply_filter s))
      ∧ (∀ s : State, Reachable s →
          s.files.length ≤ UINT32_MAX ∧ view_ok s ∧ view_ok (apply_filter s)) := by
  refine ⟨fun _ _ _ _ h => (get_files_view h).2, fun _ hlen hv => apply_filter_view_ok hlen hv, ?_⟩
  intro s hs
  have h := reachable_session_inv hs
  exact ⟨h.2.2.2.1, h.2.2.2.2, apply_filter_view_ok h.2.2.2.1 h.2.2.2.2⟩

/-- C5 at the query `a` on the catalog `A`, `a10`, `a2`, `b`, and at the
rebuild of that catalog. -/
theorem view_is_subsequence_witness :
    (view_ok (demo_query [97]) ∧ view_ok (apply_filter (demo_query [97])))
      ∧ ∀ s1, get_files (some demo_dir) (fun _ => none) initial_state = .ok s1 → view_ok s1 :=
  have hv : view_ok (demo_query [97]) := by unfold view_ok; decide
  ⟨⟨hv, view_is_subsequence.2.1 (demo_query [97]) (by decide) hv⟩,
    fun s1 h => view_is_subsequence.1 _ _ _ s1 h⟩

/-! ## Navigation: claims C6 to C10 -/

/-- C6: in every reachable state `page_size` is positive and the navigation
invariant holds (on a non-empty view `idx < N`, `page = idx / page_size`,
`cursor = idx % page_size`, hence `idx = page * page_size + cursor`); the six
moves, `apply_filter`, `clear_search`, the resize block, `delete_selected`,
`enter_directory` and `go_to_parent` each preserve the invariant. -/
theorem navigation_invariant :
    (∀ s : State, Reachable s →
        0 < s.page_size ∧ nav_inv s
          ∧ (0 < s.filtered.length → s.idx = s.page * s.page_size + s.cursor))
      ∧ (∀ s : State, 0 < s.page_size → nav_inv s →
          nav_inv (move_to_previous s).2 ∧ nav_inv (move_to_next s).2
            ∧ nav_inv (move_to_first s).2 ∧ nav_inv (move_to_last s).2
            ∧ nav_inv (move_page_up s).2 ∧ nav_inv (move_page_down s).2)
      ∧ (∀ s : State, nav_inv (apply_filter s) ∧ nav_inv (clear_search s))
      ∧ (∀ (ioctl : Option (Nat × Nat)) (s : State),
          0 < (handle_resize ioctl s).page_size ∧ nav_inv (handle_resize ioctl s))
      ∧ (∀ (env : Env) (s s1 : State) (input rest : List Nat), nav_inv s →
          delete_selected env s input = some (.ok s1, rest) → nav_inv s1)
      ∧ (∀ (env : Env) (s s1 : State), nav_inv s → enter_directory env s = .ok s1 → nav_inv s1)
      ∧ (∀ (env : Env) (s s1 : State), nav_inv s → go_to_parent env s = .ok s1 → nav_inv s1) := by
  refine ⟨?_, moves_nav_inv, ?_, handle_resize_nav_inv, ?_, ?_, ?_⟩
  · intro s hs
    have h := reachable_session_inv hs
    exact ⟨h.1, h.2.1, fun hN => (nav_inv_eq h.1 hN h.2.1).2.1⟩
  · intro s
    exact ⟨(nav_at_origin (s := apply_filter s) rfl rfl rfl).1, clear_search_nav_inv s⟩
  · intro env s s1 input rest h hd
    exact delete_selected_nav_inv h hd
  · intro env s s1 h hd
    exact enter_directory_nav_inv h hd
  · intro env s s1 h hd
    exact go_to_parent_nav_inv h hd

/-- C6 at the session started on `A`, `a10`, `a2`, `b` (two rows per page) and
at the move to the last entry from there. -/
theorem navigation_invariant_witness :
    (0 < demo_state.page_size ∧ nav_inv demo_state)
      ∧ nav_inv (move_to_last demo_state).2
      ∧ (move_to_last demo_state).2.idx = 3 ∧ (move_to_last demo_state).2.page = 1
      ∧ (move_to_last demo_state).2.cursor = 1 :=
  have hs : Reachable demo_state :=
    Reachable.start (some (5, 80)) (some demo_dir) (fun _ => none) none demo_state rfl
  have h := navigation_invariant.1 demo_state hs
  ⟨⟨h.1, h.2.1⟩, (navigation_invariant.2.1 demo_state h.1 h.2.1).2.2.2.1, rfl, rfl, rfl⟩

/-- C7: in a state satisfying the navigation invariant (with `page_size >= 1`,
as it is from start-up on) each of the six moves returns `true` (full redraw)
exactly when it changes `page`. -/
theorem redraw_iff_page_changed (s : State) (hps : 0 < s.page_size) (hinv : nav_inv s) :
    ((move_to_previous s).1 = true ↔ (move_to_previous s).2.page ≠ s.page)
      ∧ ((move_to_next s).1 = true ↔ (move_to_next s).2.page ≠ s.page)
      ∧ ((move_to_first s).1 = true ↔ (move_to_first s).2.page ≠ s.page)
      ∧ ((move_to_last s).1 = true ↔ (move_to_last s).2.page ≠ s.page)
      ∧ ((move_page_up s).1 = true ↔ (move_page_up s).2.page ≠ s.page)
      ∧ ((move_page_down s).1 = true ↔ (move_page_down s).2.page ≠ s.page) :=
  moves_redraw s hps hinv

/-- C7 at entry 1 of 4 with two rows per page: the next entry is on the next
page, so `move_to_next` asks for a redraw. -/
theorem redraw_iff_page_changed_witness :
    (0 < (demo_at 1).page_size ∧ nav_inv (demo_at 1))
      ∧ ((move_to_next (demo_at 1)).1 = true ↔ (move_to_next (demo_at 1)).2.page ≠ (demo_at 1).page)
      ∧ (move_to_next (demo_at 1)).1 = true :=
  have hinv : nav_inv (demo_at 1) := by unfold nav_inv; decide
  ⟨⟨by decide, hinv⟩, (redraw_iff_page_changed (demo_at 1) (by decide) hinv).2.1, rfl⟩

/-- C8: on a view of length `N > 0`, in a state satisfying the navigation
invariant (with `page_size >= 1`), `move_to_next` sets `idx` to `(idx + 1) % N` and `move_to_previous`
to `(idx + N - 1) % N` (from 0 to `N - 1`, from `N - 1` to 0), with `page` and
`cursor` the quotient and remainder of the new `idx` by `page_size`. -/
theorem next_previous_wrap (s : State) (hps : 0 < s.page_size) (hN : 0 < s.filtered.length)
    (hinv : nav_inv s) :
    ((move_to_next s).2.idx = (s.idx + 1) % s.filtered.length
        ∧ (move_to_next s).2.page = (move_to_next s).2.idx / s.page_size
        ∧ (move_to_next s).2.cursor = (move_to_next s).2.idx % s.page_size)
      ∧ ((move_to_previous s).2.idx = (s.idx + s.filtered.length - 1) % s.filtered.length
        ∧ (move_to_previous s).2.page = (move_to_previous s).2.idx / s.page_size
        ∧ (move_to_previous s).2.cursor = (move_to_previous s).2.idx % s.page_size)
      ∧ (s.idx = 0 → (move_to_previous s).2.idx = s.filtered.length - 1)
      ∧ (s.idx = s.filtered.length - 1 → (move_to_next s).2.idx = 0) := by
  have hn := (move_to_next_eq s hps hN hinv).1
  have hp := (move_to_previous_eq s hps hN hinv).1
  refine ⟨by rw [hn]; exact ⟨rfl, rfl, rfl⟩, by rw [hp]; exact ⟨rfl, rfl, rfl⟩, ?_, ?_⟩
  · intro h0
    rw [hp]
    show (s.idx + s.filtered.length - 1) % s.filtered.length = s.filtered.length - 1
    rw [h0, Nat.zero_add]
    exact Nat.mod_eq_of_lt (by omega)
  · intro hl
    rw [hn]
    show (s.idx + 1) % s.filtered.length = 0
    have : s.idx + 1 = s.filtered.length := by omega
    rw [this, Nat.mod_self]

/-- C8 at the last entry of 4: `move_to_next` wraps to entry 0. -/
theorem next_previous_wrap_witness :
    (0 < (demo_at 3).page_size ∧ 0 < (demo_at 3).filtered.length ∧ nav_inv (demo_at 3))
      ∧ (move_to_next (demo_at 3)).2.idx = (3 + 1) % 4
      ∧ (move_to_previous (demo_at 3)).2.idx = (3 + 4 - 1) % 4 :=
  have hinv : nav_inv (demo_at 3) := by unfold nav_inv; decide
  ⟨⟨by decide, by decide, hinv⟩,
    (next_previous_wrap (demo_at 3) (by decide) (by decide) hinv).1.1,
    (next_previous_wrap (demo_at 3) (by decide) (by decide) hinv).2.1.1⟩

/-- C9: in every reachable state `move_page_up` is two-phase: with `cursor > 0`
it sets `cursor` to 0 and `idx` to `page * page_size`, keeps `page` and returns
`false`; with `cursor = 0` and `page > 0` it decrements `page`, sets `idx` to
the new `page * page_size` with `cursor` 0 and returns `true`; with
`cursor = 0` and `page = 0` it changes nothing and returns `false`. -/
theorem move_page_up_two_phase (s : State) (hs : Reachable s) :
    (s.cursor > 0 →
        move_page_up s = (false, { s with idx := s.page * s.page_size, cursor := 0 }))
      ∧ (s.cursor = 0 → s.page > 0 →
        move_page_up s =
          (true, { s with page := s.page - 1, idx := (s.page - 1) * s.page_size, cursor := 0 }))
      ∧ (s.cursor = 0 → s.page = 0 → move_page_up s = (false, s)) := by
  have ho := (reachable_session_inv hs).2.2.1
  by_cases hN : s.filtered.length = 0
  · rcases ho hN with ⟨_, hp, hc⟩
    refine ⟨fun h => by omega, fun _ h => by omega, fun _ _ => (move_empty s hN).2.2.2.2.1⟩
  · unfold move_page_up
    rw [if_neg hN]
    refine ⟨?_, ?_, ?_⟩
    · intro h
      rw [if_neg (by omega)]
    · intro h1 h2
      rw [if_pos h1, if_neg (by omega)]
    · intro h1 h2
      rw [if_pos h1, if_pos h2]

/-- C9 at the last entry of 4 (two rows per page), reached from start-up with
the key `G`: the cursor is on row 1, so it goes to row 0 of the same page. -/
theorem move_page_up_two_phase_witness :
    Reachable (demo_at 3)
      ∧ move_page_up (demo_at 3) = (false, { demo_at 3 with idx := 2, cursor := 0 }) :=
  have h0 : Reachable demo_state :=
    Reachable.start (some (5, 80)) (some demo_dir) (fun _ => none) none demo_state rfl
  have h1 : Reachable (demo_at 3) :=
    Reachable.step (quiet_env none) demo_state [71] (demo_at 3) [] h0 rfl
  ⟨h1, (move_page_up_two_phase (demo_at 3) h1).1 (by decide)⟩

/-- C10 as stated fails on an empty view: right after start-up in an empty
directory `move_page_down` changes nothing, and the resulting `idx` (0) is not
below `N` (0). -/
theorem move_page_down_empty_view :
    startup (some (24, 80)) (some []) (fun _ => none) none = .ok empty_dir_state
      ∧ move_page_down empty_dir_state = (false, empty_dir_state)
      ∧ ¬ (move_page_down empty_dir_state).2.idx < empty_dir_state.filtered.length :=
  ⟨rfl, rfl, by decide⟩

/-- C10, amended: on a view of length `N > 0`, in a state satisfying the
navigation invariant (with `page_size >= 1`), `move_page_down` is two-phase: if `cursor` is not the
bottom row of `page` it moves there (`idx = page * page_size + bottom`) without
changing `page` and returns `false`; if it is and `page` is before the last page
it goes to `page + 1`, landing on that page's bottom row, and returns `true`; if
it is and `page` is the last page it changes nothing and returns `false`; in
every case the resulting `idx` is below `N`. -/
theorem move_page_down_two_phase (s : State) (hps : 0 < s.page_size)
    (hN : 0 < s.filtered.length) (hinv : nav_inv s) :
    (s.cursor ≠ bottom_row s s.page →
        move_page_down s =
          (false, { s with idx := s.page * s.page_size + bottom_row s s.page,
                           cursor := bottom_row s s.page }))
      ∧ (s.cursor = bottom_row s s.page → s.page < last_page s →
        move_page_down s =
          (true, { s with page := s.page + 1,
                          idx := (s.page + 1) * s.page_size + bottom_row s (s.page + 1),
                          cursor := bottom_row s (s.page + 1) }))
      ∧ (s.cursor = bottom_row s s.page → s.page = last_page s →
        move_page_down s = (false, s))
      ∧ (move_page_down s).2.idx < s.filtered.length := by
  have hN0 : ¬ s.filtered.length = 0 := by omega
  refine ⟨?_, ?_, ?_, ?_⟩
  · intro h
    unfold move_page_down
    rw [if_neg hN0]
    unfold bottom_row last_page at h ⊢
    simp only
    rw [if_neg h]
  · intro h1 h2
    unfold move_page_down
    rw [if_neg hN0]
    unfold bottom_row last_page at h1 ⊢
    unfold last_page at h2
    simp only
    rw [if_pos h1, if_neg (by omega)]
  · intro h1 h2
    unfold move_page_down
    rw [if_neg hN0]
    unfold bottom_row last_page at h1
    unfold last_page at h2
    simp only
    rw [if_pos h1, if_pos (by omega)]
  · rcases move_page_down_nav s hps hinv with ⟨h1, _, h3, _⟩
    have := (h1 (by rw [h3]; exact hN)).1
    rw [h3] at this
    exact this

/-- C10, amended, at entry 0 of 4 (two rows per page): the cursor goes to the
bottom row of page 0. -/
theorem move_page_down_two_phase_witness :
    (0 < (demo_at 0).page_size ∧ 0 < (demo_at 0).filtered.length ∧ nav_inv (demo_at 0))
      ∧ move_page_down (demo_at 0) = (false, { demo_at 0 with idx := 1, cursor := 1 })
      ∧ (move_page_down (demo_at 0)).2.idx < (demo_at 0).filtered.length :=
  have hinv : nav_inv (demo_at 0) := by unfold nav_inv; decide
  ⟨⟨by decide, by decide, hinv⟩,
    (move_page_down_two_phase (demo_at 0) (by decide) (by decide) hinv).1 (by decide),
    (move_page_down_two_phase (demo_at 0) (by decide) (by decide) hinv).2.2.2⟩

/-! ## Search and deletion: claims C11 to C13 -/

/-- C11: on a sorted catalog with distinct non-empty names (each shorter than
`PATH_MAX`, as every `d_name` is), for every query and every selected index
`idx < filtered_size`, `clear_search` leaves the query empty, the cursor of the
query at 0 and the search box closed, keeps the catalog, restores the view to
the whole catalog with every match offset 0, and selects the position in the
catalog of the entry that was selected before the call, with
`page = idx / page_size` and `cursor = idx % page_size`. -/
theorem clear_search_restores (s : State) (hcat : catalog_ok s.files)
    (hsorted : List.Sorted (fun a b => strcmp a b ≤ 0) (s.files.map (fun f => f.name)))
    (hnodup : (s.files.map (fun f => f.name)).Nodup)
    (hname : ∀ f ∈ s.files, f.name ≠ [] ∧ f.name.length < PATH_MAX)
    (hview : view_ok s) (hidx : s.idx < s.filtered.length) :
    (clear_search s).search_len = 0 ∧ cstr (clear_search s).search_query = []
      ∧ (clear_search s).search_cursor = 0 ∧ (clear_search s).search_open = false
      ∧ (clear_search s).files = s.files
      ∧ (clear_search s).filtered
          = (List.range s.files.length).map (fun i => (⟨i, 0⟩ : filtered_file))
      ∧ (clear_search s).idx = (s.filtered.getD s.idx default).idx
      ∧ file_at (clear_search s) (clear_search s).idx = file_at s s.idx
      ∧ (clear_search s).page = (clear_search s).idx / (clear_search s).page_size
      ∧ (clear_search s).cursor = (clear_search s).idx % (clear_search s).page_size := by
  have hsel : (s.filtered.getD s.idx default).idx < s.files.length :=
    hview.2.1 _ (getD_mem s.filtered default hidx)
  have hf : (apply_filter (empty_query s)).filtered = identity_view s.files.length :=
    apply_filter_filtered_empty rfl
  rw [clear_search_eq hcat hsorted hnodup hname hsel hidx]
  refine ⟨rfl, cstr_set_zero _, rfl, rfl, rfl, ?_, rfl, ?_, rfl, rfl⟩
  · show (apply_filter (empty_query s)).filtered = _
    rw [hf, identity_view_eq hcat.1]
  · show s.files.getD (((apply_filter (empty_query s)).filtered.getD
      (s.filtered.getD s.idx default).idx default).idx) default = _
    rw [hf, identity_view_getD hcat.1 hsel]
    rfl

/-- C11 at the query `b` on the catalog `A`, `a10`, `a2`, `b`: the view holds
the one entry `b`, and clearing the search selects it at its catalog position 3
(page 1, row 1 with two rows per page) in the view of all 4 entries. -/
theorem clear_search_restores_witness :
    (apply_filter (demo_query [98])).filtered = [⟨3, 0⟩]
      ∧ (clear_search (apply_filter (demo_query [98]))).idx = 3
      ∧ (clear_search (apply_filter (demo_query [98]))).page = 1
      ∧ (clear_search (apply_filter (demo_query [98]))).cursor = 1
      ∧ (clear_search (apply_filter (demo_query [98]))).filtered.length = 4 := by
  have h := clear_search_restores (apply_filter (demo_query [98]))
    (by unfold catalog_ok; decide) (by decide) (by decide) (by decide)
    (by unfold view_ok; decide) (by decide)
  exact ⟨by decide, h.2.2.2.2.2.2.1, by rw [h.2.2.2.2.2.2.2.2.1, h.2.2.2.2.2.2.1]; rfl,
    by rw [h.2.2.2.2.2.2.2.2.2, h.2.2.2.2.2.2.1]; rfl, by rw [h.2.2.2.2.2.1]; rfl⟩

/-- C12, counterexample: in the directory holding `A`, `a10`, `a2`, `b`, after
Down (ESC `[` `B`) and `/` the search box is open with `idx = 1`; Enter closes
the box and leaves `idx = 1`, `page = 0`, `cursor = 1`, and so does Backspace
(on the empty query). -/
theorem closing_search_keeps_selection :
    (press ["A", "a10", "a2", "b"] [27, 91, 66, 47] (session 24 ["A", "a10", "a2", "b"])).state.map
        (fun s => (s.search_open, s.search_len, s.idx, s.page, s.cursor))
        = some (true, 0, 1, 0, 1)
      ∧ (press ["A", "a10", "a2", "b"] [27, 91, 66, 47, 10]
          (session 24 ["A", "a10", "a2", "b"])).state.map
        (fun s => (s.search_open, s.idx, s.page, s.cursor)) = some (false, 1, 0, 1)
      ∧ (press ["A", "a10", "a2", "b"] [27, 91, 66, 47, 127]
          (session 24 ["A", "a10", "a2", "b"])).state.map
        (fun s => (s.search_open, s.idx, s.page, s.cursor)) = some (false, 1, 0, 1) := by
  refine ⟨?_, ?_, ?_⟩ <;> rfl

/-- C12, amended: when no signal and no resize is pending and the search box is
open, Enter only sets `search_open` to false, and so does Backspace when the
query is empty: `idx`, `page`, `cursor`, the query and the view stay as they
are. -/
theorem closing_search_only_closes (env : Env) (s : State) (input : List Nat)
    (hsig : env.terminate_signal = 0) (hres : env.term_resized = false)
    (hopen : s.search_open = true) :
    main_step env s (10 :: input) = .running { s with search_open := false } input
      ∧ (s.search_len = 0 →
          main_step env s (127 :: input) = .running { s with search_open := false } input) := by
  constructor
  · simp [main_step, getchar, hsig, hres, hopen, search_key]
  · intro h0
    simp [main_step, getchar, hsig, hres, hopen, search_key, h0]

/-- C12, amended, at entry 3 of 4 with the search box open and the query
empty: Enter and Backspace both close the box and leave entry 3 selected. -/
theorem closing_search_only_closes_witness :
    main_step (quiet_env none) { demo_at 3 with search_open := true } [10, 113]
        = .running (demo_at 3) [113]
      ∧ main_step (quiet_env none) { demo_at 3 with search_open := true } [127, 113]
        = .running (demo_at 3) [113] :=
  ⟨(closing_search_only_closes (quiet_env none) { demo_at 3 with search_open := true } [113]
      rfl rfl rfl).1,
    (closing_search_only_closes (quiet_env none) { demo_at 3 with search_open := true } [113]
      rfl rfl rfl).2 rfl⟩

/-- C14: after the initial ESC, `read_escape_sequence` decodes every documented
sequence to its event and leaves every later byte unread: ESC to
double-escape; `[` or `O` followed by `A`, `B`, `C`, `D`, `H`, `F` to Up, Down,
Right, Left, Home, End; followed by `1~`, `3~`, `4~`, `5~`, `6~` to Home, Delete,
End, Page-Up, Page-Down; followed by `1;5C`, `1;5D`, `3;5~` to Ctrl+Right,
Ctrl+Left, Ctrl+Delete. -/
theorem documented_sequences_decode (p : Nat) (hp : p = 91 ∨ p = 79) (rest : List Nat) :
    read_escape_sequence (27 :: rest) = (.ESC_DOUBLE, rest)
      ∧ read_escape_sequence (p :: 65 :: rest) = (.ESC_UP, rest)
      ∧ read_escape_sequence (p :: 66 :: rest) = (.ESC_DOWN, rest)
      ∧ read_escape_sequence (p :: 67 :: rest) = (.ESC_RIGHT, rest)
      ∧ read_escape_sequence (p :: 68 :: rest) = (.ESC_LEFT, rest)
      ∧ read_escape_sequence (p :: 72 :: rest) = (.ESC_HOME, rest)
      ∧ read_escape_sequence (p :: 70 :: rest) = (.ESC_END, rest)
      ∧ read_escape_sequence (p :: 49 :: 126 :: rest) = (.ESC_HOME, rest)
      ∧ read_escape_sequence (p :: 51 :: 126 :: rest) = (.ESC_DELETE, rest)
      ∧ read_escape_sequence (p :: 52 :: 126 :: rest) = (.ESC_END, rest)
      ∧ read_escape_sequence (p :: 53 :: 126 :: rest) = (.ESC_PAGE_UP, rest)
      ∧ read_escape_sequence (p :: 54 :: 126 :: rest) = (.ESC_PAGE_DOWN, rest)
      ∧ read_escape_sequence (p :: 49 :: 59 :: 53 :: 67 :: rest) = (.ESC_CTRL_RIGHT, rest)
      ∧ read_escape_sequence (p :: 49 :: 59 :: 53 :: 68 :: rest) = (.ESC_CTRL_LEFT, rest)
      ∧ read_escape_sequence (p :: 51 :: 59 :: 53 :: 126 :: rest) = (.ESC_CTRL_DELETE, rest) := by
  rcases hp with rfl | rfl <;>
    exact ⟨rfl, rfl, rfl, rfl, rfl, rfl, rfl, rfl, rfl, rfl, rfl, rfl, rfl, rfl, rfl⟩

/-- C14 at the bytes `[1;5C` followed by `q`: Ctrl+Right, with `q` unread. -/
theorem documented_sequences_decode_witness :
    (91 = 91 ∨ 91 = 79)
      ∧ read_escape_sequence [91, 49, 59, 53, 67, 113] = (.ESC_CTRL_RIGHT, [113]) :=
  ⟨Or.inl rfl, (documented_sequences_decode 91 (Or.inl rfl) [113]).2.2.2.2.2.2.2.2.2.2.2.2.1⟩


/-- C15 as stated fails: `[4x` decodes to End, `[3;xy` to Ctrl+Delete and `[1;2C`
to Ctrl+Right, not to "no event". -/
theorem unchecked_continuation_decodes :
    read_escape_sequence [91, 52, 120] = (.ESC_END, [])
      ∧ read_escape_sequence [91, 51, 59, 120, 121] = (.ESC_CTRL_DELETE, [])
      ∧ read_escape_sequence [91, 49, 59, 50, 67] = (.ESC_CTRL_RIGHT, [])
      ∧ (read_escape_sequence [91, 52, 120]).1 ≠ .ESC_NONE :=
  ⟨rfl, rfl, rfl, by decide⟩

/-- C15, amended: a continuation of a numeric-prefixed sequence decodes to "no
event" where the decoder looks at the byte (after `1` or `3` a byte other than
`~` and `;`; after `1;` and a modifier byte, a direction other than `C` and `D`);
the bytes it only consumes are not checked: `4`, `5`, `6` followed by any byte
give End, Page-Up, Page-Down, `3;` followed by any two bytes gives Ctrl+Delete,
and the modifier byte after `1;` may be any byte. -/
theorem numeric_continuation (p : Nat) (hp : p = 91 ∨ p = 79) (rest : List Nat) :
    (∀ b, b ≠ 126 → b ≠ 59 → read_escape_sequence (p :: 49 :: b :: rest) = (.ESC_NONE, rest))
      ∧ (∀ b, b ≠ 126 → b ≠ 59 →
          read_escape_sequence (p :: 51 :: b :: rest) = (.ESC_NONE, rest))
      ∧ (∀ m b, b ≠ 67 → b ≠ 68 →
          read_escape_sequence (p :: 49 :: 59 :: m :: b :: rest) = (.ESC_NONE, rest))
      ∧ (∀ b, read_escape_sequence (p :: 52 :: b :: rest) = (.ESC_END, rest))
      ∧ (∀ b, read_escape_sequence (p :: 53 :: b :: rest) = (.ESC_PAGE_UP, rest))
      ∧ (∀ b, read_escape_sequence (p :: 54 :: b :: rest) = (.ESC_PAGE_DOWN, rest))
      ∧ (∀ m b, read_escape_sequence (p :: 51 :: 59 :: m :: b :: rest) = (.ESC_CTRL_DELETE, rest))
      ∧ (∀ m, read_escape_sequence (p :: 49 :: 59 :: m :: 67 :: rest) = (.ESC_CTRL_RIGHT, rest))
      ∧ (∀ m, read_escape_sequence (p :: 49 :: 59 :: m :: 68 :: rest) = (.ESC_CTRL_LEFT, rest)) :=
  ⟨fun b h1 h2 => decode_1_unknown p b hp rest h1 h2,
    fun b h1 h2 => decode_3_unknown p b hp rest h1 h2,
    fun m b h1 h2 => decode_1_dir_unknown p m b hp rest h1 h2,
    fun b => (decode_unchecked p 0 b hp rest).1,
    fun b => (decode_unchecked p 0 b hp rest).2.1,
    fun b => (decode_unchecked p 0 b hp rest).2.2.1,
    fun m b => (decode_unchecked p m b hp rest).2.2.2.1,
    fun m => (decode_unchecked p m 0 hp rest).2.2.2.2.1,
    fun m => (decode_unchecked p m 0 hp rest).2.2.2.2.2⟩

/-- C15, amended, at `[1x` followed by `q`: no event, `q` unread. -/
theorem numeric_continuation_witness :
    (91 = 91 ∨ 91 = 79) ∧ read_escape_sequence [91, 49, 120, 113] = (.ESC_NONE, [113]) :=
  ⟨Or.inl rfl, (numeric_continuation 91 (Or.inl rfl) [113]).1 120 (by decide) (by decide)⟩

/-- C16 as stated fails: after the prefix `[` the byte `x`, which continues no
documented sequence, is consumed (only `q` after it is left unread); so is `x`
right after ESC; and after the prefix `[4` the byte `x` is consumed and the
event is End. -/
theorem stray_byte_is_consumed :
    read_escape_sequence [91, 120, 113] = (.ESC_NONE, [113])
      ∧ read_escape_sequence [120, 113] = (.ESC_NONE, [113])
      ∧ read_escape_sequence [91, 52, 120, 113] = (.ESC_END, [113])
      ∧ (read_escape_sequence [91, 120, 113]).2 ≠ [120, 113] :=
  ⟨rfl, rfl, rfl, by decide⟩

/-- C16, amended: a proper prefix of a documented sequence followed by a byte
`b` that continues no documented sequence decodes to "no event" when the prefix
is empty, `[` or `O`, `[1` or `[3` (also with `O`), or `[1;` with its modifier
byte; `b` itself is consumed (there is no push-back) and every byte after `b` is
left unread. -/
theorem stray_byte_no_event (b : Nat) (rest : List Nat) :
    (b ≠ 27 → b ≠ 91 → b ≠ 79 → read_escape_sequence (b :: rest) = (.ESC_NONE, rest))
      ∧ ∀ p, p = 91 ∨ p = 79 →
        ((b ≠ 65 ∧ b ≠ 66 ∧ b ≠ 67 ∧ b ≠ 68 ∧ b ≠ 72 ∧ b ≠ 70 ∧ b ≠ 49 ∧ b ≠ 51 ∧ b ≠ 52
            ∧ b ≠ 53 ∧ b ≠ 54 → read_escape_sequence (p :: b :: rest) = (.ESC_NONE, rest))
          ∧ (b ≠ 126 → b ≠ 59 →
              read_escape_sequence (p :: 49 :: b :: rest) = (.ESC_NONE, rest))
          ∧ (b ≠ 126 → b ≠ 59 →
              read_escape_sequence (p :: 51 :: b :: rest) = (.ESC_NONE, rest))
          ∧ (b ≠ 67 → b ≠ 68 → ∀ m,
              read_escape_sequence (p :: 49 :: 59 :: m :: b :: rest) = (.ESC_NONE, rest))) :=
  ⟨fun h1 h2 h3 => decode_first_unknown b rest h1 h2 h3,
    fun p hp =>
      ⟨fun hb => decode_code_unknown p b hp rest hb,
        fun h1 h2 => decode_1_unknown p b hp rest h1 h2,
        fun h1 h2 => decode_3_unknown p b hp rest h1 h2,
        fun h1 h2 m => decode_1_dir_unknown p m b hp rest h1 h2⟩⟩

/-- C16, amended, at `[` followed by `x` and `q`: no event, `x` consumed, `q`
unread. -/
theorem stray_byte_no_event_witness :
    read_escape_sequence [91, 120, 113] = (.ESC_NONE, [113]) :=
  ((stray_byte_no_event 120 [113]).2 91 (Or.inl rfl)).1 (by decide)

/-- C17: on every input that ends before a sequence is complete (`truncated`:
nothing after ESC, only `[` or `O`, only that and one of the digits `1`, `3`,
`4`, `5`, `6`, or `1;`/`3;` with at most one more byte) `read_escape_sequence`
returns "no event"; on every other input it returns without reading past the
end, since bytes appended to the input are left unread. -/
theorem end_of_input_no_event :
    (∀ input, truncated input = true → read_escape_sequence input = (.ESC_NONE, []))
      ∧ (∀ input extra, truncated input = false →
          read_escape_sequence (input ++ extra)
            = ((read_escape_sequence input).1, (read_escape_sequence input).2 ++ extra)) :=
  ⟨truncated_none, not_truncated_append⟩

/-- C17 at the input `[1;` (end of input where the modifier byte is read). -/
theorem end_of_input_no_event_witness :
    truncated [91, 49, 59] = true ∧ read_escape_sequence [91, 49, 59] = (.ESC_NONE, []) :=
  ⟨rfl, end_of_input_no_event.1 [91, 49, 59] rfl⟩

/-! ## The query buffer: claims C18 and C19 -/

/-- C18: the query buffer stays within its bounds: `search_cursor <= search_len
<= 255`, the buffer keeps its 256 bytes and the byte at `search_len` is NUL.
This holds in the initial state, is kept by every sequence of editing
operations (the eight `search_*` functions, cursor left, right, home and end,
`clear_search`), and holds in every reachable state. -/
theorem query_buffer_bounds :
    query_inv initial_state
      ∧ (∀ (es : List Edit) (s : State), query_inv s → query_inv (edits es s))
      ∧ (∀ s : State, Reachable s → query_inv s) :=
  ⟨(query_inv_iff _).mpr ⟨[], same_initial_query_state ⟨rfl, rfl, rfl⟩⟩,
    fun es s h => query_step_inv (edits_step es s) h,
    fun _ h => printable_query_inv (reachable_printable_query h)⟩

/-- C18 at the query `ab` with the cursor at the end: cursor left, insert `x`,
delete to the start of the line leave the query `b` with the cursor at 0. -/
theorem query_buffer_bounds_witness :
    query_inv (demo_query [97, 98])
      ∧ query_inv (edits [.cursor_left, .insert_char 120, .delete_to_start] (demo_query [97, 98]))
      ∧ cstr (edits [.cursor_left, .insert_char 120, .delete_to_start]
          (demo_query [97, 98])).search_query = [98]
      ∧ Reachable demo_state ∧ query_inv demo_state :=
  have h : query_inv (demo_query [97, 98]) :=
    (query_inv_iff _).mpr ⟨[97, 98], demo_query_state [97, 98] (by decide) 2 (Nat.le_refl _)⟩
  have h0 : Reachable demo_state :=
    Reachable.start (some (5, 80)) (some demo_dir) (fun _ => none) none demo_state rfl
  ⟨h, query_buffer_bounds.2.1 _ _ h, by decide, h0, query_buffer_bounds.2.2 _ h0⟩

/-- C19: while the search box has focus a byte `b` in `32..126` is inserted at
the query cursor and the filter runs: for a query `q` shorter than 255 bytes
with the cursor at `c`, the pass of the loop that reads `b` leaves the query
`q[0..c] ++ [b] ++ q[c..]`, the cursor at `c + 1` and the length one more.
A byte outside `32..126` is not inserted by `search_insert_char`, and in every
reachable state every byte of the query is in `32..126`. -/
theorem printable_byte_inserts :
    (∀ (env : Env) (s : State) (q input : List Nat) (b : Nat),
        env.terminate_signal = 0 → s.search_open = true → query_state s q →
        32 ≤ b ∧ b < 127 → q.length < 255 →
        ∃ s1, main_step env s (b :: input) = .running (apply_filter s1) input
          ∧ s1 = search_insert_char b
              (if env.term_resized = true then handle_resize env.winsize s else s)
          ∧ query_state (apply_filter s1) (q.take s.search_cursor ++ b :: q.drop s.search_cursor)
          ∧ (apply_filter s1).search_cursor = s.search_cursor + 1
          ∧ (apply_filter s1).search_len = s.search_len + 1)
      ∧ (∀ (b : Nat) (s : State), ¬ (32 ≤ b ∧ b < 127) → search_insert_char b s = s)
      ∧ (∀ s : State, Reachable s → printable_query s) := by
  refine ⟨?_, fun b s h => search_insert_char_refused (Or.inl h),
    fun _ h => reachable_printable_query h⟩
  intro env s q input b hsig hopen hq hb hlen
  have hsame : same_query (if env.term_resized = true then handle_resize env.winsize s else s) s := by
    split
    · exact handle_resize_same_query _ s
    · exact ⟨rfl, rfl, rfl⟩
  have hq1 : query_state (if env.term_resized = true then handle_resize env.winsize s else s) q := by
    rcases hq with ⟨⟨h1, rest, h2⟩, h3, h4, h5⟩
    exact ⟨⟨by rw [hsame.2.1, h1], rest, by rw [hsame.1, h2]⟩, by rw [hsame.1, h3],
      by rw [hsame.2.2]; exact h4, h5⟩
  have hins := search_insert_char_state hq1 hb hlen
  rw [hsame.2.2] at hins
  refine ⟨_, main_step_printable env s input b hsig hopen hb, rfl, hins.1, hins.2, ?_⟩
  show (search_insert_char b
    (if env.term_resized = true then handle_resize env.winsize s else s)).search_len = _
  rw [hins.1.1.1, hq.1.1]
  simp only [List.length_append, List.length_take, List.length_cons, List.length_drop]
  have := hq.2.2.1
  omega

/-- C19 at the query `ab` with the cursor moved to offset 1: the byte `x` gives
the query `axb` with the cursor at 2; the byte 200 is not inserted. -/
theorem printable_byte_inserts_witness :
    main_step (quiet_env none) { demo_query [97, 98] with search_cursor := 1 } [120]
        = .running (apply_filter
            (search_insert_char 120 { demo_query [97, 98] with search_cursor := 1 })) []
      ∧ cstr (apply_filter (search_insert_char 120
          { demo_query [97, 98] with search_cursor := 1 })).search_query = [97, 120, 98]
      ∧ search_insert_char 200 (demo_query [97, 98]) = demo_query [97, 98]
      ∧ printable_query demo_state := by
  have hq : query_state { demo_query [97, 98] with search_cursor := 1 } [97, 98] :=
    demo_query_state [97, 98] (by decide) 1 (by decide)
  obtain ⟨s1, h1, h2, -⟩ := printable_byte_inserts.1 (quiet_env none) _ [97, 98] [] 120
    rfl rfl hq (by decide) (by decide)
  have h0 : Reachable demo_state :=
    Reachable.start (some (5, 80)) (some demo_dir) (fun _ => none) none demo_state rfl
  rw [h2] at h1
  exact ⟨h1, by decide, printable_byte_inserts.2.1 200 _ (by decide),
    printable_byte_inserts.2.2 _ h0⟩

/-! ## The cursor history: claim C20 -/

/-- C20: a descent followed by an ascent restores the cursor.  When the view is
not empty, the selected entry is a directory (by its `d_type` or by `stat`),
both `chdir` calls succeed and the history stack holds fewer than 64 entries,
`enter_directory` from the selected index `i` followed by `go_to_parent` into a
view of more than `i` entries leaves `idx = i`, `page = i / page_size`,
`cursor = i % page_size` and the history stack as it was before the descent. -/
theorem descent_ascent_restores (env1 env2 : Env) (s s1 s2 : State)
    (hN : 0 < s.filtered.length)
    (hdir : (file_at s s.idx).type = DT_DIR ∨ env1.stat_is_dir = true)
    (hcd1 : env1.chdir_ok = true) (hcd2 : env2.chdir_ok = true)
    (hstack : s.cursor_stack.length < 64)
    (h1 : enter_directory env1 s = .ok s1) (h2 : go_to_parent env2 s1 = .ok s2)
    (hview : s.idx < s2.filtered.length) :
    s2.idx = s.idx ∧ s2.page = s.idx / s2.page_size ∧ s2.cursor = s.idx % s2.page_size
      ∧ s2.cursor_stack = s.cursor_stack ∧ s2.page_size = s.page_size := by
  have hp := enter_directory_pushes hN hdir hcd1 hstack h1
  have hq := go_to_parent_pops hcd2 hp.1 h2 hview
  exact ⟨hq.1, hq.2.1, hq.2.2.1, hq.2.2.2.1, by rw [hq.2.2.2.2, hp.2.1]⟩

/-- C20 at entry 3 of the directory `A`, `a10`, `a2`, `b` (two rows per page):
after the descent into an empty directory the selection is at 0 with the index
3 on the stack, and the ascent back selects entry 3 again on page 1, row 1,
with an empty stack. -/
theorem descent_ascent_restores_witness :
    (∃ s1, enter_directory (quiet_env (some [])) (demo_at 3) = .ok s1
        ∧ s1.idx = 0 ∧ s1.cursor_stack = [3])
      ∧ ∃ s1 s2, enter_directory (quiet_env (some [])) (demo_at 3) = .ok s1
        ∧ go_to_parent (quiet_env (some demo_dir)) s1 = .ok s2
        ∧ s2.idx = 3 ∧ s2.page = 1 ∧ s2.cursor = 1 ∧ s2.cursor_stack = [] := by
  have h1 : enter_directory (quiet_env (some [])) (demo_at 3)
      = .ok { demo_at 3 with
              files := [], filtered := [], idx := 0, page := 0, cursor := 0,
              cursor_stack := [3], search_open := false } := rfl
  have h2 : go_to_parent (quiet_env (some demo_dir))
      { demo_at 3 with
        files := [], filtered := [], idx := 0, page := 0, cursor := 0,
        cursor_stack := [3], search_open := false } = .ok (demo_at 3) := rfl
  have h := descent_ascent_restores (quiet_env (some [])) (quiet_env (some demo_dir))
    (demo_at 3) _ _ (by decide) (Or.inr rfl) rfl rfl (by decide) h1 h2 (by decide)
  exact ⟨⟨_, h1, rfl, rfl⟩, _, _, h1, h2, h.1, by rw [h.2.1]; rfl, by rw [h.2.2.1]; rfl,
    by rw [h.2.2.2.1]; rfl⟩

/-! ## The cursor history: claims C21 and C22 -/

/-- C21: when `chdir("..")` succeeds, `go_to_parent` selects 0 on an empty
history stack and leaves the stack empty; otherwise it pops the last saved
index `i`, selects it when `i < N` and `N - 1` when `i >= N` (`N` the length of
the new view; 0 when `N = 0`), and the stack is the old one without its last
entry.  The stack size goes down by exactly one when it was not empty, and
`page = idx / page_size`, `cursor = idx % page_size`. -/
theorem ascent_pops_and_clamps (env : Env) (s s1 : State) (hcd : env.chdir_ok = true)
    (h : go_to_parent env s = .ok s1) :
    (s.cursor_stack = [] → s1.idx = 0 ∧ s1.cursor_stack = [])
      ∧ (∀ stack i, s.cursor_stack = stack ++ [i] →
          s1.idx = (if i ≥ s1.filtered.length then s1.filtered.length - 1 else i)
            ∧ (s1.filtered.length = 0 → s1.idx = 0)
            ∧ s1.cursor_stack = stack
            ∧ s1.cursor_stack.length + 1 = s.cursor_stack.length)
      ∧ s1.page = s1.idx / s1.page_size ∧ s1.cursor = s1.idx % s1.page_size := by
  obtain ⟨s2, -, rfl, hst, -⟩ := go_to_parent_unfold hcd h
  have hp := set_page_cursor_page (pop_cursor s2)
  rcases set_page_cursor_frame (pop_cursor s2) with ⟨-, f2, f3, f4, f5⟩
  refine ⟨?_, ?_, by rw [hp.1, f4, f3], by rw [hp.2, f4, f3]⟩
  · intro hnil
    rw [f4, f5, pop_cursor_nil (hst.trans hnil)]
    exact ⟨rfl, hst.trans hnil⟩
  · intro stack i hs
    rw [f4, f5, f2, pop_cursor_concat (hst.trans hs)]
    refine ⟨rfl, ?_, rfl, by rw [hs]; simp⟩
    intro h0
    show (if i ≥ s2.filtered.length then s2.filtered.length - 1 else i) = 0
    have h0 : s2.filtered.length = 0 := h0
    rw [if_pos (by omega), h0]

/-- C21 at a stack holding the index 7 and a parent directory of 4 entries:
the index is clamped to 3 (page 1, row 1 with two rows per page) and the stack
is empty afterwards. -/
theorem ascent_pops_and_clamps_witness :
    go_to_parent (quiet_env (some demo_dir)) { demo_state with cursor_stack := [7] }
        = .ok (demo_at 3)
      ∧ (demo_at 3).idx = 3 ∧ (demo_at 3).cursor_stack = [] ∧ (demo_at 3).page = 1
      ∧ (demo_at 3).cursor = 1 :=
  have h : go_to_parent (quiet_env (some demo_dir)) { demo_state with cursor_stack := [7] }
      = .ok (demo_at 3) := rfl
  have h1 := ascent_pops_and_clamps (quiet_env (some demo_dir))
    { demo_state with cursor_stack := [7] } (demo_at 3) rfl h
  ⟨h, (h1.2.1 [] 7 rfl).1.trans (by decide), (h1.2.1 [] 7 rfl).2.2.1, h1.2.2.1.trans (by decide),
    h1.2.2.2.trans (by decide)⟩

/-- C22: on a successful descent (the view is not empty, the selected entry is
a directory by its `d_type` or by `stat`, `chdir` succeeds) `enter_directory`
appends the current `idx` to the history stack when the stack holds fewer than
64 entries and leaves the stack as it is when it holds 64; in both cases the
query is empty, the search box closed and `idx`, `cursor`, `page` are 0. -/
theorem descent_pushes_and_resets (env : Env) (s s1 : State) (hN : 0 < s.filtered.length)
    (hdir : (file_at s s.idx).type = DT_DIR ∨ env.stat_is_dir = true)
    (hcd : env.chdir_ok = true) (h : enter_directory env s = .ok s1) :
    (s.cursor_stack.length < 64 → s1.cursor_stack = s.cursor_stack ++ [s.idx])
      ∧ (s.cursor_stack.length = 64 → s1.cursor_stack = s.cursor_stack)
      ∧ s1.search_len = 0 ∧ cstr s1.search_query = [] ∧ s1.search_cursor = 0
      ∧ s1.search_open = false ∧ s1.idx = 0 ∧ s1.cursor = 0 ∧ s1.page = 0 := by
  have hu := enter_directory_unfold hN hdir hcd h
  refine ⟨fun hlt => by rw [hu.1, if_pos hlt], fun h64 => by rw [hu.1, if_neg (by omega)],
    hu.2.1.2.1, ?_, hu.2.1.2.2, hu.2.2.1, hu.2.2.2.1, hu.2.2.2.2.1, hu.2.2.2.2.2.1⟩
  rw [hu.2.1.1]
  exact cstr_set_zero _

/-- C22 at entry 3 of 4 with the query `a` typed: with an empty stack the
descent pushes 3; with a stack of 64 entries the stack stays as it is. -/
theorem descent_pushes_and_resets_witness :
    (enter_directory (quiet_env (some [])) { demo_query [97] with idx := 3, page := 1, cursor := 1 }
        = .ok { empty_query (demo_query [97]) with files := [], filtered := [], cursor_stack := [3] }
      ∧ (empty_query (demo_query [97])).search_len = 0 ∧ (empty_query (demo_query [97])).idx = 0)
      ∧ ∃ s1, enter_directory (quiet_env (some []))
          { demo_at 3 with cursor_stack := List.replicate 64 5 } = .ok s1
        ∧ s1.cursor_stack = List.replicate 64 5 :=
  have h1 : enter_directory (quiet_env (some []))
      { demo_query [97] with idx := 3, page := 1, cursor := 1 }
      = .ok { empty_query (demo_query [97]) with
              files := [], filtered := [], cursor_stack := [3] } := rfl
  have h2 : enter_directory (quiet_env (some []))
      { demo_at 3 with cursor_stack := List.replicate 64 5 }
      = .ok { demo_state with
              files := [], filtered := [], cursor_stack := List.replicate 64 5 } := rfl
  have c1 := descent_pushes_and_resets _ _ _ (by decide) (Or.inr rfl) rfl h1
  have c2 := descent_pushes_and_resets _ _ _ (by decide) (Or.inr rfl) rfl h2
  ⟨⟨h1, c1.2.2.1, c1.2.2.2.2.2.2.1⟩,
    ⟨_, h2, c2.2.1 (List.length_replicate _ _)⟩⟩

/-! ## The colour table: claim C23 -/

/-- C23, failing inputs: with `LS_COLORS` set to `xx=01` (or to `lc=01`, a key
of GNU `ls` that the table does not have) the unrecognized key makes
`parse_ls_colors` store at `ls_colors[-1]`, outside the table; a short
unrecognized entry before a recognized one (`x:31:di=01;34`) does the same, so
the later entry is not applied; and the recognized entry `no=01` is never
applied.  Recognized keys other than `no` are applied, also after an
unrecognized entry that has no parameters at `start + 3`. -/
theorem unknown_key_stores_outside_table :
    lookup_ls_color (bytes "xx=01") 2 = -1
      ∧ parse_ls_colors (some (bytes "xx=01")) ls_colors_initial = .error (.table_index (-1))
      ∧ parse_ls_colors (some (bytes "lc=01")) ls_colors_initial = .error (.table_index (-1))
      ∧ parse_ls_colors (some (bytes "x:31:di=01;34")) ls_colors_initial
          = .error (.table_index (-1))
      ∧ lookup_ls_color (bytes "no=01") 2 = 0
      ∧ parse_ls_colors (some (bytes "no=01")) ls_colors_initial = .ok ls_colors_initial
      ∧ parse_ls_colors (some (bytes "*.tar=01;31:di=01;34")) ls_colors_initial
          = .ok (ls_colors_initial.set 3 (bytes "01;34" ++ [0, 0, 0, 0])) :=
  ⟨rfl, rfl, rfl, rfl, rfl, rfl, rfl⟩

/-! ## Start-up, scenarios and resize: claims C24 to C26, C28 and C29 -/

/-- C24: start-up with `--start NAME` on a catalog with distinct names (it is
sorted by `get_files`): if `NAME` is the name of the catalog entry at position
`i`, then `idx = i`, `page = i / page_size` and `cursor = i % page_size`; if no
entry is named `NAME`, then `idx`, `page` and `cursor` are 0.  The catalog is
the one `get_files` builds, whatever `NAME` is. -/
theorem start_preselects (ioctl : Option (Nat × Nat)) (dir : Option (List dirent))
    (lstat : List Nat → Option Nat) (name : List Nat) (s : State)
    (h : startup ioctl dir lstat (some name) = .ok s)
    (hnodup : (s.files.map (fun f => f.name)).Nodup) :
    (∀ i, i < s.files.length → (s.files.getD i default).name = cstr name →
        s.idx = i ∧ s.page = i / s.page_size ∧ s.cursor = i % s.page_size)
      ∧ ((∀ f ∈ s.files, f.name ≠ cstr name) → s.idx = 0 ∧ s.page = 0 ∧ s.cursor = 0) := by
  obtain ⟨s1, hg, h1, h2, h3, -, hs⟩ := startup_unfold h
  simp only at hs
  have hcat := (get_files_catalog_ok hg).1
  have hsorted := get_files_sorted hg
  have hfiles : s.files = s1.files := by
    rw [hs]; split <;> rfl
  rw [hfiles] at hnodup ⊢
  constructor
  · intro i hi hname
    have hb : bsearch (compare_name_to_file s1 name) s1.files.length = some i := by
      apply bsearch_catalog hcat hsorted hnodup hi
      intro k _
      unfold compare_name_to_file file_name
      rw [hname, strcmp_cstr_left]
    rw [hb] at hs
    subst hs
    exact ⟨rfl, rfl, rfl⟩
  · intro hnone
    cases hb : bsearch (compare_name_to_file s1 name) s1.files.length with
    | none =>
      rw [hb] at hs
      subst hs
      exact ⟨h1, h2, h3⟩
    | some found =>
      exfalso
      have hlt := bsearch_lt hb
      have hz := bsearch_loop_zero _ _ _ _ _ hb
      unfold compare_name_to_file file_name strcmp at hz
      have hmem := getD_mem s1.files default hlt
      have h0 := (hcat.2 _ hmem).1
      rw [cstr_of_not_mem h0] at hz
      exact hnone _ hmem (cmp_bytes_eq_zero _ _ (not_mem_cstr name) h0 hz).symm

/-- C24 in the directory `b`, `A`, `a10`, `a2`, `.git` on a terminal of 5 rows:
`--start a2` selects entry 2 (page 1, row 0), `--start zz` selects entry 0. -/
theorem start_preselects_witness :
    startup (some (5, 80)) (some demo_dir) (fun _ => none) (some (bytes "a2"))
        = .ok { demo_state with idx := 2, page := 1, cursor := 0 }
      ∧ startup (some (5, 80)) (some demo_dir) (fun _ => none) (some (bytes "zz"))
        = .ok demo_state
      ∧ demo_state.idx = 0 ∧ demo_state.page = 0 ∧ demo_state.cursor = 0 :=
  have h1 : startup (some (5, 80)) (some demo_dir) (fun _ => none) (some (bytes "a2"))
      = .ok { demo_state with idx := 2, page := 1, cursor := 0 } := rfl
  have h2 : startup (some (5, 80)) (some demo_dir) (fun _ => none) (some (bytes "zz"))
      = .ok demo_state := rfl
  have c1 := (start_preselects _ _ _ _ _ h1 (by decide)).1 2 (by decide) (by decide)
  have c2 := (start_preselects _ _ _ _ _ h2 (by decide)).2 (by decide)
  ⟨h1, h2, c2.1, c2.2.1, c2.2.2⟩

/-- C25: the entries `b`, `A`, `a10`, `a2`, `.git` give the catalog `A`, `a10`,
`a2`, `b`; typing `/` and `a` after start-up there shows `A`, `a10`, `a2` with
match offsets 0, 0, 0; typing `/` and `A` shows `A` only. -/
theorem scenario_catalog_and_filter :
    (∃ s1, get_files (some demo_dir) (fun _ => none) initial_state = .ok s1
        ∧ s1.files.map (fun f => f.name) = [bytes "A", bytes "a10", bytes "a2", bytes "b"]
        ∧ view_names s1 = [bytes "A", bytes "a10", bytes "a2", bytes "b"])
      ∧ (press ["b", "A", "a10", "a2", ".git"] (bytes "/a")
          (session 24 ["b", "A", "a10", "a2", ".git"])).state.map
            (fun s => (view_names s, view_offsets s))
          = some ([bytes "A", bytes "a10", bytes "a2"], [0, 0, 0])
      ∧ (press ["b", "A", "a10", "a2", ".git"] (bytes "/A")
          (session 24 ["b", "A", "a10", "a2", ".git"])).state.map
            (fun s => (view_names s, view_offsets s))
          = some ([bytes "A"], [0])
      ∧ view_names (apply_filter (demo_query (bytes "a"))) = [bytes "A", bytes "a10", bytes "a2"]
      ∧ view_offsets (apply_filter (demo_query (bytes "a"))) = [0, 0, 0]
      ∧ view_names (apply_filter (demo_query (bytes "A"))) = [bytes "A"] :=
  ⟨⟨_, rfl, rfl, rfl⟩, rfl, rfl, rfl, rfl, rfl⟩

/-- C26: with `page_size = 2` and a view of 5 entries, `move_to_next` from
`idx = 1` (page 0, row 1) gives `idx = 2`, page 1, row 0 and returns `true`;
from `idx = 4` (page 2, row 0) it gives `idx = 0`, page 0, row 0 and returns
`true`. -/
theorem next_crosses_page_and_wraps (s : State) (hps : s.page_size = 2)
    (hN : s.filtered.length = 5) :
    (s.idx = 1 → s.page = 0 → s.cursor = 1 →
        move_to_next s = (true, { s with idx := 2, page := 1, cursor := 0 }))
      ∧ (s.idx = 4 → s.page = 2 → s.cursor = 0 →
        move_to_next s = (true, { s with idx := 0, page := 0, cursor := 0 })) := by
  constructor
  · intro h1 h2 h3
    unfold move_to_next
    simp [hN, h1, h2, h3, hps]
  · intro h1 h2 h3
    unfold move_to_next
    simp [hN, h1, h2, h3]

/-- C26 on the five files `a` to `e`. -/
theorem next_crosses_page_and_wraps_witness :
    move_to_next (five_at 1) = (true, five_at 2) ∧ move_to_next (five_at 4) = (true, five_at 0) :=
  ⟨(next_crosses_page_and_wraps (five_at 1) rfl rfl).1 rfl rfl rfl,
    (next_crosses_page_and_wraps (five_at 4) rfl rfl).2 rfl rfl rfl⟩

/-- C28: on a resize with a non-empty view the handler sets `page_size` to
`rows - 3` when `rows > 3` and to 1 otherwise (`rows` as `get_win_size` reports
it), keeps `idx` when `idx < N` and sets it to `N - 1` otherwise, sets
`page = idx / page_size` and `cursor = idx % page_size` for the new values, and
leaves the catalog, the view and the query as they are. -/
theorem resize_reclamps (ioctl : Option (Nat × Nat)) (s : State)
    (hN : 0 < s.filtered.length) :
    (handle_resize ioctl s).page_size
        = (if (get_win_size ioctl).1 > 3 then (get_win_size ioctl).1 - 3 else 1)
      ∧ (s.idx < s.filtered.length → (handle_resize ioctl s).idx = s.idx)
      ∧ (s.filtered.length ≤ s.idx → (handle_resize ioctl s).idx = s.filtered.length - 1)
      ∧ (handle_resize ioctl s).page
          = (handle_resize ioctl s).idx / (handle_resize ioctl s).page_size
      ∧ (handle_resize ioctl s).cursor
          = (handle_resize ioctl s).idx % (handle_resize ioctl s).page_size
      ∧ (handle_resize ioctl s).files = s.files
      ∧ (handle_resize ioctl s).filtered = s.filtered
      ∧ (handle_resize ioctl s).search_query = s.search_query
      ∧ (handle_resize ioctl s).search_len = s.search_len
      ∧ (handle_resize ioctl s).search_cursor = s.search_cursor
      ∧ (handle_resize ioctl s).search_open = s.search_open := by
  have hN2 : s.filtered.length > 0 := hN
  have he : handle_resize ioctl s =
      { s with
        page_size := if (get_win_size ioctl).1 > 3 then (get_win_size ioctl).1 - 3 else 1
        win_cols := (get_win_size ioctl).2
        idx := if s.idx ≥ s.filtered.length then s.filtered.length - 1 else s.idx
        page := (if s.idx ≥ s.filtered.length then s.filtered.length - 1 else s.idx)
          / (if (get_win_size ioctl).1 > 3 then (get_win_size ioctl).1 - 3 else 1)
        cursor := (if s.idx ≥ s.filtered.length then s.filtered.length - 1 else s.idx)
          % (if (get_win_size ioctl).1 > 3 then (get_win_size ioctl).1 - 3 else 1) } := by
    unfold handle_resize
    exact if_pos hN2
  rw [he]
  refine ⟨rfl, fun h => ?_, fun h => ?_, rfl, rfl, rfl, rfl, rfl, rfl, rfl, rfl⟩
  · show (if s.idx ≥ s.filtered.length then s.filtered.length - 1 else s.idx) = s.idx
    rw [if_neg (by omega)]
  · show (if s.idx ≥ s.filtered.length then s.filtered.length - 1 else s.idx) = _
    rw [if_pos h]

/-- C28 at entry 3 of 4 when the terminal goes from 5 rows to 8: `page_size`
becomes 5 and entry 3 is on page 0, row 3. -/
theorem resize_reclamps_witness :
    0 < (demo_at 3).filtered.length
      ∧ (handle_resize (some (8, 100)) (demo_at 3)).page_size = 5
      ∧ (handle_resize (some (8, 100)) (demo_at 3)).idx = 3
      ∧ (handle_resize (some (8, 100)) (demo_at 3)).page = 0
      ∧ (handle_resize (some (8, 100)) (demo_at 3)).cursor = 3 :=
  have h := resize_reclamps (some (8, 100)) (demo_at 3) (by decide)
  ⟨by decide, h.1, h.2.1 (by decide), h.2.2.2.1.trans rfl, h.2.2.2.2.1.trans rfl⟩

/-- C29: `page_size` is at least 1 whatever the terminal reports: start-up and
the resize handler both set it to `rows - 3` when `rows > 3` and to 1
otherwise, and it is at least 1 in every reachable state, which is where the
navigation code divides by it. -/
theorem page_size_positive :
    (∀ (ioctl : Option (Nat × Nat)) (dir : Option (List dirent))
        (lstat : List Nat → Option Nat) (start : Option (List Nat)) (s : State),
        startup ioctl dir lstat start = .ok s →
          s.page_size = (if (get_win_size ioctl).1 > 3 then (get_win_size ioctl).1 - 3 else 1)
            ∧ 1 ≤ s.page_size)
      ∧ (∀ (ioctl : Option (Nat × Nat)) (s : State),
          (handle_resize ioctl s).page_size
              = (if (get_win_size ioctl).1 > 3 then (get_win_size ioctl).1 - 3 else 1)
            ∧ 1 ≤ (handle_resize ioctl s).page_size)
      ∧ (∀ s : State, Reachable s → 1 ≤ s.page_size) := by
  have hpos : ∀ rows : Nat, 1 ≤ (if rows > 3 then rows - 3 else 1) := by
    intro rows; split <;> omega
  refine ⟨?_, ?_, fun s hs => (reachable_session_inv hs).1⟩
  · intro ioctl dir lstat start s h
    obtain ⟨s1, -, -, -, -, hps, hs⟩ := startup_unfold h
    have : s.page_size = s1.page_size := by
      rw [hs]
      cases start with
      | none => rfl
      | some name => simp only; split <;> rfl
    rw [this, hps]
    exact ⟨rfl, hpos _⟩
  · intro ioctl s
    have : (handle_resize ioctl s).page_size
        = (if (get_win_size ioctl).1 > 3 then (get_win_size ioctl).1 - 3 else 1) := by
      unfold handle_resize
      simp only
      split <;> rfl
    rw [this]
    exact ⟨rfl, hpos _⟩

/-- C29 on terminals of 0, 3 and 4 rows: `page_size` is 1 each time. -/
theorem page_size_positive_witness :
    (∃ s, startup (some (0, 80)) (some demo_dir) (fun _ => none) none = .ok s ∧ s.page_size = 1)
      ∧ (handle_resize (some (3, 80)) demo_state).page_size = 1
      ∧ (handle_resize (some (4, 80)) demo_state).page_size = 1
      ∧ 1 ≤ demo_state.page_size :=
  have h0 : Reachable demo_state :=
    Reachable.start (some (5, 80)) (some demo_dir) (fun _ => none) none demo_state rfl
  have hs : startup (some (0, 80)) (some demo_dir) (fun _ => none) none
      = .ok { demo_state with page_size := 1 } := rfl
  ⟨⟨_, hs, (page_size_positive.1 _ _ _ _ _ hs).1⟩, (page_size_positive.2.1 _ _).1,
    (page_size_positive.2.1 _ _).1, page_size_positive.2.2 _ h0⟩

/-! ## Rendering: claim C27 -/

/-- C27: for a name longer than the visible width `max_len` while a query is
active (`search_len > 0`), the name block of `print_view` writes
(a) when `match_start >= max_len`: the first `max_len` bytes of the name, then
the ellipsis between underline-on and underline-off;
(b) when `match_start < max_len < match_start + search_len`: the bytes before
the match, underline-on, the bytes `name[match_start .. max_len)`, the ellipsis,
underline-off;
(c) otherwise: the bytes before the match, the whole match between underline-on
and underline-off, the bytes `name[match_end .. max_len)` and the ellipsis.
In each case the name bytes written are the first `max_len` bytes of the name. -/
theorem truncated_name_rendering (name : List Nat) (name_len ms sl ml : Nat)
    (hlen : name_len = name.length) (htr : ml < name_len) (hsl : 0 < sl) :
    (ml ≤ ms →
        print_name name name_len ms sl ml
          = some (name.take ml ++ SGR_UNDERSCORE_ON ++ ELLIPSIS ++ SGR_UNDERLINE_OFF))
      ∧ (ms < ml → ml < ms + sl →
        print_name name name_len ms sl ml
            = some (name.take ms ++ SGR_UNDERSCORE_ON ++ (name.drop ms).take (ml - ms)
                ++ ELLIPSIS ++ SGR_UNDERLINE_OFF)
          ∧ name.take ms ++ (name.drop ms).take (ml - ms) = name.take ml)
      ∧ (ms + sl ≤ ml →
        print_name name name_len ms sl ml
            = some (name.take ms ++ SGR_UNDERSCORE_ON ++ (name.drop ms).take sl
                ++ SGR_UNDERLINE_OFF ++ (name.drop (ms + sl)).take (ml - (ms + sl)) ++ ELLIPSIS)
          ∧ name.take ms ++ (name.drop ms).take sl
              ++ (name.drop (ms + sl)).take (ml - (ms + sl)) = name.take ml) := by
  subst hlen
  have hsl2 : sl > 0 := hsl
  have htr2 : decide (name.length > ml) = true := by simpa using htr
  refine ⟨fun ha => ?_, fun ha hb => ⟨?_, ?_⟩, fun hc => ⟨?_, ?_⟩⟩
  · unfold print_name
    simp only
    rw [if_pos hsl2, if_pos htr2, if_pos ha, write_err_inside name 0 ml (by omega)]
    rfl
  · unfold print_name
    simp only
    rw [if_pos hsl2, if_pos htr2, if_neg (by omega), if_pos hb,
      write_err_inside name 0 ms (by omega), write_err_inside name ms (ml - ms) (by omega)]
    rfl
  · rw [take_split]
    congr 1; omega
  · unfold print_name
    simp only
    rw [if_pos hsl2, if_pos htr2, if_neg (by omega), if_neg (by omega),
      write_err_inside name 0 ms (by omega), write_err_inside name ms sl (by omega),
      write_err_inside name (ms + sl) (ml - (ms + sl)) (by omega)]
    rfl
  · rw [take_split, take_split]
    congr 1; omega

/-- C27 on the name `abcdefgh` with four visible bytes: the match `gh` at 6
lies in the overflow (case a), the match `cdef` at 2 straddles the boundary
(case b), the match `bc` at 1 is visible (case c). -/
theorem truncated_name_rendering_witness :
    print_name (bytes "abcdefgh") 8 6 2 4
        = some (bytes "abcd" ++ SGR_UNDERSCORE_ON ++ ELLIPSIS ++ SGR_UNDERLINE_OFF)
      ∧ print_name (bytes "abcdefgh") 8 2 4 4
        = some (bytes "ab" ++ SGR_UNDERSCORE_ON ++ bytes "cd" ++ ELLIPSIS ++ SGR_UNDERLINE_OFF)
      ∧ print_name (bytes "abcdefgh") 8 1 2 4
        = some (bytes "a" ++ SGR_UNDERSCORE_ON ++ bytes "bc" ++ SGR_UNDERLINE_OFF ++ bytes "d"
            ++ ELLIPSIS) :=
  ⟨(truncated_name_rendering (bytes "abcdefgh") 8 6 2 4 rfl (by decide) (by decide)).1
      (by decide),
    ((truncated_name_rendering (bytes "abcdefgh") 8 2 4 4 rfl (by decide) (by decide)).2.1
      (by decide) (by decide)).1,
    ((truncated_name_rendering (bytes "abcdefgh") 8 1 2 4 rfl (by decide) (by decide)).2.2
      (by decide)).1⟩

/-! ## Match spans: claim C30 -/

/-- C30: after `apply_filter`, on a catalog as `get_files` builds it, a view
holding catalog indices and a well-formed printable query, every entry of the
view has `match_start + search_len` at most the length of its name.  In every
reachable state this holds, before and after a further `apply_filter`, and the
name block of `print_view` reads no byte outside the name of any entry of the
view. -/
theorem match_span_inside_name :
    (∀ s : State, catalog_ok s.files → view_ok s → printable_query s →
        ∀ e ∈ (apply_filter s).filtered,
          e.match_start + (apply_filter s).search_len
            ≤ ((apply_filter s).files.getD e.idx default).name.length)
      ∧ (∀ s : State, Reachable s →
          span_inv s ∧ span_inv (apply_filter s)
            ∧ (∀ f ∈ s.files, f.length = f.name.length)
            ∧ ∀ e ∈ s.filtered, (print_entry_name s e).isSome = true) := by
  constructor
  · intro s hcat hv hp
    obtain ⟨Q, hq, hQ⟩ := printable_no_nul hp
    exact apply_filter_span hcat hv hq hQ
  · intro s hs
    have hr := reachable_render_inv hs
    have hi := reachable_session_inv hs
    have hp := reachable_printable_query hs
    exact ⟨hr.2.2, (apply_filter_render hr.1 hr.2.1 hi.2.2.2.2 hp).2.2, hr.2.1,
      fun e he => print_entry_name_some hr hi.2.2.2.2 he⟩

/-- C30 on the catalog `A`, `a10`, `a2`, `b` with the query `10`: the one match
is `a10` at offset 1, and 1 + 2 is at most 3. -/
theorem match_span_inside_name_witness :
    (apply_filter (demo_query [49, 48])).filtered = [⟨1, 1⟩]
      ∧ (∀ e ∈ (apply_filter (demo_query [49, 48])).filtered,
          e.match_start + (apply_filter (demo_query [49, 48])).search_len
            ≤ ((apply_filter (demo_query [49, 48])).files.getD e.idx default).name.length)
      ∧ span_inv demo_state :=
  have h0 : Reachable demo_state :=
    Reachable.start (some (5, 80)) (some demo_dir) (fun _ => none) none demo_state rfl
  ⟨by decide,
    match_span_inside_name.1 (demo_query [49, 48]) (by unfold catalog_ok; decide)
      (by unfold view_ok; decide)
      ⟨[49, 48], demo_query_state [49, 48] (by decide) 2 (Nat.le_refl _), by decide⟩,
    (match_span_inside_name.2 demo_state h0).1⟩

/-! ## Navigation and query round trips: claims C31 to C33 -/

/-- C31: on a non-empty view, in a state satisfying the navigation invariant
(with `page_size >= 1`, as it always is), `move_to_previous` followed by
`move_to_next` and `move_to_next` followed by `move_to_previous` both give back
the state they started from, in particular its `idx`, `page` and `cursor`. -/
theorem next_previous_inverse (s : State) (hps : 0 < s.page_size)
    (hN : 0 < s.filtered.length) (hinv : nav_inv s) :
    ((move_to_next (move_to_previous s).2).2.idx = s.idx
        ∧ (move_to_next (move_to_previous s).2).2.page = s.page
        ∧ (move_to_next (move_to_previous s).2).2.cursor = s.cursor)
      ∧ ((move_to_previous (move_to_next s).2).2.idx = s.idx
        ∧ (move_to_previous (move_to_next s).2).2.page = s.page
        ∧ (move_to_previous (move_to_next s).2).2.cursor = s.cursor)
      ∧ (move_to_next (move_to_previous s).2).2 = s
      ∧ (move_to_previous (move_to_next s).2).2 = s := by
  have h1 := previous_then_next s hps hN hinv
  have h2 := next_then_previous s hps hN hinv
  refine ⟨?_, ?_, h1, h2⟩
  · rw [h1]; exact ⟨rfl, rfl, rfl⟩
  · rw [h2]; exact ⟨rfl, rfl, rfl⟩

/-- C31 at the first and at the last of the five files `a` to `e` (two rows per
page), where the moves wrap around. -/
theorem next_previous_inverse_witness :
    (move_to_previous (five_at 0)).2 = five_at 4
      ∧ (move_to_next (move_to_previous (five_at 0)).2).2 = five_at 0
      ∧ (move_to_next (five_at 4)).2 = five_at 0
      ∧ (move_to_previous (move_to_next (five_at 4)).2).2 = five_at 4 :=
  have hinv0 : nav_inv (five_at 0) := fun _ => ⟨by decide, rfl, rfl⟩
  have hinv4 : nav_inv (five_at 4) := fun _ => ⟨by decide, rfl, rfl⟩
  ⟨rfl, (next_previous_inverse (five_at 0) (by decide) (by decide) hinv0).2.2.1, rfl,
    (next_previous_inverse (five_at 4) (by decide) (by decide) hinv4).2.2.2⟩

/-- C32: on an empty view each of the six moves returns `false` and leaves the
whole state, in particular `idx`, `cursor` and `page`, as it is; the branch that
computes `filtered_size - 1` is not taken. -/
theorem empty_view_moves_nothing (s : State) (h : s.filtered.length = 0) :
    move_to_previous s = (false, s) ∧ move_to_next s = (false, s)
      ∧ move_to_first s = (false, s) ∧ move_to_last s = (false, s)
      ∧ move_page_up s = (false, s) ∧ move_page_down s = (false, s) :=
  move_empty s h

/-- C32 right after start-up in an empty directory. -/
theorem empty_view_moves_nothing_witness :
    empty_dir_state.filtered.length = 0
      ∧ move_to_previous empty_dir_state = (false, empty_dir_state)
      ∧ move_to_last empty_dir_state = (false, empty_dir_state) :=
  ⟨rfl, (empty_view_moves_nothing empty_dir_state rfl).1,
    (empty_view_moves_nothing empty_dir_state rfl).2.2.2.1⟩

/-- C33: for a query `q` shorter than 255 bytes held in a well-formed buffer,
with the cursor at any `c <= |q|`, and a byte `b` in `32..126`,
`search_insert_char(b)` followed by `search_delete_char_back` leaves the query
`q` again, with `search_len` and `search_cursor` as before and the first
`search_len + 1` bytes of the buffer (the query and its NUL) unchanged. -/
theorem insert_then_delete_restores (s : State) (q : List Nat) (b : Nat)
    (hq : query_state s q) (hb : 32 ≤ b ∧ b < 127) (hlen : q.length < 255) :
    query_state (search_delete_char_back (search_insert_char b s)) q
      ∧ (search_delete_char_back (search_insert_char b s)).search_len = s.search_len
      ∧ (search_delete_char_back (search_insert_char b s)).search_cursor = s.search_cursor
      ∧ (search_delete_char_back (search_insert_char b s)).search_query.take (s.search_len + 1)
          = s.search_query.take (s.search_len + 1) := by
  have hc := hq.2.2.1
  have hins := search_insert_char_state hq hb hlen
  have hdel := search_delete_char_back_state hins.1 (by rw [hins.2]; omega)
  have hq2 : (q.take s.search_cursor ++ b :: q.drop s.search_cursor).take
        ((search_insert_char b s).search_cursor - 1)
      ++ (q.take s.search_cursor ++ b :: q.drop s.search_cursor).drop
        (search_insert_char b s).search_cursor = q := by
    rw [hins.2, Nat.add_sub_cancel]
    have hl : (q.take s.search_cursor).length = s.search_cursor := by
      rw [List.length_take]; omega
    rw [List.take_append_of_le_length (by omega), List.take_of_length_le (by omega)]
    have : s.search_cursor + 1 = (q.take s.search_cursor).length + 1 := by omega
    rw [this, List.drop_append, List.drop_one, List.tail_cons, List.take_append_drop]
  rw [hq2] at hdel
  have hcur : (search_delete_char_back (search_insert_char b s)).search_cursor
      = s.search_cursor := by
    unfold search_delete_char_back
    rw [if_pos (by rw [hins.2]; omega)]
    show (search_insert_char b s).search_cursor - 1 = _
    rw [hins.2, Nat.add_sub_cancel]
  refine ⟨hdel, by rw [hdel.1.1, hq.1.1], hcur, ?_⟩
  obtain ⟨r1, h1⟩ := hq.1.2
  obtain ⟨r2, h2⟩ := hdel.1.2
  rw [h1, h2, hq.1.1, take_succ_append_nul, take_succ_append_nul]

/-- C33 at the query `ab` with the cursor at offset 1 and the byte `x`. -/
theorem insert_then_delete_restores_witness :
    cstr (search_insert_char 120 { demo_query [97, 98] with search_cursor := 1 }).search_query
        = [97, 120, 98]
      ∧ query_state (search_delete_char_back
          (search_insert_char 120 { demo_query [97, 98] with search_cursor := 1 })) [97, 98]
      ∧ (search_delete_char_back
          (search_insert_char 120 { demo_query [97, 98] with search_cursor := 1 })).search_cursor
          = 1 :=
  have h := insert_then_delete_restores { demo_query [97, 98] with search_cursor := 1 } [97, 98]
    120 (demo_query_state [97, 98] (by decide) 1 (by decide)) (by decide) (by decide)
  ⟨by decide, h.1, h.2.2.1⟩

/-! ## The header path: claim C34 -/

/-- C34, failing input: with `HOME=/home/u`, the current path `/home/u/x` and
a terminal one column wide, the alias `~` is used and the displayed path `/x`
(2 bytes) does not fit, so the count handed to `WRITE_ERR` is `win_cols - 2`,
which wraps around to `2 ^ 64 - 1`: it exceeds the length of the displayed path,
the read leaves the path, and the header is wider than the terminal.  With two
columns the same path is written as `~` and the ellipsis. -/
theorem header_width_one_wraps :
    use_tilde (bytes "/home/u/x") (some (bytes "/home/u")) = true
      ∧ display_len (bytes "/home/u/x") (some (bytes "/home/u")) = 2
      ∧ (print_header_path (bytes "/home/u/x") (some (bytes "/home/u")) 1).count = 2 ^ 64 - 1
      ∧ (print_header_path (bytes "/home/u/x") (some (bytes "/home/u")) 1).out = none
      ∧ ¬ header_columns (bytes "/home/u/x") (some (bytes "/home/u")) 1 ≤ 1
      ∧ (print_header_path (bytes "/home/u/x") (some (bytes "/home/u")) 2).out
          = some (bytes "~" ++ ELLIPSIS) := by
  refine ⟨by decide, by decide, by decide, by decide, by decide, by decide⟩

end Explorer
